import Mathlib

/-!
Verification of the glymur JPEG 2000 container / codestream parser
against its natural-language specification.

The repository's test suite is available, but the parser modules
themselves (`glymur/jp2box.py`, `glymur/codestream.py`, `glymur/jp2k.py`)
are not part of the source snapshot.  Every definition below that embeds
one of those missing functions is therefore modelled from the
specification (and, where the specification is silent, from the exact
behaviour pinned by the repository's own tests); each such definition
says so in its doc comment.

Bytes are modelled as `Fin 256`; multi-byte fields are big-endian, per
the spec's external-interface section.
-/

namespace Glymur

/-- A byte of the input stream. -/
abbrev Byte := Fin 256

/-- Big-endian encoding of `n` into exactly `w` bytes (most significant
first); values that do not fit are truncated modulo `256 ^ w`, matching
the behaviour of fixed-width binary fields. -/
def toBytesBE : Nat → Nat → List Byte
  | 0, _ => []
  | w + 1, n => toBytesBE w (n / 256) ++ [Fin.ofNat n]

/-- Big-endian value of a byte list. -/
def fromBytesBE (bs : List Byte) : Nat :=
  bs.foldl (fun a b => a * 256 + b.val) 0

/-- Read `w` bytes big-endian from the front of `bs`; `none` when fewer
than `w` bytes remain (reading past the end of the range is the spec's
unrecoverable condition). -/
def readBE (w : Nat) (bs : List Byte) : Option (Nat × List Byte) :=
  if w ≤ bs.length then some (fromBytesBE (bs.take w), bs.drop w) else none

/-- Take exactly `w` raw bytes from the front of `bs`; `none` when fewer
remain. -/
def readChunk (w : Nat) (bs : List Byte) : Option (List Byte × List Byte) :=
  if w ≤ bs.length then some (bs.take w, bs.drop w) else none

/-- Recoverable parse anomalies, per the spec's error-handling design:
each carries the offending raw value(s) so the message can be
reproduced.  Modelled from the spec: the warning classes live in the
missing `glymur.codestream` / `glymur.jp2box` modules. -/
inductive Warning where
  | UnrecognizedBoxWarning (boxId : Nat)
  | UnrecognizedMarkerWarning (code : Nat)
  | InvalidProgressionOrderWarning (raw : Nat)
  | InvalidNumberOfResolutionsWarning (numRes : Nat)
  | InvalidWaveletTransformWarning (raw : Nat)
  | InvalidSubsamplingWarning (component dx dy : Nat)
  | InvalidNumberOfTilesWarning (numTiles : Nat)
  | InvalidTileDimensionsWarning (xtsiz ytsiz : Nat)
  | InvalidCodeblockSizeWarning (width height : Nat)
  | InvalidProfileWarning (rsiz : Nat)
  deriving DecidableEq, Repr

/-- SIZ marker segment: image and tile geometry plus per-component
bit depth, signedness and subsampling.  Modelled from the spec:
`glymur.codestream.SIZsegment`.  `ssiz` keeps the raw packed
bitdepth/signed bytes; `bitdepth` and `signed` are the decoded views
(low 7 bits plus one, top bit). -/
structure SIZsegment where
  rsiz : Nat
  xsiz : Nat
  ysiz : Nat
  xosiz : Nat
  yosiz : Nat
  xtsiz : Nat
  ytsiz : Nat
  xtosiz : Nat
  ytosiz : Nat
  ssiz : List Nat
  bitdepth : List Nat
  signed : List Bool
  xrsiz : List Nat
  yrsiz : List Nat
  deriving DecidableEq, Repr

/-- Number of components of a SIZ segment, implicitly the size of the
per-component tuples. -/
def SIZsegment.numComponents (s : SIZsegment) : Nat := s.xrsiz.length

/-- Ceiling division, used for the tile-grid computation. -/
def ceilDiv (a b : Nat) : Nat := (a + b - 1) / b

/-- Computed number of tiles of a SIZ segment:
`ceil((xsiz-xtosiz)/xtsiz) * ceil((ysiz-ytosiz)/ytsiz)`. -/
def SIZsegment.numTiles (s : SIZsegment) : Nat :=
  ceilDiv (s.xsiz - s.xtosiz) s.xtsiz * ceilDiv (s.ysiz - s.ytosiz) s.ytsiz

/-- Read `n` per-component (ssiz, xrsiz, yrsiz) byte triples. -/
def readComps : Nat → List Byte → Option ((List Nat × List Nat × List Nat) × List Byte)
  | 0, bs => some (([], [], []), bs)
  | n + 1, s :: x :: y :: rest =>
    (readComps n rest).map fun p => ((s.val :: p.1.1, x.val :: p.1.2.1, y.val :: p.1.2.2), p.2)
  | _ + 1, _ => none

/-- Warnings attached to a freshly parsed SIZ segment: invalid profile,
zero tile dimensions or an absurd computed tile count (sanity bound
65535, the format's maximum tile count), and zero subsampling values,
each naming the offending component.  Modelled from the spec. -/
def sizWarnings (s : SIZsegment) : List Warning :=
  (if s.rsiz ∈ [0, 1, 2, 3, 4] then [] else [Warning.InvalidProfileWarning s.rsiz]) ++
  (if s.xtsiz = 0 ∨ s.ytsiz = 0 then [Warning.InvalidTileDimensionsWarning s.xtsiz s.ytsiz]
   else if 65535 < s.numTiles then [Warning.InvalidNumberOfTilesWarning s.numTiles] else []) ++
  ((List.zip (List.range s.xrsiz.length) (List.zip s.xrsiz s.yrsiz)).filterMap
    fun p => if p.2.1 = 0 ∨ p.2.2 = 0
             then some (Warning.InvalidSubsamplingWarning p.1 p.2.1 p.2.2) else none)

/-- Read a sequence of big-endian fields of the given byte widths. -/
def readBEs : List Nat → List Byte → Option (List Nat × List Byte)
  | [], bs => some ([], bs)
  | w :: ws, bs =>
    match readBE w bs with
    | none => none
    | some (v, r) =>
      match readBEs ws r with
      | none => none
      | some (vs, r2) => some (v :: vs, r2)

/-- Write a sequence of big-endian fields of the given byte widths
(the writer's mirror of `readBEs`). -/
def toBytesBEs : List Nat → List Nat → List Byte
  | w :: ws, v :: vs => toBytesBE w v ++ toBytesBEs ws vs
  | _, _ => []

/-- The field widths of the fixed part of a SIZ segment content:
rsiz, the eight 4-byte geometry fields, and the component count. -/
def sizWidths : List Nat := [2, 4, 4, 4, 4, 4, 4, 4, 4, 2]

/-- Parse the content of a SIZ segment (the bytes after the length
field): rsiz, the eight 4-byte geometry fields, the 2-byte component
count and that many (ssiz, xrsiz, yrsiz) triples.  Modelled from the
spec. -/
def parseSizContent (content : List Byte) : Option (SIZsegment × List Warning) :=
  match readBEs sizWidths content with
  | some ([rsiz, xsiz, ysiz, xosiz, yosiz, xtsiz, ytsiz, xtosiz, ytosiz, csiz], c9) =>
    (match readComps csiz c9 with
     | some (comps, _) =>
       let seg : SIZsegment :=
         { rsiz := rsiz, xsiz := xsiz, ysiz := ysiz, xosiz := xosiz, yosiz := yosiz,
           xtsiz := xtsiz, ytsiz := ytsiz, xtosiz := xtosiz, ytosiz := ytosiz,
           ssiz := comps.1,
           bitdepth := comps.1.map (fun v => v % 128 + 1),
           signed := comps.1.map (fun v => 128 ≤ v),
           xrsiz := comps.2.1, yrsiz := comps.2.2 }
       some (seg, sizWarnings seg)
     | none => none)
  | _ => none

/-- Parse a SIZ marker segment from the byte stream positioned just
after the 0xFF51 marker code: 2-byte length (counting itself), then the
segment content.  Returns the segment, the stream after the declared
segment length, and the recoverable anomalies; `none` is the
unrecoverable case (truncated field).  Modelled from the spec:
`glymur.codestream.Codestream._parse_siz_segment`. -/
def parseSizSegment (bs : List Byte) : Option (SIZsegment × List Byte × List Warning) :=
  match readBE 2 bs with
  | some (len, r0) =>
    (match readChunk (len - 2) r0 with
     | some (content, rest) =>
       (match parseSizContent content with
        | some (seg, ws) => some (seg, rest, ws)
        | none => none)
     | none => none)
  | none => none

/-- COD marker segment: coding style defaults.  `levels` is the raw
decomposition-levels byte; `cbwExp`/`cbhExp` are the raw code-block
exponent bytes (value + 2 = log2 of the dimension); `precinctSize` the
per-resolution precinct nibble-pair bytes, present only when bit 0 of
`scod` is set.  Modelled from the spec: `glymur.codestream.CODsegment`. -/
structure CODsegment where
  scod : Nat
  progOrder : Nat
  layers : Nat
  mct : Nat
  levels : Nat
  cbwExp : Nat
  cbhExp : Nat
  cbStyle : Nat
  xform : Nat
  precinctSize : List Nat
  deriving DecidableEq, Repr

/-- Derived number of resolutions: decomposition levels plus one. -/
def CODsegment.numRes (c : CODsegment) : Nat := c.levels + 1

/-- Code-block width of a COD segment (exponent byte + 2 = log2). -/
def CODsegment.cbWidth (c : CODsegment) : Nat := 2 ^ (c.cbwExp + 2)

/-- Code-block height of a COD segment. -/
def CODsegment.cbHeight (c : CODsegment) : Nat := 2 ^ (c.cbhExp + 2)

/-- Warnings attached to a freshly parsed COD segment: progression
order outside the five enumerants, derived resolution count outside
[1,33], code-block dimensions outside [4,1024] or area over 4096, and a
wavelet transform id other than 0/1.  Modelled from the spec. -/
def codWarnings (c : CODsegment) : List Warning :=
  (if c.progOrder ≤ 4 then [] else [Warning.InvalidProgressionOrderWarning c.progOrder]) ++
  (if 1 ≤ c.numRes ∧ c.numRes ≤ 33 then [] else
    [Warning.InvalidNumberOfResolutionsWarning c.numRes]) ++
  (if c.cbwExp + 2 ≤ 10 ∧ c.cbhExp + 2 ≤ 10 ∧ (c.cbwExp + 2) + (c.cbhExp + 2) ≤ 12 then []
   else [Warning.InvalidCodeblockSizeWarning c.cbWidth c.cbHeight]) ++
  (if c.xform ≤ 1 then [] else [Warning.InvalidWaveletTransformWarning c.xform])

/-- Parse the content of a COD segment (the bytes following the 2-byte
length field): SCOD, then SGcod (progression order, layers, MCT), then
SPcod (decomposition levels, code-block width/height exponents,
code-block style, wavelet transform id, and — when bit 0 of SCOD is set
— one precinct-size byte per resolution).  Modelled from the spec. -/
def parseCodContent (content : List Byte) : Option (CODsegment × List Warning) :=
  match readBEs [1, 1, 2, 1, 1, 1, 1, 1, 1] content with
  | some ([scod, prog, layers, mct, levels, cbw, cbh, cbstyle, xform], c8) =>
    (match (if scod % 2 = 1 then readChunk (levels + 1) c8 else some ([], c8)) with
     | some (precBytes, _) =>
       let seg : CODsegment :=
         { scod := scod, progOrder := prog, layers := layers, mct := mct, levels := levels,
           cbwExp := cbw, cbhExp := cbh, cbStyle := cbstyle, xform := xform,
           precinctSize := precBytes.map Fin.val }
       some (seg, codWarnings seg)
     | none => none)
  | _ => none

/-- Parse a COD marker segment from the stream positioned after the
0xFF52 marker code: 2-byte length, then the segment content.  Modelled
from the spec: `glymur.codestream.Codestream._parse_cod_segment`. -/
def parseCodSegment (bs : List Byte) : Option (CODsegment × List Byte × List Warning) :=
  match readBE 2 bs with
  | some (len, r0) =>
    (match readChunk (len - 2) r0 with
     | some (content, rest) =>
       (match parseCodContent content with
        | some (seg, ws) => some (seg, rest, ws)
        | none => none)
     | none => none)
  | none => none

/-- SOT marker segment: start of tile-part.  Modelled from the spec:
`glymur.codestream.SOTsegment`. -/
structure SOTsegment where
  isot : Nat
  psot : Nat
  tpsot : Nat
  tnsot : Nat
  deriving DecidableEq, Repr

/-- Parse an SOT marker segment from the stream positioned after the
0xFF90 marker code.  Modelled from the spec. -/
def parseSotSegment (bs : List Byte) : Option (SOTsegment × List Byte × List Warning) :=
  match readBE 2 bs with
  | some (len, r0) =>
    (match readChunk (len - 2) r0 with
     | some (content, rest) =>
       (match readBEs [2, 4, 1, 1] content with
        | some ([isot, psot, tpsot, tnsot], _) =>
          some ({ isot := isot, psot := psot, tpsot := tpsot, tnsot := tnsot }, rest, [])
        | _ => none)
     | none => none)
  | none => none

/-- COC marker segment: coding style for one component — the component
index, the coding-style byte, then the SPcoc tail shared with COD
(decomposition levels, code-block width/height exponents, code-block
style, wavelet transform id and, when bit 0 of the style byte is set,
one precinct byte per resolution).  The SGcod fields (progression
order, layers, MCT) belong to COD only.  Modelled from the spec:
`glymur.codestream.COCsegment`. -/
structure COCsegment where
  ccoc : Nat
  scoc : Nat
  levels : Nat
  cbwExp : Nat
  cbhExp : Nat
  cbStyle : Nat
  xform : Nat
  precinctSize : List Nat
  deriving DecidableEq, Repr

/-- Warnings attached to a freshly parsed COC segment: the COD field
checks that apply to a COC (derived resolution count, code-block
dimensions, wavelet id).  Modelled from the spec's COD/COC rule. -/
def cocWarnings (c : COCsegment) : List Warning :=
  (if 1 ≤ c.levels + 1 ∧ c.levels + 1 ≤ 33 then [] else
    [Warning.InvalidNumberOfResolutionsWarning (c.levels + 1)]) ++
  (if c.cbwExp + 2 ≤ 10 ∧ c.cbhExp + 2 ≤ 10 ∧ (c.cbwExp + 2) + (c.cbhExp + 2) ≤ 12 then []
   else [Warning.InvalidCodeblockSizeWarning (2 ^ (c.cbwExp + 2)) (2 ^ (c.cbhExp + 2))]) ++
  (if c.xform ≤ 1 then [] else [Warning.InvalidWaveletTransformWarning c.xform])

/-- Parse the content of a COC segment; `w` is the byte width of the
component index (1 while the SIZ component count is below 257, else
2).  Modelled from the spec. -/
def parseCocContent (w : Nat) (content : List Byte) : Option (COCsegment × List Warning) :=
  match readBEs [w, 1, 1, 1, 1, 1, 1] content with
  | some ([ccoc, scoc, levels, cbw, cbh, cbstyle, xform], c7) =>
    (match (if scoc % 2 = 1 then readChunk (levels + 1) c7 else some ([], c7)) with
     | some (precBytes, _) =>
       let seg : COCsegment :=
         { ccoc := ccoc, scoc := scoc, levels := levels, cbwExp := cbw, cbhExp := cbh,
           cbStyle := cbstyle, xform := xform, precinctSize := precBytes.map Fin.val }
       some (seg, cocWarnings seg)
     | none => none)
  | _ => none

/-- Serialize the content of a COC segment for component-index width
`w`. -/
def serializeCocContent (w : Nat) (c : COCsegment) : List Byte :=
  toBytesBEs [w, 1, 1, 1, 1, 1, 1]
    [c.ccoc, c.scoc, c.levels, c.cbwExp, c.cbhExp, c.cbStyle, c.xform] ++
  c.precinctSize.map Fin.ofNat

/-- Decode a whole byte list as big-endian 16-bit words. -/
def readPairs16 : List Byte → Option (List Nat)
  | [] => some []
  | a :: b :: t => (readPairs16 t).map ((a.val * 256 + b.val) :: ·)
  | _ => none

/-- Decode the quantization tail after the style byte: style 0 (no
quantization) packs one 5-bit exponent per byte (mantissa 0); style 1
(scalar derived) packs a single 2-byte word of 5-bit exponent and
11-bit mantissa; style 2 (scalar expounded) packs one such word per
sub-band.  Styles outside the spec's enumeration fail.  Returns
(mantissa, exponent).  Modelled from the spec. -/
def parseQuantTail (style : Nat) (bs : List Byte) : Option (List Nat × List Nat) :=
  if style = 0 then some (List.replicate bs.length 0, bs.map (fun b => b.val / 8))
  else if style = 1 then
    (match bs with
     | [a, b] => some ([(a.val * 256 + b.val) % 2048], [(a.val * 256 + b.val) / 2048])
     | _ => none)
  else if style = 2 then
    (readPairs16 bs).map fun vs => (vs.map (fun v => v % 2048), vs.map (fun v => v / 2048))
  else none

/-- The writer's mirror of the 2-byte quantization words. -/
def quantBytes : List Nat → List Nat → List Byte
  | e :: es, m :: ms => toBytesBE 2 (e * 2048 + m) ++ quantBytes es ms
  | _, _ => []

/-- Serialize a quantization tail from the raw style byte. -/
def serializeQuantTail (style : Nat) (mant exp : List Nat) : List Byte :=
  if style = 0 then exp.map (fun e => (Fin.ofNat (e * 8) : Byte))
  else quantBytes exp mant

/-- QCD marker segment: quantization defaults — the raw style byte
(quantization style in the low 5 bits, guard bits in the top 3) and
the decoded per-sub-band mantissa/exponent lists.  Modelled from the
spec: `glymur.codestream.QCDsegment`. -/
structure QCDsegment where
  sqcd : Nat
  mantissa : List Nat
  exponent : List Nat
  deriving DecidableEq, Repr

/-- Parse the content of a QCD segment.  Modelled from the spec. -/
def parseQcdContent (content : List Byte) : Option (QCDsegment × List Warning) :=
  match content with
  | sq :: rest =>
    (parseQuantTail (sq.val % 32) rest).map fun p =>
      ({ sqcd := sq.val, mantissa := p.1, exponent := p.2 }, [])
  | [] => none

/-- Serialize the content of a QCD segment. -/
def serializeQcdContent (q : QCDsegment) : List Byte :=
  (Fin.ofNat q.sqcd : Byte) :: serializeQuantTail (q.sqcd % 32) q.mantissa q.exponent

/-- QCC marker segment: quantization for one component — component
index, then a QCD-shaped tail.  Modelled from the spec:
`glymur.codestream.QCCsegment`. -/
structure QCCsegment where
  cqcc : Nat
  sqcc : Nat
  mantissa : List Nat
  exponent : List Nat
  deriving DecidableEq, Repr

/-- Parse the content of a QCC segment; `w` is the byte width of the
component index (1 while the SIZ component count is below 257, else
2).  Modelled from the spec. -/
def parseQccContent (w : Nat) (content : List Byte) : Option (QCCsegment × List Warning) :=
  match readBE w content with
  | some (cqcc, r1) =>
    (match r1 with
     | sq :: rest =>
       (parseQuantTail (sq.val % 32) rest).map fun p =>
         ({ cqcc := cqcc, sqcc := sq.val, mantissa := p.1, exponent := p.2 }, [])
     | [] => none)
  | none => none

/-- Serialize the content of a QCC segment for component-index width
`w`. -/
def serializeQccContent (w : Nat) (q : QCCsegment) : List Byte :=
  toBytesBE w q.cqcc ++
  ((Fin.ofNat q.sqcc : Byte) :: serializeQuantTail (q.sqcc % 32) q.mantissa q.exponent)

/-- RGN marker segment: region of interest — component index, ROI
style (0), implicit ROI shift.  Modelled from the spec:
`glymur.codestream.RGNsegment`. -/
structure RGNsegment where
  crgn : Nat
  srgn : Nat
  sprgn : Nat
  deriving DecidableEq, Repr

/-- Parse the content of an RGN segment: the component index is 1 byte
while the SIZ component count is below 257 and 2 bytes otherwise,
recovered here from the content length (3 or 4), then the style and
shift bytes.  Modelled from the spec. -/
def parseRgnContent : List Byte → Option (RGNsegment × List Warning)
  | [c, s, p] => some ({ crgn := c.val, srgn := s.val, sprgn := p.val }, [])
  | [c1, c2, s, p] =>
    some ({ crgn := c1.val * 256 + c2.val, srgn := s.val, sprgn := p.val }, [])
  | _ => none

/-- Serialize the content of an RGN segment; the component index takes
2 bytes exactly when it does not fit one. -/
def serializeRgnContent (r : RGNsegment) : List Byte :=
  (if r.crgn < 256 then [(Fin.ofNat r.crgn : Byte)] else toBytesBE 2 r.crgn) ++
  [(Fin.ofNat r.srgn : Byte), (Fin.ofNat r.sprgn : Byte)]

/-- CRG marker segment: component registration — one (Xcrg, Ycrg)
2-byte pair per component.  Modelled from the spec:
`glymur.codestream.CRGsegment`. -/
structure CRGsegment where
  xcrg : List Nat
  ycrg : List Nat
  deriving DecidableEq, Repr

/-- Decode the (Xcrg, Ycrg) 2-byte pairs covering the whole content. -/
def readCrgPairs : List Byte → Option (List Nat × List Nat)
  | [] => some ([], [])
  | a :: b :: c :: d :: t =>
    (readCrgPairs t).map fun p => ((a.val * 256 + b.val) :: p.1, (c.val * 256 + d.val) :: p.2)
  | _ => none

/-- The writer's mirror of the (Xcrg, Ycrg) pairs. -/
def crgBytes : List Nat → List Nat → List Byte
  | x :: xs, y :: ys => toBytesBE 2 x ++ (toBytesBE 2 y ++ crgBytes xs ys)
  | _, _ => []

/-- Parse the content of a CRG segment.  Modelled from the spec. -/
def parseCrgContent (content : List Byte) : Option (CRGsegment × List Warning) :=
  (readCrgPairs content).map fun p => ({ xcrg := p.1, ycrg := p.2 }, [])

/-- Serialize the content of a CRG segment. -/
def serializeCrgContent (c : CRGsegment) : List Byte := crgBytes c.xcrg c.ycrg

/-- Decode a packet-length table of 7-bit continuation-flagged bytes:
a set top bit means more bytes follow for the current value.  `acc` is
the value accumulated so far and `pending` whether a continuation byte
of an unfinished value has been consumed (a table ending mid-value is
malformed).  Modelled from the spec. -/
def decode7 : List Byte → Nat → Bool → Option (List Nat)
  | [], _, pending => if pending then none else some []
  | b :: t, acc, _ =>
    if b.val < 128 then (decode7 t 0 false).map ((acc * 128 + b.val) :: ·)
    else decode7 t (acc * 128 + (b.val - 128)) true

/-- The continuation bytes (top bit set) of the base-128 digits of
`m`, most significant first; any `fuel ≥ m` suffices. -/
def encode7Hi : Nat → Nat → List Byte
  | 0, _ => []
  | _, 0 => []
  | f + 1, m => encode7Hi f (m / 128) ++ [(Fin.ofNat (128 + m % 128) : Byte)]

/-- Encode one packet length in 7-bit continuation-flagged bytes. -/
def encode7 (n : Nat) : List Byte :=
  encode7Hi n (n / 128) ++ [(Fin.ofNat (n % 128) : Byte)]

/-- The writer's mirror of a whole packet-length table. -/
def packetBytes : List Nat → List Byte
  | [] => []
  | v :: t => encode7 v ++ packetBytes t

/-- PLT marker segment: packet lengths (tile-part) — the Zplt index
byte and the decoded packet-length table.  Modelled from the spec:
`glymur.codestream.PLTsegment`. -/
structure PLTsegment where
  zplt : Nat
  iplt : List Nat
  deriving DecidableEq, Repr

/-- Parse the content of a PLT segment.  Modelled from the spec. -/
def parsePltContent : List Byte → Option (PLTsegment × List Warning)
  | z :: rest => (decode7 rest 0 false).map fun vals => ({ zplt := z.val, iplt := vals }, [])
  | [] => none

/-- Serialize the content of a PLT segment. -/
def serializePltContent (p : PLTsegment) : List Byte :=
  (Fin.ofNat p.zplt : Byte) :: packetBytes p.iplt

/-- PLM marker segment: packet lengths (main header) — the Zplm index
byte and the decoded packet-length table.  Modelled from the spec:
`glymur.codestream.PLMsegment`. -/
structure PLMsegment where
  zplm : Nat
  iplm : List Nat
  deriving DecidableEq, Repr

/-- Parse the content of a PLM segment.  Modelled from the spec. -/
def parsePlmContent : List Byte → Option (PLMsegment × List Warning)
  | z :: rest => (decode7 rest 0 false).map fun vals => ({ zplm := z.val, iplm := vals }, [])
  | [] => none

/-- Serialize the content of a PLM segment. -/
def serializePlmContent (p : PLMsegment) : List Byte :=
  (Fin.ofNat p.zplm : Byte) :: packetBytes p.iplm

/-- PPT marker segment: packed packet headers (tile-part) — the Zppt
index byte and the raw packed-header bytes, kept opaque as the cited
tests pin.  Modelled from the spec and
`glymur.codestream.PPTsegment`. -/
structure PPTsegment where
  zppt : Nat
  data : List Byte
  deriving DecidableEq, Repr

/-- Parse the content of a PPT segment. -/
def parsePptContent : List Byte → Option (PPTsegment × List Warning)
  | z :: rest => some ({ zppt := z.val, data := rest }, [])
  | [] => none

/-- Serialize the content of a PPT segment. -/
def serializePptContent (p : PPTsegment) : List Byte := (Fin.ofNat p.zppt : Byte) :: p.data

/-- PPM marker segment: packed packet headers (main header) — the Zppm
index byte and the raw packed-header bytes.  Modelled from the spec
and `glymur.codestream.PPMsegment`. -/
structure PPMsegment where
  zppm : Nat
  data : List Byte
  deriving DecidableEq, Repr

/-- Parse the content of a PPM segment. -/
def parsePpmContent : List Byte → Option (PPMsegment × List Warning)
  | z :: rest => some ({ zppm := z.val, data := rest }, [])
  | [] => none

/-- Serialize the content of a PPM segment. -/
def serializePpmContent (p : PPMsegment) : List Byte := (Fin.ofNat p.zppm : Byte) :: p.data

/-- COM marker segment: comment — the 2-byte registration value and
the comment bytes.  Modelled from the spec:
`glymur.codestream.COMsegment`. -/
structure COMsegment where
  rcme : Nat
  ccme : List Byte
  deriving DecidableEq, Repr

/-- Parse the content of a COM segment. -/
def parseComContent (content : List Byte) : Option (COMsegment × List Warning) :=
  match readBE 2 content with
  | some (r, rest) => some ({ rcme := r, ccme := rest }, [])
  | none => none

/-- Serialize the content of a COM segment. -/
def serializeComContent (c : COMsegment) : List Byte := toBytesBE 2 c.rcme ++ c.ccme

/-- Parse a marker segment body positioned after its 2-byte marker
code: the 2-byte length (counting itself), the content chunk, then the
given content parser.  The common frame of every non-delimiter
segment.  Modelled from the spec. -/
def parseSegBody {α : Type} (contentParse : List Byte → Option (α × List Warning))
    (bs : List Byte) : Option (α × List Byte × List Warning) :=
  match readBE 2 bs with
  | some (len, r0) =>
    (match readChunk (len - 2) r0 with
     | some (content, rest) =>
       (match contentParse content with
        | some (seg, ws) => some (seg, rest, ws)
        | none => none)
     | none => none)
  | none => none

/-- A parsed marker segment.  SIZ, COD, SOT, COC, QCD, QCC, RGN, CRG,
PLT, PLM, PPT, PPM and COM are decoded in full; the remaining known
code (POD, whose layout the spec does not detail) is kept as a
`generic` segment carrying its raw payload; codes outside the known
set become opaque `unknown` segments.  Modelled from the spec's
marker-segment variant. -/
inductive Segment where
  | SOC
  | SOD
  | EOC
  | SIZ (s : SIZsegment)
  | COD (c : CODsegment)
  | SOT (t : SOTsegment)
  | COC (c : COCsegment)
  | QCD (q : QCDsegment)
  | QCC (q : QCCsegment)
  | RGN (r : RGNsegment)
  | CRG (c : CRGsegment)
  | PLT (p : PLTsegment)
  | PLM (p : PLMsegment)
  | PPT (p : PPTsegment)
  | PPM (p : PPMsegment)
  | COM (c : COMsegment)
  | generic (code : Nat) (length : Nat) (data : List Byte)
  | unknown (code : Nat) (length : Nat) (data : List Byte)
  deriving DecidableEq, Repr

/-- The known marker codes: SOC, SIZ, COD, COC, PLM, PLT, QCD, QCC,
RGN, POD, PPM, PPT, CRG, COM, SOT, SOD, EOC. -/
def knownMarkerCodes : List Nat :=
  [0xFF4F, 0xFF51, 0xFF52, 0xFF53, 0xFF57, 0xFF58, 0xFF5C, 0xFF5D,
   0xFF5E, 0xFF5F, 0xFF60, 0xFF61, 0xFF63, 0xFF64, 0xFF90, 0xFF93, 0xFFD9]

/-- Lower-case hex digit. -/
def hexDigitChar (d : Nat) : Char := Char.ofNat (if d < 10 then 48 + d else 87 + d)

/-- Render a raw 16-bit marker code the way the source renders the id
of an unrecognized marker segment, e.g. `0xff6f`. -/
def markerIdString (code : Nat) : String :=
  String.mk ['0', 'x', hexDigitChar (code / 4096 % 16), hexDigitChar (code / 256 % 16),
             hexDigitChar (code / 16 % 16), hexDigitChar (code % 16)]

/-- The `marker_id` attribute of a segment; unrecognized markers render
their raw code in hex.  (Opaquely parsed known segments also render
numerically in this model; no theorem depends on them.) -/
def Segment.markerId : Segment → String
  | .SOC => "SOC"
  | .SOD => "SOD"
  | .EOC => "EOC"
  | .SIZ _ => "SIZ"
  | .COD _ => "COD"
  | .SOT _ => "SOT"
  | .COC _ => "COC"
  | .QCD _ => "QCD"
  | .QCC _ => "QCC"
  | .RGN _ => "RGN"
  | .CRG _ => "CRG"
  | .PLT _ => "PLT"
  | .PLM _ => "PLM"
  | .PPT _ => "PPT"
  | .PPM _ => "PPM"
  | .COM _ => "COM"
  | .generic c _ _ => markerIdString c
  | .unknown c _ _ => markerIdString c

/-- The declared `length` attribute of a segment (the 2-byte length
field's value; delimiters have none and report 0 here). -/
def Segment.segLength : Segment → Nat
  | .SOC | .SOD | .EOC => 0
  | .SIZ s => 38 + 3 * s.ssiz.length
  | .COD c => 12 + c.precinctSize.length
  | .SOT _ => 10
  | .COC c => 2 + (serializeCocContent 1 c).length
  | .QCD q => 2 + (serializeQcdContent q).length
  | .QCC q => 2 + (serializeQccContent 1 q).length
  | .RGN r => 2 + (serializeRgnContent r).length
  | .CRG c => 2 + (serializeCrgContent c).length
  | .PLT p => 2 + (serializePltContent p).length
  | .PLM p => 2 + (serializePlmContent p).length
  | .PPT p => 2 + (serializePptContent p).length
  | .PPM p => 2 + (serializePpmContent p).length
  | .COM c => 2 + (serializeComContent c).length
  | .generic _ l _ => l
  | .unknown _ l _ => l

/-- One step of the marker-segment walk: read the 2-byte marker code;
delimiters (SOC, SOD, EOC) carry no length field; otherwise read the
2-byte length and dispatch on the code, capturing codes outside the
known set as opaque segments with an `UnrecognizedMarkerWarning`.
The component-index fields of COC and QCC are dispatched at width 1,
the regime of every cited file (a SIZ component count of 257 or more
widens them to 2 bytes; both widths are covered by the
width-parameterized content parsers).  Modelled from the spec: the
marker dispatch of `glymur.codestream.Codestream.__init__`. -/
def parseOneSegment (bs : List Byte) : Option (Segment × List Byte × List Warning) :=
  match readBE 2 bs with
  | some (code, r0) =>
    if code = 0xFF4F then some (Segment.SOC, r0, [])
    else if code = 0xFF93 then some (Segment.SOD, r0, [])
    else if code = 0xFFD9 then some (Segment.EOC, r0, [])
    else if code = 0xFF51 then
      (parseSizSegment r0).map fun p => (Segment.SIZ p.1, p.2.1, p.2.2)
    else if code = 0xFF52 then
      (parseCodSegment r0).map fun p => (Segment.COD p.1, p.2.1, p.2.2)
    else if code = 0xFF90 then
      (parseSotSegment r0).map fun p => (Segment.SOT p.1, p.2.1, p.2.2)
    else if code = 0xFF53 then
      (parseSegBody (parseCocContent 1) r0).map fun p => (Segment.COC p.1, p.2.1, p.2.2)
    else if code = 0xFF5C then
      (parseSegBody parseQcdContent r0).map fun p => (Segment.QCD p.1, p.2.1, p.2.2)
    else if code = 0xFF5D then
      (parseSegBody (parseQccContent 1) r0).map fun p => (Segment.QCC p.1, p.2.1, p.2.2)
    else if code = 0xFF5E then
      (parseSegBody parseRgnContent r0).map fun p => (Segment.RGN p.1, p.2.1, p.2.2)
    else if code = 0xFF63 then
      (parseSegBody parseCrgContent r0).map fun p => (Segment.CRG p.1, p.2.1, p.2.2)
    else if code = 0xFF58 then
      (parseSegBody parsePltContent r0).map fun p => (Segment.PLT p.1, p.2.1, p.2.2)
    else if code = 0xFF57 then
      (parseSegBody parsePlmContent r0).map fun p => (Segment.PLM p.1, p.2.1, p.2.2)
    else if code = 0xFF61 then
      (parseSegBody parsePptContent r0).map fun p => (Segment.PPT p.1, p.2.1, p.2.2)
    else if code = 0xFF60 then
      (parseSegBody parsePpmContent r0).map fun p => (Segment.PPM p.1, p.2.1, p.2.2)
    else if code = 0xFF64 then
      (parseSegBody parseComContent r0).map fun p => (Segment.COM p.1, p.2.1, p.2.2)
    else
      match readBE 2 r0 with
      | some (len, r1) =>
        (match readChunk (len - 2) r1 with
         | some (data, rest) =>
           if code ∈ knownMarkerCodes then some (Segment.generic code len data, rest, [])
           else some (Segment.unknown code len data, rest,
                      [Warning.UnrecognizedMarkerWarning code])
         | none => none)
      | none => none
  | none => none

/-- The marker-segment walk in header-only mode: segments are parsed in
sequence until SOD (first tile-part data) or EOC stops the scan; an
unrecoverable anomaly in any segment aborts the parse; warnings
accumulate across segments.  Modelled from the spec. -/
def parseSegmentsAux : Nat → List Byte → Option (List Segment × List Warning)
  | _, [] => some ([], [])
  | 0, _ => none
  | fuel + 1, bs =>
    match parseOneSegment bs with
    | some (seg, rest, ws) =>
      (match seg with
       | .SOD => some ([Segment.SOD], ws)
       | .EOC => some ([Segment.EOC], ws)
       | _ =>
         match parseSegmentsAux fuel rest with
         | some (segs, ws2) => some (seg :: segs, ws ++ ws2)
         | none => none)
    | none => none

/-- Parse a codestream in header-only mode: the first marker must be
SOC (0xFF4F) or the whole parse fails hard (not a JPEG 2000
codestream); then the marker-segment walk runs until the first SOD.
Modelled from the spec: `glymur.codestream.Codestream` with
`header_only=True`. -/
def parseCodestream (bs : List Byte) : Option (List Segment × List Warning) :=
  match readBE 2 bs with
  | some (code, rest) =>
    if code = 0xFF4F then
      match parseSegmentsAux bs.length rest with
      | some (segs, ws) => some (Segment.SOC :: segs, ws)
      | none => none
    else none
  | none => none

/-- Interleave the per-component (ssiz, xrsiz, yrsiz) triples back into
bytes, the writer's mirror of `readComps`. -/
def compBytes : List Nat → List Nat → List Nat → List Byte
  | s :: ss, x :: xs, y :: ys =>
    Fin.ofNat s :: Fin.ofNat x :: Fin.ofNat y :: compBytes ss xs ys
  | _, _, _ => []

/-- Serialize the content of a SIZ segment (everything after the length
field).  Modelled from the spec: the writer mirrors the parser. -/
def serializeSizContent (s : SIZsegment) : List Byte :=
  toBytesBEs sizWidths
    [s.rsiz, s.xsiz, s.ysiz, s.xosiz, s.yosiz, s.xtsiz, s.ytsiz, s.xtosiz,
     s.ytosiz, s.ssiz.length] ++ compBytes s.ssiz s.xrsiz s.yrsiz

/-- Serialize the content of a COD segment (everything after the length
field). -/
def serializeCodContent (c : CODsegment) : List Byte :=
  toBytesBEs [1, 1, 2, 1, 1, 1, 1, 1, 1]
    [c.scod, c.progOrder, c.layers, c.mct, c.levels, c.cbwExp, c.cbhExp,
     c.cbStyle, c.xform] ++ c.precinctSize.map Fin.ofNat

/-- Serialize a marker segment: 2-byte marker code, then (except for
delimiters) the 2-byte length including itself, then the content.
Modelled from the spec: all segment types support symmetric
re-serialization. -/
def serializeSegment : Segment → List Byte
  | .SOC => toBytesBE 2 0xFF4F
  | .SOD => toBytesBE 2 0xFF93
  | .EOC => toBytesBE 2 0xFFD9
  | .SIZ s => toBytesBE 2 0xFF51 ++ toBytesBE 2 (38 + 3 * s.ssiz.length) ++ serializeSizContent s
  | .COD c => toBytesBE 2 0xFF52 ++ toBytesBE 2 (12 + c.precinctSize.length) ++ serializeCodContent c
  | .SOT t => toBytesBE 2 0xFF90 ++ toBytesBE 2 10 ++
      toBytesBEs [2, 4, 1, 1] [t.isot, t.psot, t.tpsot, t.tnsot]
  | .COC c => toBytesBE 2 0xFF53 ++ toBytesBE 2 (2 + (serializeCocContent 1 c).length) ++
      serializeCocContent 1 c
  | .QCD q => toBytesBE 2 0xFF5C ++ toBytesBE 2 (2 + (serializeQcdContent q).length) ++
      serializeQcdContent q
  | .QCC q => toBytesBE 2 0xFF5D ++ toBytesBE 2 (2 + (serializeQccContent 1 q).length) ++
      serializeQccContent 1 q
  | .RGN r => toBytesBE 2 0xFF5E ++ toBytesBE 2 (2 + (serializeRgnContent r).length) ++
      serializeRgnContent r
  | .CRG c => toBytesBE 2 0xFF63 ++ toBytesBE 2 (2 + (serializeCrgContent c).length) ++
      serializeCrgContent c
  | .PLT p => toBytesBE 2 0xFF58 ++ toBytesBE 2 (2 + (serializePltContent p).length) ++
      serializePltContent p
  | .PLM p => toBytesBE 2 0xFF57 ++ toBytesBE 2 (2 + (serializePlmContent p).length) ++
      serializePlmContent p
  | .PPT p => toBytesBE 2 0xFF61 ++ toBytesBE 2 (2 + (serializePptContent p).length) ++
      serializePptContent p
  | .PPM p => toBytesBE 2 0xFF60 ++ toBytesBE 2 (2 + (serializePpmContent p).length) ++
      serializePpmContent p
  | .COM c => toBytesBE 2 0xFF64 ++ toBytesBE 2 (2 + (serializeComContent c).length) ++
      serializeComContent c
  | .generic code len data => toBytesBE 2 code ++ toBytesBE 2 len ++ data
  | .unknown code len data => toBytesBE 2 code ++ toBytesBE 2 len ++ data

/-- Well-formedness of a SIZ segment value: fields fit their binary
widths, the per-component lists agree in size, and the decoded
bitdepth/signed views match the raw ssiz bytes. -/
def sizValid (s : SIZsegment) : Prop :=
  s.rsiz < 2 ^ 16 ∧ s.xsiz < 2 ^ 32 ∧ s.ysiz < 2 ^ 32 ∧
  s.xosiz < 2 ^ 32 ∧ s.yosiz < 2 ^ 32 ∧ s.xtsiz < 2 ^ 32 ∧ s.ytsiz < 2 ^ 32 ∧
  s.xtosiz < 2 ^ 32 ∧ s.ytosiz < 2 ^ 32 ∧
  s.xrsiz.length = s.ssiz.length ∧ s.yrsiz.length = s.ssiz.length ∧
  38 + 3 * s.ssiz.length < 2 ^ 16 ∧
  (∀ v ∈ s.ssiz, v < 256) ∧ (∀ v ∈ s.xrsiz, v < 256) ∧ (∀ v ∈ s.yrsiz, v < 256) ∧
  s.bitdepth = s.ssiz.map (fun v => v % 128 + 1) ∧
  s.signed = s.ssiz.map (fun v => decide (128 ≤ v))

instance (s : SIZsegment) : Decidable (sizValid s) := by
  unfold sizValid
  infer_instance

/-- Well-formedness of a COD segment value. -/
def codValid (c : CODsegment) : Prop :=
  c.scod < 256 ∧ c.progOrder < 256 ∧ c.layers < 2 ^ 16 ∧ c.mct < 256 ∧
  c.levels < 256 ∧ c.cbwExp < 256 ∧ c.cbhExp < 256 ∧ c.cbStyle < 256 ∧
  c.xform < 256 ∧ (∀ v ∈ c.precinctSize, v < 256) ∧
  (if c.scod % 2 = 1 then c.precinctSize.length = c.levels + 1
   else c.precinctSize = [])

instance (c : CODsegment) : Decidable (codValid c) := by
  unfold codValid
  infer_instance

/-- Well-formedness of an SOT segment value. -/
def sotValid (t : SOTsegment) : Prop :=
  t.isot < 2 ^ 16 ∧ t.psot < 2 ^ 32 ∧ t.tpsot < 256 ∧ t.tnsot < 256

instance (t : SOTsegment) : Decidable (sotValid t) := by
  unfold sotValid
  infer_instance

/-- Well-formedness of a COC segment value for component-index width
`w`. -/
def cocValid (w : Nat) (c : COCsegment) : Prop :=
  c.ccoc < 256 ^ w ∧ c.scoc < 256 ∧ c.levels < 256 ∧ c.cbwExp < 256 ∧ c.cbhExp < 256 ∧
  c.cbStyle < 256 ∧ c.xform < 256 ∧ (∀ v ∈ c.precinctSize, v < 256) ∧
  (if c.scoc % 2 = 1 then c.precinctSize.length = c.levels + 1
   else c.precinctSize = [])

instance (w : Nat) (c : COCsegment) : Decidable (cocValid w c) := by
  unfold cocValid
  infer_instance

/-- Well-formedness of a quantization tail against its raw style
byte's low 5 bits. -/
def quantTailValid (style : Nat) (mant exp : List Nat) : Prop :=
  (style = 0 ∨ style = 1 ∨ style = 2) ∧
  (style = 0 → mant = List.replicate exp.length 0) ∧
  (style = 1 → exp.length = 1 ∧ mant.length = 1) ∧
  (style = 2 → mant.length = exp.length) ∧
  (∀ e ∈ exp, e < 32) ∧ (∀ m ∈ mant, m < 2048)

instance (style : Nat) (mant exp : List Nat) : Decidable (quantTailValid style mant exp) := by
  unfold quantTailValid
  infer_instance

/-- Well-formedness of a QCD segment value. -/
def qcdValid (q : QCDsegment) : Prop :=
  q.sqcd < 256 ∧ quantTailValid (q.sqcd % 32) q.mantissa q.exponent ∧
  2 + (serializeQcdContent q).length < 2 ^ 16

instance (q : QCDsegment) : Decidable (qcdValid q) := by
  unfold qcdValid
  infer_instance

/-- Well-formedness of a QCC segment value for component-index width
`w`. -/
def qccValid (w : Nat) (q : QCCsegment) : Prop :=
  q.cqcc < 256 ^ w ∧ q.sqcc < 256 ∧ quantTailValid (q.sqcc % 32) q.mantissa q.exponent ∧
  2 + (serializeQccContent w q).length < 2 ^ 16

instance (w : Nat) (q : QCCsegment) : Decidable (qccValid w q) := by
  unfold qccValid
  infer_instance

/-- Well-formedness of an RGN segment value. -/
def rgnValid (r : RGNsegment) : Prop :=
  r.crgn < 2 ^ 16 ∧ r.srgn < 256 ∧ r.sprgn < 256

instance (r : RGNsegment) : Decidable (rgnValid r) := by
  unfold rgnValid
  infer_instance

/-- Well-formedness of a CRG segment value. -/
def crgValid (c : CRGsegment) : Prop :=
  c.ycrg.length = c.xcrg.length ∧ (∀ v ∈ c.xcrg, v < 2 ^ 16) ∧ (∀ v ∈ c.ycrg, v < 2 ^ 16) ∧
  2 + 4 * c.xcrg.length < 2 ^ 16

instance (c : CRGsegment) : Decidable (crgValid c) := by
  unfold crgValid
  infer_instance

/-- Well-formedness of a PLT segment value. -/
def pltValid (p : PLTsegment) : Prop :=
  p.zplt < 256 ∧ 2 + (serializePltContent p).length < 2 ^ 16

instance (p : PLTsegment) : Decidable (pltValid p) := by
  unfold pltValid
  infer_instance

/-- Well-formedness of a PLM segment value. -/
def plmValid (p : PLMsegment) : Prop :=
  p.zplm < 256 ∧ 2 + (serializePlmContent p).length < 2 ^ 16

instance (p : PLMsegment) : Decidable (plmValid p) := by
  unfold plmValid
  infer_instance

/-- Well-formedness of a PPT segment value. -/
def pptValid (p : PPTsegment) : Prop :=
  p.zppt < 256 ∧ 3 + p.data.length < 2 ^ 16

instance (p : PPTsegment) : Decidable (pptValid p) := by
  unfold pptValid
  infer_instance

/-- Well-formedness of a PPM segment value. -/
def ppmValid (p : PPMsegment) : Prop :=
  p.zppm < 256 ∧ 3 + p.data.length < 2 ^ 16

instance (p : PPMsegment) : Decidable (ppmValid p) := by
  unfold ppmValid
  infer_instance

/-- Well-formedness of a COM segment value. -/
def comValid (c : COMsegment) : Prop :=
  c.rcme < 2 ^ 16 ∧ 4 + c.ccme.length < 2 ^ 16

instance (c : COMsegment) : Decidable (comValid c) := by
  unfold comValid
  infer_instance

/-- Well-formedness of a segment value: fields fit their widths, the
declared length of raw segments counts its payload plus the two length
bytes, and the stored code matches the constructor's known/unknown
split (`generic` is left only for POD, the one known code whose layout
the spec does not detail). -/
def segValid : Segment → Prop
  | .SOC => True
  | .SOD => True
  | .EOC => True
  | .SIZ s => sizValid s
  | .COD c => codValid c
  | .SOT t => sotValid t
  | .COC c => cocValid 1 c
  | .QCD q => qcdValid q
  | .QCC q => qccValid 1 q
  | .RGN r => rgnValid r
  | .CRG c => crgValid c
  | .PLT p => pltValid p
  | .PLM p => plmValid p
  | .PPT p => pptValid p
  | .PPM p => ppmValid p
  | .COM c => comValid c
  | .generic code len data =>
    code ∈ knownMarkerCodes ∧
    code ∉ [0xFF4F, 0xFF51, 0xFF52, 0xFF53, 0xFF57, 0xFF58, 0xFF5C, 0xFF5D,
            0xFF5E, 0xFF60, 0xFF61, 0xFF63, 0xFF64, 0xFF90, 0xFF93, 0xFFD9] ∧
    len = data.length + 2 ∧ len < 2 ^ 16
  | .unknown code len data =>
    code < 2 ^ 16 ∧ code ∉ knownMarkerCodes ∧ len = data.length + 2 ∧ len < 2 ^ 16

instance (s : Segment) : Decidable (segValid s) := by
  cases s <;> simp only [segValid] <;> infer_instance

/-- The warnings the parser reports for a given segment value. -/
def segParseWarnings : Segment → List Warning
  | .SIZ s => sizWarnings s
  | .COD c => codWarnings c
  | .COC c => cocWarnings c
  | .unknown code _ _ => [Warning.UnrecognizedMarkerWarning code]
  | _ => []

/-! Box layer.  Box ids are the 4-byte ASCII tags read as a big-endian
32-bit value. -/

/-- Box id of the JPEG 2000 Signature box, ASCII `jP\x20\x20`. -/
def jPsigId : Nat := 0x6A502020

/-- Box id of the File Type box, ASCII `ftyp`. -/
def ftypId : Nat := 0x66747970

/-- Box id of the JP2 Header superbox, ASCII `jp2h`. -/
def jp2hId : Nat := 0x6A703268

/-- Box id of the Image Header box, ASCII `ihdr`. -/
def ihdrId : Nat := 0x69686472

/-- Box id of the Colour Specification box, ASCII `colr`. -/
def colrId : Nat := 0x636F6C72

/-- Box id of the Palette box, ASCII `pclr`. -/
def pclrId : Nat := 0x70636C72

/-- Box id of the Channel Definition box, ASCII `cdef`. -/
def cdefId : Nat := 0x63646566

/-- Box id of the Contiguous Codestream box, ASCII `jp2c`. -/
def jp2cId : Nat := 0x6A703263

/-- Brand / compatibility-list entry `jp2\x20`. -/
def jp2Brand : Nat := 0x6A703220

/-- Brand / compatibility-list entry `jpx\x20`. -/
def jpxBrand : Nat := 0x6A707820

/-- Compatibility-list entry `jpxb`. -/
def jpxbBrand : Nat := 0x6A707862

/-- File Type box fields.  Modelled from the spec:
`glymur.jp2box.FileTypeBox`. -/
structure FileTypeBox where
  brand : Nat
  minorVersion : Nat
  compatibilityList : List Nat
  deriving DecidableEq, Repr

/-- Image Header box fields.  Modelled from the spec:
`glymur.jp2box.ImageHeaderBox`. -/
structure ImageHeaderBox where
  height : Nat
  width : Nat
  numComponents : Nat
  bitsPerComponent : Nat
  signed : Bool
  compression : Nat
  colorspaceUnknown : Bool
  ipProvided : Bool
  deriving DecidableEq, Repr

/-- Colour Specification box fields; method 1 carries an enumerated
colorspace, the other methods an ICC profile.  Modelled from the spec:
`glymur.jp2box.ColourSpecificationBox`. -/
structure ColourSpecificationBox where
  method : Nat
  precedence : Nat
  approximation : Nat
  colorspace : Option Nat
  iccProfile : Option (List Byte)
  deriving DecidableEq, Repr

/-- Palette box fields: per-column bit depths and the row-major lookup
table (signed palettes are rejected with a hard error, so only
unsigned columns are representable).  Modelled from the spec:
`glymur.jp2box.PaletteBox`. -/
structure PaletteBox where
  bitsPerComponent : List Nat
  palette : List (List Nat)
  deriving DecidableEq, Repr

/-- Channel Definition box fields: parallel index / channel-type /
association arrays.  Modelled from the spec:
`glymur.jp2box.ChannelDefinitionBox`. -/
structure ChannelDefinitionBox where
  index : List Nat
  channelType : List Nat
  association : List Nat
  deriving DecidableEq, Repr

/-- A leaf (non-super) box.  The kinds the spec details are decoded in
full; an unrecognized id becomes an opaque `unknownBox`.  Modelled
from the spec's box variant. -/
inductive LeafBox where
  | signature
  | ftyp (b : FileTypeBox)
  | ihdr (b : ImageHeaderBox)
  | colr (b : ColourSpecificationBox)
  | pclr (b : PaletteBox)
  | cdef (b : ChannelDefinitionBox)
  | jp2c (codestream : List Byte)
  | unknownBox (boxId : Nat) (payload : List Byte)
  deriving DecidableEq, Repr

/-- A box: a leaf box or the JP2 Header superbox with its ordered
children.  (The claims under verification only exercise the one
superbox level `jp2h`; JPX superboxes such as `asoc` are outside this
model's scope.) -/
inductive Box where
  | leaf (b : LeafBox)
  | jp2h (children : List LeafBox)
  deriving DecidableEq, Repr

/-- The 4-byte id of a leaf box. -/
def LeafBox.boxId : LeafBox → Nat
  | .signature => jPsigId
  | .ftyp _ => ftypId
  | .ihdr _ => ihdrId
  | .colr _ => colrId
  | .pclr _ => pclrId
  | .cdef _ => cdefId
  | .jp2c _ => jp2cId
  | .unknownBox i _ => i

/-- The 4-byte id of a box. -/
def Box.boxId : Box → Nat
  | .leaf b => b.boxId
  | .jp2h _ => jp2hId

/-- The 4 fixed signature bytes `0D 0A 87 0A`. -/
def signatureBytes : List Byte := [0x0D, 0x0A, 0x87, 0x0A]

/-- Entry byte width of a palette column: its bit depth rounded up to
1, 2 or 4 bytes. -/
def bppWidth (bits : Nat) : Nat := if bits ≤ 8 then 1 else if bits ≤ 16 then 2 else 4

/-- Serialize one palette row against the per-column bit depths. -/
def rowBytes : List Nat → List Nat → List Byte
  | bits :: bt, v :: vt => toBytesBE (bppWidth bits) v ++ rowBytes bt vt
  | _, _ => []

/-- Serialize the Channel Definition triples. -/
def cdefBytes : List Nat → List Nat → List Nat → List Byte
  | i :: it, t :: tt, a :: assoc =>
    toBytesBEs [2, 2, 2] [i, t, a] ++ cdefBytes it tt assoc
  | _, _, _ => []

/-- Serialize the compatibility list as 4-byte entries. -/
def clBytes : List Nat → List Byte
  | [] => []
  | v :: t => toBytesBE 4 v ++ clBytes t

/-- The payload (post-header) bytes of a leaf box.  Modelled from the
spec: the writer mirrors each parser exactly. -/
def LeafBox.payloadBytes : LeafBox → List Byte
  | .signature => signatureBytes
  | .ftyp b => toBytesBEs [4, 4] [b.brand, b.minorVersion] ++ clBytes b.compatibilityList
  | .ihdr b => toBytesBEs [4, 4, 2, 1, 1, 1, 1]
      [b.height, b.width, b.numComponents,
       (if b.signed then 128 else 0) + (b.bitsPerComponent - 1), b.compression,
       (if b.colorspaceUnknown then 1 else 0), (if b.ipProvided then 1 else 0)]
  | .colr b => toBytesBEs [1, 1, 1] [b.method, b.precedence, b.approximation] ++
      (match b.colorspace with | some cs => toBytesBE 4 cs | none => []) ++
      (match b.iccProfile with | some icc => icc | none => [])
  | .pclr b => toBytesBEs [2, 1] [b.palette.length, b.bitsPerComponent.length] ++
      b.bitsPerComponent.map (fun bits => (Fin.ofNat (bits - 1) : Byte)) ++
      (b.palette.map (rowBytes b.bitsPerComponent)).flatten
  | .cdef b => toBytesBE 2 b.index.length ++ cdefBytes b.index b.channelType b.association
  | .jp2c d => d
  | .unknownBox _ payload => payload

/-- Read the given number of 4-byte compatibility-list entries. -/
def readNCls : Nat → List Byte → Option (List Nat)
  | 0, _ => some []
  | n + 1, bs =>
    match readBE 4 bs with
    | some (v, r) => (readNCls n r).map (v :: ·)
    | none => none

/-- Parse the payload of a File Type box: brand, minor version, and
the remaining bytes as 4-byte compatibility-list entries.  Modelled
from the spec. -/
def parseFtyp (payload : List Byte) : Option FileTypeBox :=
  match readBEs [4, 4] payload with
  | some ([brand, minor], r) =>
    (readNCls (r.length / 4) r).map fun cl =>
      { brand := brand, minorVersion := minor, compatibilityList := cl }
  | _ => none

/-- Parse the payload of an Image Header box: 4-byte height and width,
2-byte component count, packed bits/signed byte (top bit signed, low 7
bits are bits minus one), compression, colorspace-unknown and
ip-provided flags.  Modelled from the spec. -/
def parseIhdr (payload : List Byte) : Option ImageHeaderBox :=
  match readBEs [4, 4, 2, 1, 1, 1, 1] payload with
  | some ([height, width, nc, bpc, compression, csUnknown, ip], _) =>
    some { height := height, width := width, numComponents := nc,
           bitsPerComponent := bpc % 128 + 1, signed := 128 ≤ bpc,
           compression := compression, colorspaceUnknown := csUnknown ≠ 0,
           ipProvided := ip ≠ 0 }
  | _ => none

/-- Parse the payload of a Colour Specification box: method,
precedence, approximation, then either a 4-byte enumerated colorspace
(method 1) or the remaining bytes as an ICC profile.  Modelled from
the spec. -/
def parseColrTail (method prec approx : Nat) (r : List Byte) : Option ColourSpecificationBox :=
  if method = 1 then
    (match readBE 4 r with
     | some (cs, _) => some { method := method, precedence := prec, approximation := approx,
                              colorspace := some cs, iccProfile := none }
     | none => none)
  else some { method := method, precedence := prec, approximation := approx,
              colorspace := none, iccProfile := some r }

/-- Dispatch after the three fixed Colour Specification bytes. -/
def parseColr (payload : List Byte) : Option ColourSpecificationBox :=
  match readBEs [1, 1, 1] payload with
  | some ([method, prec, approx], r) => parseColrTail method prec approx r
  | _ => none

/-- Read one palette row against the per-column bit depths. -/
def readPaletteRow : List Nat → List Byte → Option (List Nat × List Byte)
  | [], bs => some ([], bs)
  | bits :: bt, bs =>
    match readBE (bppWidth bits) bs with
    | some (v, r) => (readPaletteRow bt r).map fun p => (v :: p.1, p.2)
    | none => none

/-- Read the given number of palette rows. -/
def readPaletteRows : Nat → List Nat → List Byte → Option (List (List Nat) × List Byte)
  | 0, _, bs => some ([], bs)
  | n + 1, bits, bs =>
    match readPaletteRow bits bs with
    | some (row, r) => (readPaletteRows n bits r).map fun p => (row :: p.1, p.2)
    | none => none

/-- Parse the payload of a Palette box: 2-byte row count, 1-byte
column count, per-column packed depth descriptors (top bit = signed,
rejected as a hard error), then the row-major entries, each sized by
its column's depth.  Modelled from the spec. -/
def parsePclrTail (rows cols : Nat) (r : List Byte) : Option PaletteBox :=
  match readChunk cols r with
  | some (descr, r2) =>
    if descr.any (fun d => 128 ≤ d.val) then none
    else
      let bits := descr.map (fun d => d.val % 128 + 1)
      (match readPaletteRows rows bits r2 with
       | some (pal, _) => some { bitsPerComponent := bits, palette := pal }
       | none => none)
  | none => none

/-- Dispatch after the Palette box row and column counts. -/
def parsePclr (payload : List Byte) : Option PaletteBox :=
  match readBEs [2, 1] payload with
  | some ([rows, cols], r) => parsePclrTail rows cols r
  | _ => none

/-- Read the Channel Definition (index, type, association) triples. -/
def readCdefTriples : Nat → List Byte → Option ((List Nat × List Nat × List Nat) × List Byte)
  | 0, bs => some (([], [], []), bs)
  | n + 1, bs =>
    match readBEs [2, 2, 2] bs with
    | some ([i, t, a], r) =>
      (readCdefTriples n r).map fun p => ((i :: p.1.1, t :: p.1.2.1, a :: p.1.2.2), p.2)
    | _ => none

/-- Parse the payload of a Channel Definition box: 2-byte count, then
that many (index, channel type, association) 2-byte triples.  Modelled
from the spec. -/
def parseCdef (payload : List Byte) : Option ChannelDefinitionBox :=
  match readBE 2 payload with
  | some (n, r) =>
    (match readCdefTriples n r with
     | some (t, _) => some { index := t.1, channelType := t.2.1, association := t.2.2 }
     | none => none)
  | none => none

/-- Warnings attached to parsing one leaf box. -/
def leafParseWarnings : LeafBox → List Warning
  | .unknownBox i _ => [Warning.UnrecognizedBoxWarning i]
  | _ => []

/-- Dispatch a leaf box payload on its id; a signature-byte mismatch
is a hard parse error, an unrecognized id yields an opaque box plus
`UnrecognizedBoxWarning`.  Modelled from the spec's per-box payload
parsers. -/
def parseLeafPayload (id : Nat) (payload : List Byte) : Option (LeafBox × List Warning) :=
  if id = jPsigId then
    (if payload = signatureBytes then some (.signature, []) else none)
  else if id = ftypId then (parseFtyp payload).map (fun b => (.ftyp b, []))
  else if id = ihdrId then (parseIhdr payload).map (fun b => (.ihdr b, []))
  else if id = colrId then (parseColr payload).map (fun b => (.colr b, []))
  else if id = pclrId then (parsePclr payload).map (fun b => (.pclr b, []))
  else if id = cdefId then (parseCdef payload).map (fun b => (.cdef b, []))
  else if id = jp2cId then some (.jp2c payload, [])
  else some (.unknownBox id payload, [Warning.UnrecognizedBoxWarning id])

/-- Frame a box payload with its header: 4-byte length (8 + payload)
and 4-byte id; the 64-bit extended-length form (L = 1 followed by an
8-byte length counting the 16 header bytes) is emitted only when the
payload would overflow the 32-bit length field.  Modelled from the
spec: the writer recomputes length fields from actual payload size. -/
def mkBoxBytes (id : Nat) (payload : List Byte) : List Byte :=
  if 8 + payload.length < 2 ^ 32 then
    toBytesBE 4 (8 + payload.length) ++ toBytesBE 4 id ++ payload
  else
    toBytesBE 4 1 ++ toBytesBE 4 id ++ toBytesBE 8 (16 + payload.length) ++ payload

/-- Serialize a leaf box. -/
def serializeLeaf (b : LeafBox) : List Byte := mkBoxBytes b.boxId b.payloadBytes

/-- Serialize a sequence of leaf boxes. -/
def serializeLeafBoxes : List LeafBox → List Byte
  | [] => []
  | b :: t => serializeLeaf b ++ serializeLeafBoxes t

/-- The payload of a box; a JP2 Header's payload is its serialized
children. -/
def Box.payloadBytes : Box → List Byte
  | .leaf b => b.payloadBytes
  | .jp2h ch => serializeLeafBoxes ch

/-- Serialize a box. -/
def serializeBox (b : Box) : List Byte := mkBoxBytes b.boxId b.payloadBytes

/-- Serialize a sequence of boxes. -/
def serializeBoxes : List Box → List Byte
  | [] => []
  | b :: t => serializeBox b ++ serializeBoxes t

/-- A parsed box record: the byte position of its length field, its
total length, whether the 64-bit extended length form was used, the
byte position where its payload starts, and the decoded box. -/
structure ParsedBox where
  offset : Nat
  length : Nat
  extended : Bool
  payloadOffset : Nat
  box : Box
  deriving DecidableEq, Repr

/-- The `main_header_offset` attribute of a parsed Contiguous
Codestream box: the position where the embedded codestream's main
header begins, i.e. where the box payload starts.  Modelled from the
spec together with the cited test
(`test_codestream_main_header_offset`). -/
def ParsedBox.mainHeaderOffset (pb : ParsedBox) : Nat := pb.payloadOffset

/-- Read one box header at the front of `bs` (a range that ends where
the enclosing range ends): 4-byte length field L and 4-byte id; L = 1
means an 8-byte extended length follows and is the true length; L = 0
means the box extends to the end of the range.  Returns the true
length, the header size, the id, the payload slice and the remaining
bytes after the box.  Modelled from the spec:
the box-walk loop of `glymur.jp2box.Jp2kBox.parse_superbox`. -/
def readBoxHeader (bs : List Byte) : Option (Nat × Nat × Nat × List Byte × List Byte) :=
  match readBE 4 bs with
  | some (lfield, r1) =>
    (match readBE 4 r1 with
     | some (id, r2) =>
       if lfield = 0 then
         some (8 + r2.length, 8, id, r2, [])
       else if lfield = 1 then
         (match readBE 8 r2 with
          | some (xl, r3) =>
            if 16 ≤ xl then
              (match readChunk (xl - 16) r3 with
               | some (payload, rest) => some (xl, 16, id, payload, rest)
               | none => none)
            else none
          | none => none)
       else
         if 8 ≤ lfield then
           (match readChunk (lfield - 8) r2 with
            | some (payload, rest) => some (lfield, 8, id, payload, rest)
            | none => none)
         else none
     | none => none)
  | none => none

/-- Parse a sequence of leaf boxes filling an exact byte range (the
payload of a JP2 Header superbox); `pos` is the absolute offset of the
range.  Modelled from the spec's recursive box walk. -/
def parseLeafBoxes : Nat → Nat → List Byte → Option (List LeafBox × List Warning)
  | _, _, [] => some ([], [])
  | 0, _, _ => none
  | fuel + 1, pos, bs =>
    match readBoxHeader bs with
    | some (len, _, id, payload, rest) =>
      (match parseLeafPayload id payload with
       | some (lb, ws) =>
         (match parseLeafBoxes fuel (pos + len) rest with
          | some (lbs, ws2) => some (lb :: lbs, ws ++ ws2)
          | none => none)
       | none => none)
    | none => none

/-- Parse the sequence of top-level boxes of a byte range starting at
absolute offset `pos`, recursing into the `jp2h` superbox.  Modelled
from the spec: the box-tree walk of `glymur.jp2box`. -/
def parseBoxes : Nat → Nat → List Byte → Option (List ParsedBox × List Warning)
  | _, _, [] => some ([], [])
  | 0, _, _ => none
  | fuel + 1, pos, bs =>
    match readBoxHeader bs with
    | some (len, hsz, id, payload, rest) =>
      (match (if id = jp2hId then
                (parseLeafBoxes fuel (pos + hsz) payload).map (fun p => (Box.jp2h p.1, p.2))
              else
                (parseLeafPayload id payload).map (fun p => (Box.leaf p.1, p.2))) with
       | some (bx, ws) =>
         (match parseBoxes fuel (pos + len) rest with
          | some (pbs, ws2) =>
            some ({ offset := pos, length := len, extended := hsz = 16,
                    payloadOffset := pos + hsz, box := bx } :: pbs, ws ++ ws2)
          | none => none)
       | none => none)
    | none => none

/-- Parse a whole file's box tree. -/
def parseFile (bs : List Byte) : Option (List ParsedBox × List Warning) :=
  parseBoxes bs.length 0 bs

/-- Structural well-formedness of File Type box fields (they fit their
4-byte encodings). -/
def ftypFieldsValid (b : FileTypeBox) : Prop :=
  b.brand < 2 ^ 32 ∧ b.minorVersion < 2 ^ 32 ∧ ∀ v ∈ b.compatibilityList, v < 2 ^ 32

instance (b : FileTypeBox) : Decidable (ftypFieldsValid b) := by
  unfold ftypFieldsValid
  infer_instance

/-- Structural well-formedness of Image Header box fields. -/
def ihdrValid (b : ImageHeaderBox) : Prop :=
  b.height < 2 ^ 32 ∧ b.width < 2 ^ 32 ∧ b.numComponents < 2 ^ 16 ∧
  1 ≤ b.bitsPerComponent ∧ b.bitsPerComponent ≤ 128 ∧ b.compression < 256

instance (b : ImageHeaderBox) : Decidable (ihdrValid b) := by
  unfold ihdrValid
  infer_instance

/-- Structural well-formedness of Colour Specification box fields:
method 1 carries an enumerated colorspace and no ICC profile, the
other methods the reverse. -/
def colrValid (b : ColourSpecificationBox) : Prop :=
  b.method < 256 ∧ b.precedence < 256 ∧ b.approximation < 256 ∧
  (b.method = 1 → b.iccProfile = none ∧ b.colorspace ≠ none ∧ b.colorspace.getD 0 < 2 ^ 32) ∧
  (b.method ≠ 1 → b.colorspace = none ∧ b.iccProfile ≠ none)

instance (b : ColourSpecificationBox) : Decidable (colrValid b) := by
  unfold colrValid
  infer_instance

/-- Structural well-formedness of Palette box fields: counts fit their
encodings, depths are unsigned-representable, rows are rectangular and
entries fit their column's byte width. -/
def pclrValid (b : PaletteBox) : Prop :=
  b.palette.length < 2 ^ 16 ∧ b.bitsPerComponent.length < 256 ∧
  (∀ bits ∈ b.bitsPerComponent, 1 ≤ bits ∧ bits ≤ 128) ∧
  (∀ row ∈ b.palette, row.length = b.bitsPerComponent.length ∧
    ∀ p ∈ List.zip b.bitsPerComponent row, p.2 < 256 ^ bppWidth p.1)

instance (b : PaletteBox) : Decidable (pclrValid b) := by
  unfold pclrValid
  infer_instance

/-- Structural well-formedness of Channel Definition box fields. -/
def cdefValid (b : ChannelDefinitionBox) : Prop :=
  b.channelType.length = b.index.length ∧ b.association.length = b.index.length ∧
  b.index.length < 2 ^ 16 ∧ (∀ v ∈ b.index, v < 2 ^ 16) ∧
  (∀ v ∈ b.channelType, v < 2 ^ 16) ∧ (∀ v ∈ b.association, v < 2 ^ 16)

instance (b : ChannelDefinitionBox) : Decidable (cdefValid b) := by
  unfold cdefValid
  infer_instance

/-- The box ids this model decodes. -/
def knownBoxIds : List Nat := [jPsigId, ftypId, jp2hId, ihdrId, colrId, pclrId, cdefId, jp2cId]

/-- Structural well-formedness of a leaf box value. -/
def leafValid : LeafBox → Prop
  | .signature => True
  | .ftyp b => ftypFieldsValid b
  | .ihdr b => ihdrValid b
  | .colr b => colrValid b
  | .pclr b => pclrValid b
  | .cdef b => cdefValid b
  | .jp2c _ => True
  | .unknownBox i _ => i < 2 ^ 32 ∧ i ∉ knownBoxIds

instance (b : LeafBox) : Decidable (leafValid b) := by
  cases b <;> simp only [leafValid] <;> infer_instance

/-- Structural well-formedness of a box value, including that its
serialized payload fits even the extended length field. -/
def boxValid : Box → Prop
  | .leaf b => leafValid b ∧ 16 + b.payloadBytes.length < 2 ^ 64
  | .jp2h ch => (∀ b ∈ ch, leafValid b ∧ 16 + b.payloadBytes.length < 2 ^ 64) ∧
      16 + (serializeLeafBoxes ch).length < 2 ^ 64

instance (b : Box) : Decidable (boxValid b) := by
  cases b <;> simp only [boxValid] <;> infer_instance

/-- Structural well-formedness of a box list. -/
def boxesValid (l : List Box) : Prop := ∀ b ∈ l, boxValid b

instance (l : List Box) : Decidable (boxesValid l) := by
  unfold boxesValid
  infer_instance

/-- Warnings reported while parsing a leaf box sequence. -/
def leafListWarnings : List LeafBox → List Warning
  | [] => []
  | b :: t => leafParseWarnings b ++ leafListWarnings t

/-- Warnings reported while parsing one box. -/
def boxParseWarnings : Box → List Warning
  | .leaf b => leafParseWarnings b
  | .jp2h ch => leafListWarnings ch

/-- Warnings reported while parsing a box sequence. -/
def boxesWarnings : List Box → List Warning
  | [] => []
  | b :: t => boxParseWarnings b ++ boxesWarnings t

/-- Header size the writer chooses for a box. -/
def boxHdrSize (b : Box) : Nat := if 8 + b.payloadBytes.length < 2 ^ 32 then 8 else 16

/-- Total serialized size of a box. -/
def boxTotalSize (b : Box) : Nat := boxHdrSize b + b.payloadBytes.length

/-- The parsed-box records the parser reconstructs from a serialized
box list laid out from absolute position `pos`. -/
def expectedParsed : Nat → List Box → List ParsedBox
  | _, [] => []
  | pos, b :: t =>
    { offset := pos, length := boxTotalSize b, extended := boxHdrSize b = 16,
      payloadOffset := pos + boxHdrSize b, box := b } ::
      expectedParsed (pos + boxTotalSize b) t

/-- Fuel weight of one box in the box walk. -/
def boxWeight : Box → Nat
  | .leaf _ => 1
  | .jp2h ch => 1 + ch.length

/-- Fuel weight of a box list. -/
def boxesWeight : List Box → Nat
  | [] => 0
  | b :: t => boxWeight b + boxesWeight t

/-- A header-encoding choice for one box record: the standard 4-byte
length, the 64-bit extended-length form (L = 1), or the
extends-to-end form (L = 0).  Modelled from the spec's box-header
variants. -/
inductive HdrForm where
  | std
  | ext
  | zero
  deriving DecidableEq, Repr

/-- Header size of each form. -/
def hdrSizeOf : HdrForm → Nat
  | .std => 8
  | .ext => 16
  | .zero => 8

/-- Encode one leaf box with the given header form.  The writer
itself always emits a canonical header; this encoder produces the
non-canonical (L = 1 or L = 0) files the parser must also accept. -/
def encodeLeafWith : HdrForm → LeafBox → List Byte
  | .std, b => toBytesBE 4 (8 + b.payloadBytes.length) ++
      (toBytesBE 4 b.boxId ++ b.payloadBytes)
  | .ext, b => toBytesBE 4 1 ++ (toBytesBE 4 b.boxId ++
      (toBytesBE 8 (16 + b.payloadBytes.length) ++ b.payloadBytes))
  | .zero, b => toBytesBE 4 0 ++ (toBytesBE 4 b.boxId ++ b.payloadBytes)

/-- Encode a leaf-box sequence, each box with its own header form. -/
def encodeLeavesWith : List (HdrForm × LeafBox) → List Byte
  | [] => []
  | (f, b) :: t => encodeLeafWith f b ++ encodeLeavesWith t

/-- Constraints making a leaf-sequence encoding parseable: well-formed
box values, lengths that fit the chosen header form, and the
extends-to-end form only on the last box of its range. -/
def leafFormsOk : List (HdrForm × LeafBox) → Prop
  | [] => True
  | (f, b) :: t =>
    (leafValid b ∧ 16 + b.payloadBytes.length < 2 ^ 64 ∧
     (f = HdrForm.std → 8 + b.payloadBytes.length < 2 ^ 32) ∧
     (f = HdrForm.zero → t = [])) ∧ leafFormsOk t

instance leafFormsOkDec : (l : List (HdrForm × LeafBox)) → Decidable (leafFormsOk l)
  | [] => isTrue trivial
  | (f, b) :: t =>
    have : Decidable (leafFormsOk t) := leafFormsOkDec t
    by unfold leafFormsOk; infer_instance

/-- One top-level box with its own header form; a JP2 Header's
children carry their own forms. -/
inductive BoxWith where
  | leaf (f : HdrForm) (b : LeafBox)
  | jp2h (f : HdrForm) (ch : List (HdrForm × LeafBox))
  deriving DecidableEq, Repr

/-- The box value an encoded record stands for. -/
def BoxWith.box : BoxWith → Box
  | .leaf _ b => Box.leaf b
  | .jp2h _ ch => Box.jp2h (ch.map Prod.snd)

/-- The header form of the record. -/
def BoxWith.form : BoxWith → HdrForm
  | .leaf f _ => f
  | .jp2h f _ => f

/-- The payload bytes as this record encodes them (a JP2 Header keeps
its children's own, possibly non-canonical, headers). -/
def BoxWith.payloadWith : BoxWith → List Byte
  | .leaf _ b => b.payloadBytes
  | .jp2h _ ch => encodeLeavesWith ch

/-- Encode one top-level box record. -/
def encodeBoxWith (bw : BoxWith) : List Byte :=
  match bw.form with
  | .std => toBytesBE 4 (8 + bw.payloadWith.length) ++
      (toBytesBE 4 bw.box.boxId ++ bw.payloadWith)
  | .ext => toBytesBE 4 1 ++ (toBytesBE 4 bw.box.boxId ++
      (toBytesBE 8 (16 + bw.payloadWith.length) ++ bw.payloadWith))
  | .zero => toBytesBE 4 0 ++ (toBytesBE 4 bw.box.boxId ++ bw.payloadWith)

/-- Encode a top-level box sequence, each record with its own header
form. -/
def encodeBoxesWith : List BoxWith → List Byte
  | [] => []
  | bw :: t => encodeBoxWith bw ++ encodeBoxesWith t

/-- Constraints making one encoded box record parseable. -/
def boxWithValid (bw : BoxWith) : Prop :=
  boxValid bw.box ∧ 16 + bw.payloadWith.length < 2 ^ 64 ∧
  (bw.form = HdrForm.std → 8 + bw.payloadWith.length < 2 ^ 32) ∧
  (match bw with
   | .jp2h _ ch => leafFormsOk ch
   | _ => True)

instance (bw : BoxWith) : Decidable (boxWithValid bw) := by
  unfold boxWithValid
  cases bw <;> infer_instance

/-- Constraints making a box-sequence encoding parseable. -/
def boxFormsOk : List BoxWith → Prop
  | [] => True
  | bw :: t => (boxWithValid bw ∧ (bw.form = HdrForm.zero → t = [])) ∧ boxFormsOk t

instance boxFormsOkDec : (l : List BoxWith) → Decidable (boxFormsOk l)
  | [] => isTrue trivial
  | bw :: t =>
    have : Decidable (boxFormsOk t) := boxFormsOkDec t
    by unfold boxFormsOk; infer_instance

/-- Fuel weight of one encoded box record. -/
def boxWithWeight : BoxWith → Nat
  | .leaf _ _ => 1
  | .jp2h _ ch => 1 + ch.length

/-- Fuel weight of an encoded box sequence. -/
def boxesWithWeight : List BoxWith → Nat
  | [] => 0
  | bw :: t => boxWithWeight bw + boxesWithWeight t

/-- The parsed records the walk reconstructs from an encoded sequence
laid out from absolute position `pos`. -/
def expectedParsedW : Nat → List BoxWith → List ParsedBox
  | _, [] => []
  | pos, bw :: t =>
    { offset := pos, length := hdrSizeOf bw.form + bw.payloadWith.length,
      extended := bw.form = HdrForm.ext,
      payloadOffset := pos + hdrSizeOf bw.form, box := bw.box } ::
      expectedParsedW (pos + (hdrSizeOf bw.form + bw.payloadWith.length)) t

/-- Is this box the JP2 Header superbox? -/
def isJp2h : Box → Bool
  | .jp2h _ => true
  | _ => false

/-- Is this box a Contiguous Codestream box? -/
def isJp2c : Box → Bool
  | .leaf (.jp2c _) => true
  | _ => false

/-- Is this top-level box a Palette box? -/
def isPclrTop : Box → Bool
  | .leaf (.pclr _) => true
  | _ => false

/-- Is this leaf an Image Header box? -/
def isIhdrLeaf : LeafBox → Bool
  | .ihdr _ => true
  | _ => false

/-- Is this leaf a Colour Specification box? -/
def isColrLeaf : LeafBox → Bool
  | .colr _ => true
  | _ => false

/-- Is this leaf a Channel Definition box? -/
def isCdefLeaf : LeafBox → Bool
  | .cdef _ => true
  | _ => false

/-- Write-time validation of a File Type box: the brand must be
`jp2 ` or `jpx ` and every compatibility-list entry one of `jp2 `,
`jpx `, `jpxb`.  Modelled from the spec:
`glymur.jp2box.FileTypeBox._validate`. -/
def ftypWriteOk (b : FileTypeBox) : Bool :=
  (b.brand = jp2Brand || b.brand = jpxBrand) &&
  b.compatibilityList.all (fun v => v = jp2Brand || v = jpxBrand || v = jpxbBrand)

/-- Writing a File Type box directly: validation, then the framed
bytes.  A validation failure is the structural error (modelled as
`none`): nothing is written.  Modelled from the spec. -/
def writeFtypBox (b : FileTypeBox) : Option (List Byte) :=
  if ftypWriteOk b then some (mkBoxBytes ftypId (LeafBox.ftyp b).payloadBytes) else none

/-- Write-time validation of the JP2 Header children: the list must be
non-empty with Image Header first, contain exactly one Colour
Specification box and at most one Channel Definition box.  Modelled
from the spec's validation-engine rules. -/
def jp2hChildrenOk (ch : List LeafBox) : Bool :=
  (match ch with
   | (LeafBox.ihdr _) :: _ => true
   | _ => false) &&
  ch.countP isColrLeaf = 1 && ch.countP isCdefLeaf ≤ 1

/-- Write-time validation of a Colour Specification box: an enumerated
colorspace is required when no ICC profile is present, and the
approximation field must be 0 for plain JP2.  Modelled from the spec. -/
def colrWriteOk (c : ColourSpecificationBox) : Bool :=
  (!(c.iccProfile = none) || !(c.colorspace = none)) && c.approximation = 0

/-- Per-box write-time rules: every File Type box passes its brand and
compatibility-list validation and (for wrapping to JP2, as the
repository test `test_wrap_compatibility_not_jp2` requires) lists
`jp2 ` among its compatibility entries; every JP2 Header passes the
child-list rules and its Colour Specification children their rules. -/
def boxWriteOk : Box → Bool
  | .leaf (.ftyp d) => ftypWriteOk d && jp2Brand ∈ d.compatibilityList
  | .jp2h ch => jp2hChildrenOk ch &&
      ch.all (fun c => match c with | .colr cb => colrWriteOk cb | _ => true)
  | _ => true

/-- Does the (single) JP2 Header precede the first Contiguous
Codestream box? -/
def jp2hPrecedesJp2c (l : List Box) : Bool :=
  (l.takeWhile (fun b => !(isJp2c b))).countP isJp2h = 1

/-- The validation engine applied when writing a new file from a box
list; any violation is a structural error that aborts the write.
Modelled from the spec's validation-engine rules (the
channel-completeness rule for Channel Definition boxes and the
offset-consistency rule for repackaged boxes are outside this model's
scope). -/
def validateBoxes (l : List Box) : Bool :=
  (match l with
   | Box.leaf LeafBox.signature :: Box.leaf (LeafBox.ftyp _) :: _ => true
   | _ => false) &&
  l.countP isJp2h = 1 &&
  1 ≤ l.countP isJp2c &&
  jp2hPrecedesJp2c l &&
  l.all boxWriteOk &&
  l.all (fun b => !(isPclrTop b))

/-- Write a box list to a fresh file: validate, then serialize.  A
validation failure aborts with no output committed (modelled as
`none`).  Modelled from the spec: the write path of
`glymur.jp2k.Jp2k.wrap`. -/
def writeBoxes (l : List Box) : Option (List Byte) :=
  if validateBoxes l then some (serializeBoxes l) else none

/-- The default Colour Specification box `wrap` builds: enumerated
colorspace, greyscale for 1 or 2 components, sRGB otherwise.  Modelled
from the spec and `glymur.core` colorspace constants. -/
def defaultColr (nc : Nat) : ColourSpecificationBox :=
  { method := 1, precedence := 0, approximation := 0,
    colorspace := some (if nc = 1 ∨ nc = 2 then 17 else 16), iccProfile := none }

/-- The Image Header box `wrap` derives from the codestream's SIZ
segment. -/
def ihdrFromSiz (d : SIZsegment) : ImageHeaderBox :=
  { height := d.ysiz, width := d.xsiz, numComponents := d.numComponents,
    bitsPerComponent := d.bitdepth.headD 8, signed := d.signed.headD false,
    compression := 7, colorspaceUnknown := false, ipProvided := false }

/-- The default box list `wrap` uses when the caller passes none:
Signature, File Type, JP2 Header (Image Header + Colour Specification
derived from the codestream's SIZ segment), Contiguous Codestream.
Modelled from the spec's Scenario D and `glymur.jp2k.Jp2k.wrap`. -/
def defaultBoxes (d : SIZsegment) (cs : List Byte) : List Box :=
  [Box.leaf .signature,
   Box.leaf (.ftyp { brand := jp2Brand, minorVersion := 0, compatibilityList := [jp2Brand] }),
   Box.jp2h [.ihdr (ihdrFromSiz d), .colr (defaultColr d.numComponents)],
   Box.leaf (.jp2c cs)]

/-- The SIZ segment of a raw codestream, as `wrap` reads it through
`get_codestream`. -/
def sizOfCodestream (cs : List Byte) : Option SIZsegment :=
  match parseCodestream cs with
  | some (segs, _) => segs.findSome? fun s =>
      match s with
      | .SIZ d => some d
      | _ => none
  | none => none

/-- Wrap a raw codestream into a JP2 container with the default box
list.  Modelled from the spec: `glymur.jp2k.Jp2k.wrap` without a
caller-supplied box list. -/
def wrap (cs : List Byte) : Option (List Byte) :=
  match sizOfCodestream cs with
  | some d => writeBoxes (defaultBoxes d cs)
  | none => none

/-- A well-formed sample tree for witnesses. -/
def sampleIhdr : ImageHeaderBox :=
  { height := 4, width := 4, numComponents := 1, bitsPerComponent := 8, signed := false,
    compression := 7, colorspaceUnknown := false, ipProvided := false }

/-- A well-formed sample Colour Specification box for witnesses. -/
def sampleColr : ColourSpecificationBox :=
  { method := 1, precedence := 0, approximation := 0, colorspace := some 17,
    iccProfile := none }

/-- A sample box list that passes write validation. -/
def sampleGoodBoxes : List Box :=
  [Box.leaf .signature,
   Box.leaf (.ftyp { brand := jp2Brand, minorVersion := 0, compatibilityList := [jp2Brand] }),
   Box.jp2h [.ihdr sampleIhdr, .colr sampleColr],
   Box.leaf (.jp2c [0xFF, 0x4F])]

/-- The same list with the JP2 Header children out of order. -/
def sampleBadBoxes : List Box :=
  [Box.leaf .signature,
   Box.leaf (.ftyp { brand := jp2Brand, minorVersion := 0, compatibilityList := [jp2Brand] }),
   Box.jp2h [.colr sampleColr, .ihdr sampleIhdr],
   Box.leaf (.jp2c [0xFF, 0x4F])]

/-- A COC segment with a 2-byte component index, for witnesses. -/
def sampleCoc : COCsegment :=
  { ccoc := 300, scoc := 1, levels := 1, cbwExp := 4, cbhExp := 4, cbStyle := 0,
    xform := 1, precinctSize := [0x77, 0x77] }

/-- A QCC segment with a 2-byte component index and expounded scalar
quantization, for witnesses. -/
def sampleQcc : QCCsegment :=
  { cqcc := 300, sqcc := 66, mantissa := [100, 200], exponent := [5, 6] }

/-- A box sequence with deliberately non-canonical header forms: an
extended-length File Type box, a JP2 Header whose first child also
uses the extended form, and a final extends-to-end codestream box. -/
def sampleFormBoxes : List BoxWith :=
  [BoxWith.leaf .std .signature,
   BoxWith.leaf .ext (.ftyp { brand := jp2Brand, minorVersion := 0,
                              compatibilityList := [jp2Brand] }),
   BoxWith.jp2h .std [(.ext, .ihdr sampleIhdr), (.std, .colr sampleColr)],
   BoxWith.leaf .zero (.jp2c [0xFF, 0x4F])]

/-- A File Type box meeting the claimed brand/compatibility condition
but missing `jp2 ` from its compatibility list. -/
def jpxOnlyFtyp : FileTypeBox :=
  { brand := jp2Brand, minorVersion := 0, compatibilityList := [jpxBrand] }

/-- `sampleGoodBoxes` with its File Type compatibility list replaced by
[`jpx `]. -/
def jpxOnlyBoxes : List Box :=
  [Box.leaf .signature,
   Box.leaf (.ftyp jpxOnlyFtyp),
   Box.jp2h [.ihdr sampleIhdr, .colr sampleColr],
   Box.leaf (.jp2c [0xFF, 0x4F])]

/-- The field bounds a parsed SIZ segment always satisfies, by
construction of the fixed-width readers. -/
def sizFieldBounds (d : SIZsegment) : Prop :=
  d.xsiz < 2 ^ 32 ∧ d.ysiz < 2 ^ 32 ∧ d.numComponents < 2 ^ 16 ∧
  ∀ b ∈ d.bitdepth, 1 ≤ b ∧ b ≤ 128

/-- A minimal raw codestream for witnesses: SOC, a one-component
4-by-4 SIZ segment, EOC. -/
def sampleCodestream : List Byte :=
  [0xFF, 0x4F, 0xFF, 0x51] ++ toBytesBE 2 41 ++
  toBytesBEs sizWidths [0, 4, 4, 0, 0, 4, 4, 0, 0, 1] ++ [7, 1, 1] ++ [0xFF, 0xD9]

/-- The SIZ segment `sampleCodestream` carries. -/
def sampleSiz : SIZsegment :=
  { rsiz := 0, xsiz := 4, ysiz := 4, xosiz := 0, yosiz := 0, xtsiz := 4, ytsiz := 4,
    xtosiz := 0, ytosiz := 0, ssiz := [7], bitdepth := [8], signed := [false],
    xrsiz := [1], yrsiz := [1] }

theorem length_toBytesBE (w n : Nat) : (toBytesBE w n).length = w := by
  induction w generalizing n with
  | zero => rfl
  | succ k ih => simp [toBytesBE, ih]

theorem fromBytesBE_toBytesBE (w n : Nat) :
    fromBytesBE (toBytesBE w n) = n % 256 ^ w := by
  induction w generalizing n with
  | zero => simp [toBytesBE, fromBytesBE, Nat.mod_one]
  | succ k ih =>
    have hm : n % (256 * 256 ^ k) = n % 256 + 256 * (n / 256 % 256 ^ k) :=
      Nat.mod_mul
    have hfold : fromBytesBE (toBytesBE k (n / 256) ++ [(Fin.ofNat n : Byte)]) =
        fromBytesBE (toBytesBE k (n / 256)) * 256 + (Fin.ofNat n : Byte).val := by
      simp [fromBytesBE]
    have hval : (Fin.ofNat n : Byte).val = n % 256 := rfl
    rw [toBytesBE, hfold, hval, ih]
    rw [pow_succ, mul_comm (256 ^ k) 256]
    omega

theorem fromBytesBE_lt (bs : List Byte) : fromBytesBE bs < 256 ^ bs.length := by
  have key : ∀ (l : List Byte) (m acc : Nat), acc < 256 ^ m →
      l.foldl (fun a b => a * 256 + b.val) acc < 256 ^ (m + l.length) := by
    intro l
    induction l with
    | nil => intro m acc hacc; simpa using hacc
    | cons y ys ihl =>
      intro m acc hacc
      simp only [List.foldl_cons, List.length_cons]
      have hy : y.val < 256 := y.isLt
      have hstep : acc * 256 + y.val < 256 ^ (m + 1) := by
        have h2 : (acc + 1) * 256 ≤ 256 ^ m * 256 := Nat.mul_le_mul_right 256 hacc
        rw [pow_succ]
        omega
      have := ihl (m + 1) _ hstep
      simpa [Nat.add_assoc, Nat.add_comm 1 ys.length] using this
  have h0 : (0 : Nat) < 256 ^ 0 := by norm_num
  have := key bs 0 0 h0
  simpa [fromBytesBE] using this

theorem readBE_exact (w : Nat) (bs rest : List Byte) (h : bs.length = w) :
    readBE w (bs ++ rest) = some (fromBytesBE bs, rest) := by
  subst h
  unfold readBE
  rw [if_pos (by simp)]
  simp

theorem readBE_toBytesBE (w n : Nat) (rest : List Byte) :
    readBE w (toBytesBE w n ++ rest) = some (n % 256 ^ w, rest) := by
  have := readBE_exact w (toBytesBE w n) rest (length_toBytesBE w n)
  rwa [fromBytesBE_toBytesBE] at this

theorem readBE_bound {w : Nat} {bs rest : List Byte} {n : Nat}
    (h : readBE w bs = some (n, rest)) : n < 256 ^ w := by
  unfold readBE at h
  split at h
  · rename_i hw
    have := fromBytesBE_lt (bs.take w)
    simp only [Option.some.injEq, Prod.mk.injEq] at h
    rw [← h.1]
    have hlen : (bs.take w).length = w := by simp [hw]
    rwa [hlen] at this
  · exact absurd h (by simp)

theorem readChunk_exact (w : Nat) (bs rest : List Byte) (h : bs.length = w) :
    readChunk w (bs ++ rest) = some (bs, rest) := by
  subst h
  unfold readChunk
  rw [if_pos (by simp)]
  simp

theorem readBEs_toBytesBEs {ws vs : List Nat} (rest : List Byte)
    (h : List.Forall₂ (fun w v => v < 256 ^ w) ws vs) :
    readBEs ws (toBytesBEs ws vs ++ rest) = some (vs, rest) := by
  induction h with
  | nil => simp [readBEs, toBytesBEs]
  | cons hwv htail ih =>
    rename_i w v ws' vs'
    simp only [toBytesBEs, List.append_assoc, readBEs, readBE_toBytesBE,
      Nat.mod_eq_of_lt hwv, ih]

theorem length_toBytesBEs {ws vs : List Nat} (h : ws.length = vs.length) :
    (toBytesBEs ws vs).length = ws.sum := by
  induction ws generalizing vs with
  | nil => simp [toBytesBEs]
  | cons w wt ih =>
    cases vs with
    | nil => simp at h
    | cons v vt =>
      simp only [toBytesBEs, List.length_append, length_toBytesBE, List.sum_cons]
      rw [ih (by simpa using h)]

theorem length_compBytes (ss xs ys : List Nat)
    (hx : xs.length = ss.length) (hy : ys.length = ss.length) :
    (compBytes ss xs ys).length = 3 * ss.length := by
  induction ss generalizing xs ys with
  | nil => simp [compBytes]
  | cons s st ih =>
    cases xs with
    | nil => simp at hx
    | cons x xt =>
      cases ys with
      | nil => simp at hy
      | cons y yt =>
        simp only [compBytes, List.length_cons]
        rw [ih xt yt (by simpa using hx) (by simpa using hy)]
        ring

theorem readComps_compBytes (ss xs ys : List Nat) (rest : List Byte)
    (hx : xs.length = ss.length) (hy : ys.length = ss.length)
    (hs : ∀ v ∈ ss, v < 256) (hxv : ∀ v ∈ xs, v < 256) (hyv : ∀ v ∈ ys, v < 256) :
    readComps ss.length (compBytes ss xs ys ++ rest) = some ((ss, xs, ys), rest) := by
  induction ss generalizing xs ys with
  | nil =>
    cases xs with
    | nil =>
      cases ys with
      | nil => simp [readComps, compBytes]
      | cons y yt => simp at hy
    | cons x xt => simp at hx
  | cons s st ih =>
    cases xs with
    | nil => simp at hx
    | cons x xt =>
      cases ys with
      | nil => simp at hy
      | cons y yt =>
        have hsv : s < 256 := hs s (by simp)
        have hxv1 : x < 256 := hxv x (by simp)
        have hyv1 : y < 256 := hyv y (by simp)
        simp only [compBytes, List.cons_append, List.length_cons, readComps, List.append_eq]
        rw [ih xt yt (by simpa using hx) (by simpa using hy)
          (fun v hv => hs v (by simp [hv])) (fun v hv => hxv v (by simp [hv]))
          (fun v hv => hyv v (by simp [hv]))]
        have h1 : ((Fin.ofNat s : Byte)).val = s := by
          simp [Fin.ofNat, Nat.mod_eq_of_lt hsv]
        have h2 : ((Fin.ofNat x : Byte)).val = x := by
          simp [Fin.ofNat, Nat.mod_eq_of_lt hxv1]
        have h3 : ((Fin.ofNat y : Byte)).val = y := by
          simp [Fin.ofNat, Nat.mod_eq_of_lt hyv1]
        simp [h1, h2, h3]

theorem readComps_compBytes_nil (ss xs ys : List Nat)
    (hx : xs.length = ss.length) (hy : ys.length = ss.length)
    (hs : ∀ v ∈ ss, v < 256) (hxv : ∀ v ∈ xs, v < 256) (hyv : ∀ v ∈ ys, v < 256) :
    readComps ss.length (compBytes ss xs ys) = some ((ss, xs, ys), []) := by
  have := readComps_compBytes ss xs ys [] hx hy hs hxv hyv
  simpa using this

theorem parseSizContent_roundtrip (s : SIZsegment) (hv : sizValid s) :
    parseSizContent (serializeSizContent s) = some (s, sizWarnings s) := by
  obtain ⟨h1, h2, h3, h4, h5, h6, h7, h8, h9, hxl, hyl, hlen, hsb, hxb, hyb, hbd, hsg⟩ := hv
  have hn : s.ssiz.length < 2 ^ 16 := by omega
  have hf : List.Forall₂ (fun w v => v < 256 ^ w) sizWidths
      [s.rsiz, s.xsiz, s.ysiz, s.xosiz, s.yosiz, s.xtsiz, s.ytsiz, s.xtosiz,
       s.ytosiz, s.ssiz.length] :=
    .cons h1 (.cons h2 (.cons h3 (.cons h4 (.cons h5 (.cons h6 (.cons h7
      (.cons h8 (.cons h9 (.cons hn .nil)))))))))
  unfold parseSizContent serializeSizContent
  rw [readBEs_toBytesBEs (compBytes s.ssiz s.xrsiz s.yrsiz) hf]
  simp only [readComps_compBytes_nil s.ssiz s.xrsiz s.yrsiz hxl hyl hsb hxb hyb]
  rw [← hbd, ← hsg]

theorem length_serializeSizContent (s : SIZsegment)
    (hx : s.xrsiz.length = s.ssiz.length) (hy : s.yrsiz.length = s.ssiz.length) :
    (serializeSizContent s).length = 36 + 3 * s.ssiz.length := by
  unfold serializeSizContent
  rw [List.length_append, length_toBytesBEs (by rfl),
    length_compBytes s.ssiz s.xrsiz s.yrsiz hx hy]
  rfl

theorem parseSizSegment_roundtrip (s : SIZsegment) (rest : List Byte) (hv : sizValid s) :
    parseSizSegment (toBytesBE 2 (38 + 3 * s.ssiz.length) ++ (serializeSizContent s ++ rest)) =
      some (s, rest, sizWarnings s) := by
  have hlen : 38 + 3 * s.ssiz.length < 2 ^ 16 := hv.2.2.2.2.2.2.2.2.2.2.2.1
  have hclen : (serializeSizContent s).length = 38 + 3 * s.ssiz.length - 2 := by
    rw [length_serializeSizContent s hv.2.2.2.2.2.2.2.2.2.1 hv.2.2.2.2.2.2.2.2.2.2.1]
    omega
  unfold parseSizSegment
  rw [readBE_toBytesBE, Nat.mod_eq_of_lt (show 38 + 3 * s.ssiz.length < 256 ^ 2 from hlen)]
  simp only [readChunk_exact (38 + 3 * s.ssiz.length - 2) (serializeSizContent s) rest hclen,
    parseSizContent_roundtrip s hv]

theorem readChunk_all (w : Nat) (bs : List Byte) (h : bs.length = w) :
    readChunk w bs = some (bs, []) := by
  subst h
  unfold readChunk
  rw [if_pos (le_refl _)]
  simp

theorem map_val_map_ofNat (l : List Nat) (h : ∀ v ∈ l, v < 256) :
    (l.map (Fin.ofNat : Nat → Byte)).map Fin.val = l := by
  induction l with
  | nil => rfl
  | cons x xs ih =>
    simp only [List.map_cons, List.cons.injEq]
    constructor
    · simp [Fin.ofNat, Nat.mod_eq_of_lt (h x (by simp))]
    · exact ih (fun v hv => h v (by simp [hv]))

theorem parseCodContent_roundtrip (c : CODsegment) (hv : codValid c) :
    parseCodContent (serializeCodContent c) = some (c, codWarnings c) := by
  obtain ⟨h1, h2, h3, h4, h5, h6, h7, h8, h9, hpb, hpc⟩ := hv
  have hf : List.Forall₂ (fun w v => v < 256 ^ w) [1, 1, 2, 1, 1, 1, 1, 1, 1]
      [c.scod, c.progOrder, c.layers, c.mct, c.levels, c.cbwExp, c.cbhExp,
       c.cbStyle, c.xform] :=
    .cons h1 (.cons h2 (.cons h3 (.cons h4 (.cons h5 (.cons h6 (.cons h7
      (.cons h8 (.cons h9 .nil))))))))
  unfold parseCodContent serializeCodContent
  rw [readBEs_toBytesBEs (c.precinctSize.map Fin.ofNat) hf]
  by_cases hp : c.scod % 2 = 1
  · rw [if_pos hp] at hpc
    have hpeq : (if c.scod % 2 = 1 then readChunk (c.levels + 1) (c.precinctSize.map Fin.ofNat)
        else some ([], c.precinctSize.map Fin.ofNat)) =
        some (c.precinctSize.map Fin.ofNat, []) := by
      rw [if_pos hp, readChunk_all _ _ (by simp [hpc])]
    simp only [hpeq, map_val_map_ofNat c.precinctSize hpb]
  · rw [if_neg hp] at hpc
    have hpeq : (if c.scod % 2 = 1 then readChunk (c.levels + 1) (c.precinctSize.map Fin.ofNat)
        else some ([], c.precinctSize.map Fin.ofNat)) =
        some ([], c.precinctSize.map Fin.ofNat) := by
      rw [if_neg hp]
    simp only [hpeq, List.map_nil]
    rw [← hpc]

theorem parseCodSegment_roundtrip (c : CODsegment) (rest : List Byte) (hv : codValid c) :
    parseCodSegment (toBytesBE 2 (12 + c.precinctSize.length) ++
      (serializeCodContent c ++ rest)) = some (c, rest, codWarnings c) := by
  have hlen : 12 + c.precinctSize.length < 256 ^ 2 := by
    have hpb := hv.2.2.2.2.2.2.2.2.2.2
    by_cases hp : c.scod % 2 = 1
    · rw [if_pos hp] at hpb
      have : c.levels < 256 := hv.2.2.2.2.1
      omega
    · rw [if_neg hp] at hpb
      simp [hpb]
  have hclen : (serializeCodContent c).length = 12 + c.precinctSize.length - 2 := by
    unfold serializeCodContent
    rw [List.length_append, length_toBytesBEs (by rfl)]
    simp
    omega
  unfold parseCodSegment
  rw [readBE_toBytesBE, Nat.mod_eq_of_lt hlen]
  simp only [readChunk_exact (12 + c.precinctSize.length - 2) (serializeCodContent c) rest hclen,
    parseCodContent_roundtrip c hv]

theorem parseSotSegment_roundtrip (t : SOTsegment) (rest : List Byte) (hv : sotValid t) :
    parseSotSegment (toBytesBE 2 10 ++
      (toBytesBEs [2, 4, 1, 1] [t.isot, t.psot, t.tpsot, t.tnsot] ++ rest)) =
      some (t, rest, []) := by
  obtain ⟨h1, h2, h3, h4⟩ := hv
  have hf : List.Forall₂ (fun w v => v < 256 ^ w) [2, 4, 1, 1]
      [t.isot, t.psot, t.tpsot, t.tnsot] :=
    .cons h1 (.cons h2 (.cons h3 (.cons h4 .nil)))
  have hclen : (toBytesBEs [2, 4, 1, 1] [t.isot, t.psot, t.tpsot, t.tnsot]).length = 10 - 2 := by
    rw [length_toBytesBEs (by rfl)]
    rfl
  unfold parseSotSegment
  rw [readBE_toBytesBE, Nat.mod_eq_of_lt (show 10 < 256 ^ 2 by norm_num)]
  simp only [readChunk_exact (10 - 2) _ rest hclen]
  have := readBEs_toBytesBEs ([] : List Byte) hf
  simp only [List.append_nil] at this
  simp only [this]

theorem parseSegBody_exact {α : Type} (cp : List Byte → Option (α × List Warning))
    (content rest : List Byte) (len : Nat) (seg : α) (ws : List Warning)
    (hlen : len = content.length + 2) (hl : len < 2 ^ 16)
    (hcp : cp content = some (seg, ws)) :
    parseSegBody cp (toBytesBE 2 len ++ (content ++ rest)) = some (seg, rest, ws) := by
  unfold parseSegBody
  rw [readBE_toBytesBE, Nat.mod_eq_of_lt (show len < 256 ^ 2 from hl)]
  simp only [show len - 2 = content.length by omega,
    readChunk_exact content.length content rest rfl, hcp]

theorem length_serializeCocContent (w : Nat) (c : COCsegment) :
    (serializeCocContent w c).length = w + 6 + c.precinctSize.length := by
  unfold serializeCocContent
  rw [List.length_append, length_toBytesBEs (by rfl)]
  simp only [List.sum_cons, List.sum_nil, List.length_map]
  omega

theorem coc_len_lt (w : Nat) (c : COCsegment) (hw : w ≤ 2) (hv : cocValid w c) :
    2 + (serializeCocContent w c).length < 2 ^ 16 := by
  rw [length_serializeCocContent]
  have hl : c.levels < 256 := hv.2.2.1
  have hpc := hv.2.2.2.2.2.2.2.2
  by_cases hp : c.scoc % 2 = 1
  · rw [if_pos hp] at hpc
    omega
  · rw [if_neg hp] at hpc
    rw [hpc]
    simp only [List.length_nil]
    omega

theorem parseCocContent_roundtrip (w : Nat) (c : COCsegment) (hv : cocValid w c) :
    parseCocContent w (serializeCocContent w c) = some (c, cocWarnings c) := by
  obtain ⟨h1, h2, h3, h4, h5, h6, h7, hpb, hpc⟩ := hv
  have hf : List.Forall₂ (fun w v => v < 256 ^ w) [w, 1, 1, 1, 1, 1, 1]
      [c.ccoc, c.scoc, c.levels, c.cbwExp, c.cbhExp, c.cbStyle, c.xform] :=
    .cons h1 (.cons h2 (.cons h3 (.cons h4 (.cons h5 (.cons h6 (.cons h7 .nil))))))
  unfold parseCocContent serializeCocContent
  rw [readBEs_toBytesBEs (c.precinctSize.map Fin.ofNat) hf]
  by_cases hp : c.scoc % 2 = 1
  · rw [if_pos hp] at hpc
    have hpeq : (if c.scoc % 2 = 1 then readChunk (c.levels + 1) (c.precinctSize.map Fin.ofNat)
        else some ([], c.precinctSize.map Fin.ofNat)) =
        some (c.precinctSize.map Fin.ofNat, []) := by
      rw [if_pos hp, readChunk_all _ _ (by simp [hpc])]
    simp only [hpeq, map_val_map_ofNat c.precinctSize hpb]
  · rw [if_neg hp] at hpc
    have hpeq : (if c.scoc % 2 = 1 then readChunk (c.levels + 1) (c.precinctSize.map Fin.ofNat)
        else some ([], c.precinctSize.map Fin.ofNat)) =
        some ([], c.precinctSize.map Fin.ofNat) := by
      rw [if_neg hp]
    simp only [hpeq, List.map_nil]
    rw [← hpc]

theorem map_val_div8 (exp : List Nat) (he : ∀ e ∈ exp, e < 32) :
    (exp.map (fun e => (Fin.ofNat (e * 8) : Byte))).map (fun b => b.val / 8) = exp := by
  induction exp with
  | nil => rfl
  | cons e t ih =>
    have he1 : e < 32 := he e (by simp)
    have hv : ((Fin.ofNat (e * 8) : Byte)).val = e * 8 := by
      show (e * 8) % 256 = e * 8
      omega
    simp only [List.map_cons, hv]
    rw [Nat.mul_div_cancel e (by norm_num), ih (fun x hx => he x (by simp [hx]))]

theorem readPairs16_quantBytes :
    ∀ (exp mant : List Nat), mant.length = exp.length →
    (∀ e ∈ exp, e < 32) → (∀ m ∈ mant, m < 2048) →
    readPairs16 (quantBytes exp mant) =
      some (List.zipWith (fun e m => e * 2048 + m) exp mant) := by
  intro exp
  induction exp with
  | nil =>
    intro mant hlen _ _
    cases mant with
    | nil => rfl
    | cons m t => simp at hlen
  | cons e es ih =>
    intro mant hlen he hm
    cases mant with
    | nil => simp at hlen
    | cons m ms =>
      have he1 : e < 32 := he e (by simp)
      have hm1 : m < 2048 := hm m (by simp)
      show readPairs16 ((Fin.ofNat ((e * 2048 + m) / 256) : Byte) ::
          (Fin.ofNat (e * 2048 + m) : Byte) :: quantBytes es ms) = _
      rw [show readPairs16 ((Fin.ofNat ((e * 2048 + m) / 256) : Byte) ::
            (Fin.ofNat (e * 2048 + m) : Byte) :: quantBytes es ms) =
          (readPairs16 (quantBytes es ms)).map
            ((((Fin.ofNat ((e * 2048 + m) / 256) : Byte)).val * 256 +
              ((Fin.ofNat (e * 2048 + m) : Byte)).val) :: ·) from rfl]
      rw [ih ms (by simpa using hlen) (fun x hx => he x (by simp [hx]))
        (fun x hx => hm x (by simp [hx]))]
      simp only [Option.map_some']
      have hval : ((Fin.ofNat ((e * 2048 + m) / 256) : Byte)).val * 256 +
          ((Fin.ofNat (e * 2048 + m) : Byte)).val = e * 2048 + m := by
        show (e * 2048 + m) / 256 % 256 * 256 + (e * 2048 + m) % 256 = e * 2048 + m
        omega
      rw [hval]
      rfl

theorem zipWith_quant_unzip :
    ∀ (exp mant : List Nat), mant.length = exp.length →
    (∀ e ∈ exp, e < 32) → (∀ m ∈ mant, m < 2048) →
    (List.zipWith (fun e m => e * 2048 + m) exp mant).map (fun v => v % 2048) = mant ∧
    (List.zipWith (fun e m => e * 2048 + m) exp mant).map (fun v => v / 2048) = exp := by
  intro exp
  induction exp with
  | nil =>
    intro mant hlen _ _
    cases mant with
    | nil => exact ⟨rfl, rfl⟩
    | cons m t => simp at hlen
  | cons e es ih =>
    intro mant hlen he hm
    cases mant with
    | nil => simp at hlen
    | cons m ms =>
      have he1 : e < 32 := he e (by simp)
      have hm1 : m < 2048 := hm m (by simp)
      obtain ⟨ih1, ih2⟩ := ih ms (by simpa using hlen)
        (fun x hx => he x (by simp [hx])) (fun x hx => hm x (by simp [hx]))
      constructor
      · simp only [List.zipWith_cons_cons, List.map_cons, ih1]
        rw [show (e * 2048 + m) % 2048 = m by omega]
      · simp only [List.zipWith_cons_cons, List.map_cons, ih2]
        rw [show (e * 2048 + m) / 2048 = e by omega]

theorem parseQuantTail_roundtrip (style : Nat) (mant exp : List Nat)
    (hv : quantTailValid style mant exp) :
    parseQuantTail style (serializeQuantTail style mant exp) = some (mant, exp) := by
  obtain ⟨hs, h0, h1, h2, he, hm⟩ := hv
  rcases hs with hs | hs | hs
  · subst hs
    show some (List.replicate (exp.map (fun e => (Fin.ofNat (e * 8) : Byte))).length 0,
        (exp.map (fun e => (Fin.ofNat (e * 8) : Byte))).map (fun b => b.val / 8)) =
      some (mant, exp)
    rw [map_val_div8 exp he, List.length_map, ← h0 rfl]
  · subst hs
    obtain ⟨hel, hml⟩ := h1 rfl
    obtain ⟨e, he'⟩ : ∃ e, exp = [e] := by
      cases exp with
      | nil => simp at hel
      | cons a t =>
        cases t with
        | nil => exact ⟨a, rfl⟩
        | cons b u => simp at hel
    obtain ⟨m, hm'⟩ : ∃ m, mant = [m] := by
      cases mant with
      | nil => simp at hml
      | cons a t =>
        cases t with
        | nil => exact ⟨a, rfl⟩
        | cons b u => simp at hml
    subst he'
    subst hm'
    have he1 : e < 32 := he e (by simp)
    have hm1 : m < 2048 := hm m (by simp)
    show some ([(((Fin.ofNat ((e * 2048 + m) / 256) : Byte)).val * 256 +
          ((Fin.ofNat (e * 2048 + m) : Byte)).val) % 2048],
        [(((Fin.ofNat ((e * 2048 + m) / 256) : Byte)).val * 256 +
          ((Fin.ofNat (e * 2048 + m) : Byte)).val) / 2048]) = some ([m], [e])
    have hval : ((Fin.ofNat ((e * 2048 + m) / 256) : Byte)).val * 256 +
        ((Fin.ofNat (e * 2048 + m) : Byte)).val = e * 2048 + m := by
      show (e * 2048 + m) / 256 % 256 * 256 + (e * 2048 + m) % 256 = e * 2048 + m
      omega
    rw [hval, show (e * 2048 + m) % 2048 = m by omega,
      show (e * 2048 + m) / 2048 = e by omega]
  · subst hs
    show (readPairs16 (quantBytes exp mant)).map
        (fun vs => (vs.map (fun v => v % 2048), vs.map (fun v => v / 2048))) = some (mant, exp)
    rw [readPairs16_quantBytes exp mant (h2 rfl) he hm]
    obtain ⟨hz1, hz2⟩ := zipWith_quant_unzip exp mant (h2 rfl) he hm
    simp only [Option.map_some', hz1, hz2]

theorem parseQcdContent_roundtrip (q : QCDsegment) (hv : qcdValid q) :
    parseQcdContent (serializeQcdContent q) = some (q, []) := by
  obtain ⟨hb, hq, _⟩ := hv
  have hvz : ((Fin.ofNat q.sqcd : Byte)).val = q.sqcd := by
    show q.sqcd % 256 = q.sqcd
    omega
  show (parseQuantTail (((Fin.ofNat q.sqcd : Byte)).val % 32)
      (serializeQuantTail (q.sqcd % 32) q.mantissa q.exponent)).map
      (fun p => (({ sqcd := ((Fin.ofNat q.sqcd : Byte)).val, mantissa := p.1,
                    exponent := p.2 } : QCDsegment), ([] : List Warning))) = some (q, [])
  rw [hvz, parseQuantTail_roundtrip (q.sqcd % 32) q.mantissa q.exponent hq]
  rfl

theorem parseQccContent_roundtrip (w : Nat) (q : QCCsegment) (hv : qccValid w q) :
    parseQccContent w (serializeQccContent w q) = some (q, []) := by
  obtain ⟨hc, hb, hq, _⟩ := hv
  unfold parseQccContent serializeQccContent
  rw [readBE_toBytesBE, Nat.mod_eq_of_lt (show q.cqcc < 256 ^ w from hc)]
  have hvz : ((Fin.ofNat q.sqcc : Byte)).val = q.sqcc := by
    show q.sqcc % 256 = q.sqcc
    omega
  show (parseQuantTail (((Fin.ofNat q.sqcc : Byte)).val % 32)
      (serializeQuantTail (q.sqcc % 32) q.mantissa q.exponent)).map
      (fun p => (({ cqcc := q.cqcc, sqcc := ((Fin.ofNat q.sqcc : Byte)).val, mantissa := p.1,
                    exponent := p.2 } : QCCsegment), ([] : List Warning))) = some (q, [])
  rw [hvz, parseQuantTail_roundtrip (q.sqcc % 32) q.mantissa q.exponent hq]
  rfl

theorem rgn_content_length (r : RGNsegment) :
    (serializeRgnContent r).length = if r.crgn < 256 then 3 else 4 := by
  unfold serializeRgnContent
  split <;> simp [length_toBytesBE]

theorem parseRgnContent_roundtrip (r : RGNsegment) (hv : rgnValid r) :
    parseRgnContent (serializeRgnContent r) = some (r, []) := by
  obtain ⟨hc, hs, hp⟩ := hv
  have vs : ((Fin.ofNat r.srgn : Byte)).val = r.srgn := by
    show r.srgn % 256 = r.srgn
    omega
  have vp : ((Fin.ofNat r.sprgn : Byte)).val = r.sprgn := by
    show r.sprgn % 256 = r.sprgn
    omega
  unfold serializeRgnContent
  by_cases h1 : r.crgn < 256
  · rw [if_pos h1]
    have hred : parseRgnContent ([(Fin.ofNat r.crgn : Byte)] ++
        [(Fin.ofNat r.srgn : Byte), (Fin.ofNat r.sprgn : Byte)]) =
      some ({ crgn := ((Fin.ofNat r.crgn : Byte)).val,
              srgn := ((Fin.ofNat r.srgn : Byte)).val,
              sprgn := ((Fin.ofNat r.sprgn : Byte)).val }, []) := rfl
    rw [hred, vs, vp, show ((Fin.ofNat r.crgn : Byte)).val = r.crgn by
      show r.crgn % 256 = r.crgn
      omega]
  · rw [if_neg h1]
    have hred : parseRgnContent (toBytesBE 2 r.crgn ++
        [(Fin.ofNat r.srgn : Byte), (Fin.ofNat r.sprgn : Byte)]) =
      some ({ crgn := ((Fin.ofNat (r.crgn / 256) : Byte)).val * 256 +
                ((Fin.ofNat r.crgn : Byte)).val,
              srgn := ((Fin.ofNat r.srgn : Byte)).val,
              sprgn := ((Fin.ofNat r.sprgn : Byte)).val }, []) := rfl
    rw [hred, vs, vp, show ((Fin.ofNat (r.crgn / 256) : Byte)).val * 256 +
        ((Fin.ofNat r.crgn : Byte)).val = r.crgn by
      show r.crgn / 256 % 256 * 256 + r.crgn % 256 = r.crgn
      omega]

theorem length_crgBytes : ∀ (xs ys : List Nat), ys.length = xs.length →
    (crgBytes xs ys).length = 4 * xs.length := by
  intro xs
  induction xs with
  | nil =>
    intro ys h
    cases ys with
    | nil => rfl
    | cons y t => simp at h
  | cons x xt ih =>
    intro ys h
    cases ys with
    | nil => simp at h
    | cons y yt =>
      show (toBytesBE 2 x ++ (toBytesBE 2 y ++ crgBytes xt yt)).length = 4 * (xt.length + 1)
      simp only [List.length_append, length_toBytesBE, ih yt (by simpa using h)]
      omega

theorem readCrgPairs_crgBytes : ∀ (xs ys : List Nat), ys.length = xs.length →
    (∀ v ∈ xs, v < 2 ^ 16) → (∀ v ∈ ys, v < 2 ^ 16) →
    readCrgPairs (crgBytes xs ys) = some (xs, ys) := by
  intro xs
  induction xs with
  | nil =>
    intro ys h _ _
    cases ys with
    | nil => rfl
    | cons y t => simp at h
  | cons x xt ih =>
    intro ys h hx hy
    cases ys with
    | nil => simp at h
    | cons y yt =>
      have hx1 : x < 2 ^ 16 := hx x (by simp)
      have hy1 : y < 2 ^ 16 := hy y (by simp)
      show readCrgPairs ((Fin.ofNat (x / 256) : Byte) :: (Fin.ofNat x : Byte) ::
          (Fin.ofNat (y / 256) : Byte) :: (Fin.ofNat y : Byte) :: crgBytes xt yt) = _
      rw [show readCrgPairs ((Fin.ofNat (x / 256) : Byte) :: (Fin.ofNat x : Byte) ::
            (Fin.ofNat (y / 256) : Byte) :: (Fin.ofNat y : Byte) :: crgBytes xt yt) =
          (readCrgPairs (crgBytes xt yt)).map
            (fun p => ((((Fin.ofNat (x / 256) : Byte)).val * 256 +
                ((Fin.ofNat x : Byte)).val) :: p.1,
              (((Fin.ofNat (y / 256) : Byte)).val * 256 +
                ((Fin.ofNat y : Byte)).val) :: p.2)) from rfl]
      rw [ih yt (by simpa using h) (fun v hv => hx v (by simp [hv]))
        (fun v hv => hy v (by simp [hv]))]
      simp only [Option.map_some']
      rw [show ((Fin.ofNat (x / 256) : Byte)).val * 256 + ((Fin.ofNat x : Byte)).val = x by
          show x / 256 % 256 * 256 + x % 256 = x
          omega,
        show ((Fin.ofNat (y / 256) : Byte)).val * 256 + ((Fin.ofNat y : Byte)).val = y by
          show y / 256 % 256 * 256 + y % 256 = y
          omega]

theorem parseCrgContent_roundtrip (c : CRGsegment) (hv : crgValid c) :
    parseCrgContent (serializeCrgContent c) = some (c, []) := by
  obtain ⟨hl, hx, hy, _⟩ := hv
  unfold parseCrgContent serializeCrgContent
  rw [readCrgPairs_crgBytes c.xcrg c.ycrg hl hx hy]
  rfl

theorem decode7_hi : ∀ (f m acc : Nat) (p : Bool) (t : List Byte), m ≤ f →
    decode7 (encode7Hi f m ++ t) acc p =
      decode7 t (acc * 128 ^ (encode7Hi f m).length + m) (if m = 0 then p else true) := by
  intro f
  induction f with
  | zero =>
    intro m acc p t hm
    have h0 : m = 0 := Nat.le_zero.mp hm
    subst h0
    simp [encode7Hi]
  | succ f ih =>
    intro m acc p t hm
    rcases Nat.eq_zero_or_pos m with h0 | hpos
    · subst h0
      simp [encode7Hi]
    · have hstep : encode7Hi (f + 1) m =
          encode7Hi f (m / 128) ++ [(Fin.ofNat (128 + m % 128) : Byte)] := by
        cases m with
        | zero => omega
        | succ k => rfl
      rw [hstep, List.append_assoc,
        ih (m / 128) acc p _ (by omega)]
      have hbval : ((Fin.ofNat (128 + m % 128) : Byte)).val = 128 + m % 128 := by
        show (128 + m % 128) % 256 = 128 + m % 128
        omega
      rw [List.singleton_append]
      rw [show decode7 ((Fin.ofNat (128 + m % 128) : Byte) :: t)
            (acc * 128 ^ (encode7Hi f (m / 128)).length + m / 128)
            (if m / 128 = 0 then p else true) =
          (if ((Fin.ofNat (128 + m % 128) : Byte)).val < 128 then
            (decode7 t 0 false).map
              (((acc * 128 ^ (encode7Hi f (m / 128)).length + m / 128) * 128 +
                ((Fin.ofNat (128 + m % 128) : Byte)).val) :: ·)
          else decode7 t ((acc * 128 ^ (encode7Hi f (m / 128)).length + m / 128) * 128 +
            (((Fin.ofNat (128 + m % 128) : Byte)).val - 128)) true) from rfl]
      rw [hbval, if_neg (by omega)]
      have harith : (acc * 128 ^ (encode7Hi f (m / 128)).length + m / 128) * 128 +
          (128 + m % 128 - 128) =
          acc * 128 ^ ((encode7Hi f (m / 128)).length + 1) + m := by
        have hmod : m / 128 * 128 + (128 + m % 128 - 128) = m := by omega
        have hpow : (128 : Nat) ^ ((encode7Hi f (m / 128)).length + 1) =
            128 ^ (encode7Hi f (m / 128)).length * 128 := by
          rw [pow_succ]
        rw [hpow]
        ring_nf
        omega
      rw [harith, show (encode7Hi f (m / 128) ++
          [(Fin.ofNat (128 + m % 128) : Byte)]).length =
          (encode7Hi f (m / 128)).length + 1 by simp,
        if_neg (by omega)]

theorem decode7_encode7 (n : Nat) (t : List Byte) :
    decode7 (encode7 n ++ t) 0 false = (decode7 t 0 false).map (n :: ·) := by
  unfold encode7
  rw [List.append_assoc, decode7_hi n (n / 128) 0 false _ (Nat.div_le_self n 128)]
  have hbval : ((Fin.ofNat (n % 128) : Byte)).val = n % 128 := by
    show n % 128 % 256 = n % 128
    omega
  rw [List.singleton_append]
  rw [show decode7 ((Fin.ofNat (n % 128) : Byte) :: t)
        (0 * 128 ^ (encode7Hi n (n / 128)).length + n / 128)
        (if n / 128 = 0 then false else true) =
      (if ((Fin.ofNat (n % 128) : Byte)).val < 128 then
        (decode7 t 0 false).map
          (((0 * 128 ^ (encode7Hi n (n / 128)).length + n / 128) * 128 +
            ((Fin.ofNat (n % 128) : Byte)).val) :: ·)
      else decode7 t ((0 * 128 ^ (encode7Hi n (n / 128)).length + n / 128) * 128 +
        (((Fin.ofNat (n % 128) : Byte)).val - 128)) true) from rfl]
  rw [hbval, if_pos (by omega)]
  have harith : (0 * 128 ^ (encode7Hi n (n / 128)).length + n / 128) * 128 + n % 128 = n := by
    simp only [Nat.zero_mul, Nat.zero_add]
    omega
  rw [harith]

theorem decode7_packetBytes (vals : List Nat) :
    decode7 (packetBytes vals) 0 false = some vals := by
  induction vals with
  | nil => rfl
  | cons v t ih =>
    show decode7 (encode7 v ++ packetBytes t) 0 false = some (v :: t)
    rw [decode7_encode7, ih]
    rfl

theorem parsePltContent_roundtrip (p : PLTsegment) (hv : pltValid p) :
    parsePltContent (serializePltContent p) = some (p, []) := by
  obtain ⟨hz, _⟩ := hv
  show (decode7 (packetBytes p.iplt) 0 false).map
      (fun vals => (({ zplt := ((Fin.ofNat p.zplt : Byte)).val, iplt := vals } : PLTsegment),
        ([] : List Warning))) = some (p, [])
  rw [decode7_packetBytes,
    show ((Fin.ofNat p.zplt : Byte)).val = p.zplt by show p.zplt % 256 = p.zplt; omega]
  rfl

theorem parsePlmContent_roundtrip (p : PLMsegment) (hv : plmValid p) :
    parsePlmContent (serializePlmContent p) = some (p, []) := by
  obtain ⟨hz, _⟩ := hv
  show (decode7 (packetBytes p.iplm) 0 false).map
      (fun vals => (({ zplm := ((Fin.ofNat p.zplm : Byte)).val, iplm := vals } : PLMsegment),
        ([] : List Warning))) = some (p, [])
  rw [decode7_packetBytes,
    show ((Fin.ofNat p.zplm : Byte)).val = p.zplm by show p.zplm % 256 = p.zplm; omega]
  rfl

theorem parsePptContent_roundtrip (p : PPTsegment) (hv : pptValid p) :
    parsePptContent (serializePptContent p) = some (p, []) := by
  obtain ⟨hz, _⟩ := hv
  show some (({ zppt := ((Fin.ofNat p.zppt : Byte)).val, data := p.data } : PPTsegment),
      ([] : List Warning)) = some (p, [])
  rw [show ((Fin.ofNat p.zppt : Byte)).val = p.zppt by show p.zppt % 256 = p.zppt; omega]

theorem parsePpmContent_roundtrip (p : PPMsegment) (hv : ppmValid p) :
    parsePpmContent (serializePpmContent p) = some (p, []) := by
  obtain ⟨hz, _⟩ := hv
  show some (({ zppm := ((Fin.ofNat p.zppm : Byte)).val, data := p.data } : PPMsegment),
      ([] : List Warning)) = some (p, [])
  rw [show ((Fin.ofNat p.zppm : Byte)).val = p.zppm by show p.zppm % 256 = p.zppm; omega]

theorem parseComContent_roundtrip (c : COMsegment) (hv : comValid c) :
    parseComContent (serializeComContent c) = some (c, []) := by
  obtain ⟨hr, _⟩ := hv
  unfold parseComContent serializeComContent
  rw [readBE_toBytesBE, Nat.mod_eq_of_lt (show c.rcme < 256 ^ 2 from hr)]

theorem length_serializeQccContent (w : Nat) (q : QCCsegment) :
    (serializeQccContent w q).length =
      w + 1 + (serializeQuantTail (q.sqcc % 32) q.mantissa q.exponent).length := by
  unfold serializeQccContent
  simp only [List.length_append, length_toBytesBE, List.length_cons]
  omega

theorem length_serializePptContent (p : PPTsegment) :
    (serializePptContent p).length = 1 + p.data.length := by
  unfold serializePptContent
  simp only [List.length_cons]
  omega

theorem length_serializePpmContent (p : PPMsegment) :
    (serializePpmContent p).length = 1 + p.data.length := by
  unfold serializePpmContent
  simp only [List.length_cons]
  omega

theorem length_serializeComContent (c : COMsegment) :
    (serializeComContent c).length = 2 + c.ccme.length := by
  unfold serializeComContent
  simp [length_toBytesBE]

theorem parseOneSegment_serialize (seg : Segment) (rest : List Byte) (hv : segValid seg) :
    parseOneSegment (serializeSegment seg ++ rest) = some (seg, rest, segParseWarnings seg) := by
  cases seg with
  | SOC =>
    unfold serializeSegment parseOneSegment
    rw [readBE_toBytesBE]
    rfl
  | SOD =>
    unfold serializeSegment parseOneSegment
    rw [readBE_toBytesBE]
    rfl
  | EOC =>
    unfold serializeSegment parseOneSegment
    rw [readBE_toBytesBE]
    rfl
  | SIZ s =>
    unfold serializeSegment parseOneSegment
    simp only [List.append_assoc]
    rw [readBE_toBytesBE]
    show (parseSizSegment (toBytesBE 2 (38 + 3 * s.ssiz.length) ++
        (serializeSizContent s ++ rest))).map (fun p => (Segment.SIZ p.1, p.2.1, p.2.2)) =
      some (Segment.SIZ s, rest, segParseWarnings (Segment.SIZ s))
    rw [parseSizSegment_roundtrip s rest hv]
    rfl
  | COD c =>
    unfold serializeSegment parseOneSegment
    simp only [List.append_assoc]
    rw [readBE_toBytesBE]
    show (parseCodSegment (toBytesBE 2 (12 + c.precinctSize.length) ++
        (serializeCodContent c ++ rest))).map (fun p => (Segment.COD p.1, p.2.1, p.2.2)) =
      some (Segment.COD c, rest, segParseWarnings (Segment.COD c))
    rw [parseCodSegment_roundtrip c rest hv]
    rfl
  | SOT t =>
    unfold serializeSegment parseOneSegment
    simp only [List.append_assoc]
    rw [readBE_toBytesBE]
    show (parseSotSegment (toBytesBE 2 10 ++
        (toBytesBEs [2, 4, 1, 1] [t.isot, t.psot, t.tpsot, t.tnsot] ++ rest))).map
        (fun p => (Segment.SOT p.1, p.2.1, p.2.2)) =
      some (Segment.SOT t, rest, segParseWarnings (Segment.SOT t))
    rw [parseSotSegment_roundtrip t rest hv]
    rfl
  | COC c =>
    unfold serializeSegment parseOneSegment
    simp only [List.append_assoc]
    rw [readBE_toBytesBE]
    show (parseSegBody (parseCocContent 1)
        (toBytesBE 2 (2 + (serializeCocContent 1 c).length) ++
          (serializeCocContent 1 c ++ rest))).map
        (fun p => (Segment.COC p.1, p.2.1, p.2.2)) =
      some (Segment.COC c, rest, segParseWarnings (Segment.COC c))
    rw [parseSegBody_exact (parseCocContent 1) (serializeCocContent 1 c) rest
      (2 + (serializeCocContent 1 c).length) c (cocWarnings c) (by omega)
      (coc_len_lt 1 c (by omega) hv) (parseCocContent_roundtrip 1 c hv)]
    rfl
  | QCD q =>
    unfold serializeSegment parseOneSegment
    simp only [List.append_assoc]
    rw [readBE_toBytesBE]
    show (parseSegBody parseQcdContent
        (toBytesBE 2 (2 + (serializeQcdContent q).length) ++
          (serializeQcdContent q ++ rest))).map
        (fun p => (Segment.QCD p.1, p.2.1, p.2.2)) =
      some (Segment.QCD q, rest, segParseWarnings (Segment.QCD q))
    rw [parseSegBody_exact parseQcdContent (serializeQcdContent q) rest
      (2 + (serializeQcdContent q).length) q [] (by omega)
      hv.2.2 (parseQcdContent_roundtrip q hv)]
    rfl
  | QCC q =>
    unfold serializeSegment parseOneSegment
    simp only [List.append_assoc]
    rw [readBE_toBytesBE]
    show (parseSegBody (parseQccContent 1)
        (toBytesBE 2 (2 + (serializeQccContent 1 q).length) ++
          (serializeQccContent 1 q ++ rest))).map
        (fun p => (Segment.QCC p.1, p.2.1, p.2.2)) =
      some (Segment.QCC q, rest, segParseWarnings (Segment.QCC q))
    rw [parseSegBody_exact (parseQccContent 1) (serializeQccContent 1 q) rest
      (2 + (serializeQccContent 1 q).length) q [] (by omega)
      hv.2.2.2 (parseQccContent_roundtrip 1 q hv)]
    rfl
  | RGN r =>
    unfold serializeSegment parseOneSegment
    simp only [List.append_assoc]
    rw [readBE_toBytesBE]
    show (parseSegBody parseRgnContent
        (toBytesBE 2 (2 + (serializeRgnContent r).length) ++
          (serializeRgnContent r ++ rest))).map
        (fun p => (Segment.RGN p.1, p.2.1, p.2.2)) =
      some (Segment.RGN r, rest, segParseWarnings (Segment.RGN r))
    rw [parseSegBody_exact parseRgnContent (serializeRgnContent r) rest
      (2 + (serializeRgnContent r).length) r [] (by omega)
      (by rw [rgn_content_length]; split <;> norm_num)
      (parseRgnContent_roundtrip r hv)]
    rfl
  | CRG c =>
    unfold serializeSegment parseOneSegment
    simp only [List.append_assoc]
    rw [readBE_toBytesBE]
    show (parseSegBody parseCrgContent
        (toBytesBE 2 (2 + (serializeCrgContent c).length) ++
          (serializeCrgContent c ++ rest))).map
        (fun p => (Segment.CRG p.1, p.2.1, p.2.2)) =
      some (Segment.CRG c, rest, segParseWarnings (Segment.CRG c))
    rw [parseSegBody_exact parseCrgContent (serializeCrgContent c) rest
      (2 + (serializeCrgContent c).length) c [] (by omega)
      (by
        show 2 + (crgBytes c.xcrg c.ycrg).length < 2 ^ 16
        rw [length_crgBytes c.xcrg c.ycrg hv.1]
        exact hv.2.2.2)
      (parseCrgContent_roundtrip c hv)]
    rfl
  | PLT p =>
    unfold serializeSegment parseOneSegment
    simp only [List.append_assoc]
    rw [readBE_toBytesBE]
    show (parseSegBody parsePltContent
        (toBytesBE 2 (2 + (serializePltContent p).length) ++
          (serializePltContent p ++ rest))).map
        (fun q => (Segment.PLT q.1, q.2.1, q.2.2)) =
      some (Segment.PLT p, rest, segParseWarnings (Segment.PLT p))
    rw [parseSegBody_exact parsePltContent (serializePltContent p) rest
      (2 + (serializePltContent p).length) p [] (by omega)
      hv.2 (parsePltContent_roundtrip p hv)]
    rfl
  | PLM p =>
    unfold serializeSegment parseOneSegment
    simp only [List.append_assoc]
    rw [readBE_toBytesBE]
    show (parseSegBody parsePlmContent
        (toBytesBE 2 (2 + (serializePlmContent p).length) ++
          (serializePlmContent p ++ rest))).map
        (fun q => (Segment.PLM q.1, q.2.1, q.2.2)) =
      some (Segment.PLM p, rest, segParseWarnings (Segment.PLM p))
    rw [parseSegBody_exact parsePlmContent (serializePlmContent p) rest
      (2 + (serializePlmContent p).length) p [] (by omega)
      hv.2 (parsePlmContent_roundtrip p hv)]
    rfl
  | PPT p =>
    unfold serializeSegment parseOneSegment
    simp only [List.append_assoc]
    rw [readBE_toBytesBE]
    show (parseSegBody parsePptContent
        (toBytesBE 2 (2 + (serializePptContent p).length) ++
          (serializePptContent p ++ rest))).map
        (fun q => (Segment.PPT q.1, q.2.1, q.2.2)) =
      some (Segment.PPT p, rest, segParseWarnings (Segment.PPT p))
    rw [parseSegBody_exact parsePptContent (serializePptContent p) rest
      (2 + (serializePptContent p).length) p [] (by omega)
      (by rw [length_serializePptContent]; have := hv.2; omega)
      (parsePptContent_roundtrip p hv)]
    rfl
  | PPM p =>
    unfold serializeSegment parseOneSegment
    simp only [List.append_assoc]
    rw [readBE_toBytesBE]
    show (parseSegBody parsePpmContent
        (toBytesBE 2 (2 + (serializePpmContent p).length) ++
          (serializePpmContent p ++ rest))).map
        (fun q => (Segment.PPM q.1, q.2.1, q.2.2)) =
      some (Segment.PPM p, rest, segParseWarnings (Segment.PPM p))
    rw [parseSegBody_exact parsePpmContent (serializePpmContent p) rest
      (2 + (serializePpmContent p).length) p [] (by omega)
      (by rw [length_serializePpmContent]; have := hv.2; omega)
      (parsePpmContent_roundtrip p hv)]
    rfl
  | COM c =>
    unfold serializeSegment parseOneSegment
    simp only [List.append_assoc]
    rw [readBE_toBytesBE]
    show (parseSegBody parseComContent
        (toBytesBE 2 (2 + (serializeComContent c).length) ++
          (serializeComContent c ++ rest))).map
        (fun p => (Segment.COM p.1, p.2.1, p.2.2)) =
      some (Segment.COM c, rest, segParseWarnings (Segment.COM c))
    rw [parseSegBody_exact parseComContent (serializeComContent c) rest
      (2 + (serializeComContent c).length) c [] (by omega)
      (by rw [length_serializeComContent]; have := hv.2; omega)
      (parseComContent_roundtrip c hv)]
    rfl
  | generic code len data =>
    obtain ⟨hk, hns, hld, hl16⟩ := hv
    have hcode16 : code < 2 ^ 16 := by
      have hall : ∀ x ∈ knownMarkerCodes, x < 2 ^ 16 := by decide
      exact hall code hk
    have hne1 : ¬(code = 0xFF4F) := fun h => hns (by simp [h])
    have hne2 : ¬(code = 0xFF93) := fun h => hns (by simp [h])
    have hne3 : ¬(code = 0xFFD9) := fun h => hns (by simp [h])
    have hne4 : ¬(code = 0xFF51) := fun h => hns (by simp [h])
    have hne5 : ¬(code = 0xFF52) := fun h => hns (by simp [h])
    have hne6 : ¬(code = 0xFF90) := fun h => hns (by simp [h])
    have hne7 : ¬(code = 0xFF53) := fun h => hns (by simp [h])
    have hne8 : ¬(code = 0xFF5C) := fun h => hns (by simp [h])
    have hne9 : ¬(code = 0xFF5D) := fun h => hns (by simp [h])
    have hne10 : ¬(code = 0xFF5E) := fun h => hns (by simp [h])
    have hne11 : ¬(code = 0xFF63) := fun h => hns (by simp [h])
    have hne12 : ¬(code = 0xFF58) := fun h => hns (by simp [h])
    have hne13 : ¬(code = 0xFF57) := fun h => hns (by simp [h])
    have hne14 : ¬(code = 0xFF61) := fun h => hns (by simp [h])
    have hne15 : ¬(code = 0xFF60) := fun h => hns (by simp [h])
    have hne16 : ¬(code = 0xFF64) := fun h => hns (by simp [h])
    unfold serializeSegment parseOneSegment
    simp only [List.append_assoc]
    rw [readBE_toBytesBE, Nat.mod_eq_of_lt (show code < 256 ^ 2 from hcode16)]
    simp only [if_neg hne1, if_neg hne2, if_neg hne3, if_neg hne4, if_neg hne5, if_neg hne6,
      if_neg hne7, if_neg hne8, if_neg hne9, if_neg hne10, if_neg hne11, if_neg hne12,
      if_neg hne13, if_neg hne14, if_neg hne15, if_neg hne16]
    rw [readBE_toBytesBE, Nat.mod_eq_of_lt (show len < 256 ^ 2 from hl16)]
    simp only [show len - 2 = data.length by omega,
      readChunk_exact data.length data rest rfl, if_pos hk]
    rfl
  | unknown code len data =>
    obtain ⟨hc16, hnk, hld, hl16⟩ := hv
    have hspec : ∀ x ∈ [0xFF4F, 0xFF93, 0xFFD9, 0xFF51, 0xFF52, 0xFF90, 0xFF53, 0xFF5C,
        0xFF5D, 0xFF5E, 0xFF63, 0xFF58, 0xFF57, 0xFF61, 0xFF60, 0xFF64],
        x ∈ knownMarkerCodes := by
      decide
    have hne1 : ¬(code = 0xFF4F) := fun h => hnk (h ▸ hspec 0xFF4F (by simp))
    have hne2 : ¬(code = 0xFF93) := fun h => hnk (h ▸ hspec 0xFF93 (by simp))
    have hne3 : ¬(code = 0xFFD9) := fun h => hnk (h ▸ hspec 0xFFD9 (by simp))
    have hne4 : ¬(code = 0xFF51) := fun h => hnk (h ▸ hspec 0xFF51 (by simp))
    have hne5 : ¬(code = 0xFF52) := fun h => hnk (h ▸ hspec 0xFF52 (by simp))
    have hne6 : ¬(code = 0xFF90) := fun h => hnk (h ▸ hspec 0xFF90 (by simp))
    have hne7 : ¬(code = 0xFF53) := fun h => hnk (h ▸ hspec 0xFF53 (by simp))
    have hne8 : ¬(code = 0xFF5C) := fun h => hnk (h ▸ hspec 0xFF5C (by simp))
    have hne9 : ¬(code = 0xFF5D) := fun h => hnk (h ▸ hspec 0xFF5D (by simp))
    have hne10 : ¬(code = 0xFF5E) := fun h => hnk (h ▸ hspec 0xFF5E (by simp))
    have hne11 : ¬(code = 0xFF63) := fun h => hnk (h ▸ hspec 0xFF63 (by simp))
    have hne12 : ¬(code = 0xFF58) := fun h => hnk (h ▸ hspec 0xFF58 (by simp))
    have hne13 : ¬(code = 0xFF57) := fun h => hnk (h ▸ hspec 0xFF57 (by simp))
    have hne14 : ¬(code = 0xFF61) := fun h => hnk (h ▸ hspec 0xFF61 (by simp))
    have hne15 : ¬(code = 0xFF60) := fun h => hnk (h ▸ hspec 0xFF60 (by simp))
    have hne16 : ¬(code = 0xFF64) := fun h => hnk (h ▸ hspec 0xFF64 (by simp))
    unfold serializeSegment parseOneSegment
    simp only [List.append_assoc]
    rw [readBE_toBytesBE, Nat.mod_eq_of_lt (show code < 256 ^ 2 from hc16)]
    simp only [if_neg hne1, if_neg hne2, if_neg hne3, if_neg hne4, if_neg hne5, if_neg hne6,
      if_neg hne7, if_neg hne8, if_neg hne9, if_neg hne10, if_neg hne11, if_neg hne12,
      if_neg hne13, if_neg hne14, if_neg hne15, if_neg hne16]
    rw [readBE_toBytesBE, Nat.mod_eq_of_lt (show len < 256 ^ 2 from hl16)]
    simp only [show len - 2 = data.length by omega,
      readChunk_exact data.length data rest rfl, if_neg hnk]
    rfl

theorem parseCodContent_ws {content : List Byte} {seg : CODsegment} {ws : List Warning}
    (h : parseCodContent content = some (seg, ws)) : ws = codWarnings seg := by
  unfold parseCodContent at h
  split at h
  · split at h
    · simp only [Option.some.injEq, Prod.mk.injEq] at h
      obtain ⟨h1, h2⟩ := h
      rw [← h1, ← h2]
    · exact absurd h (by simp)
  · exact absurd h (by simp)

theorem mem_codWarnings_numres (c : CODsegment) :
    Warning.InvalidNumberOfResolutionsWarning c.numRes ∈ codWarnings c ↔
      ¬(1 ≤ c.numRes ∧ c.numRes ≤ 33) := by
  unfold codWarnings
  constructor
  · intro hmem
    simp only [List.mem_append] at hmem
    rcases hmem with ((h | h) | h) | h
    · split at h <;> simp_all
    · split at h <;> simp_all
    · split at h <;> simp_all
    · split at h <;> simp_all
  · intro hout
    simp only [List.mem_append]
    left; left; right
    rw [if_neg hout]
    simp

theorem parseSegmentsAux_cons (fuel : Nat) (b : Byte) (t : List Byte) :
    parseSegmentsAux (fuel + 1) (b :: t) =
      match parseOneSegment (b :: t) with
      | some (seg, rest, ws) =>
        (match seg with
         | .SOD => some ([Segment.SOD], ws)
         | .EOC => some ([Segment.EOC], ws)
         | _ =>
           match parseSegmentsAux fuel rest with
           | some (segs, ws2) => some (seg :: segs, ws ++ ws2)
           | none => none)
      | none => none := rfl

/-- C5: when parsing a COD segment the derived number of resolutions
equals the decomposition-levels byte plus 1, and
`InvalidNumberOfResolutionsWarning` is emitted exactly when that value
falls outside [1,33]; parsing still returns the segment with the raw
value retained. -/
theorem cod_derived_resolutions_warning (content : List Byte) (seg : CODsegment)
    (ws : List Warning) (h : parseCodContent content = some (seg, ws)) :
    seg.numRes = seg.levels + 1 ∧
    (Warning.InvalidNumberOfResolutionsWarning seg.numRes ∈ ws ↔
      ¬(1 ≤ seg.numRes ∧ seg.numRes ≤ 33)) := by
  refine ⟨rfl, ?_⟩
  rw [parseCodContent_ws h]
  exact mem_codWarnings_numres seg

/-- Witness for C5 at the spec's example: a decomposition-levels byte
of 0xFF derives 256 resolutions and triggers the warning. -/
theorem cod_derived_resolutions_warning_witness :
    ∃ seg ws, parseCodContent
        (List.map (Fin.ofNat : Nat → Byte) [0, 0, 0, 1, 0, 255, 3, 3, 0, 0]) = some (seg, ws) ∧
      seg.numRes = 256 ∧ seg.levels = 255 ∧
      (Warning.InvalidNumberOfResolutionsWarning seg.numRes ∈ ws ↔
        ¬(1 ≤ seg.numRes ∧ seg.numRes ≤ 33)) ∧
      Warning.InvalidNumberOfResolutionsWarning 256 ∈ ws := by
  have hp : parseCodContent (List.map (Fin.ofNat : Nat → Byte) [0, 0, 0, 1, 0, 255, 3, 3, 0, 0]) =
      some ({ scod := 0, progOrder := 0, layers := 1, mct := 0, levels := 255, cbwExp := 3,
              cbhExp := 3, cbStyle := 0, xform := 0, precinctSize := [] },
            [Warning.InvalidNumberOfResolutionsWarning 256]) := by decide
  exact ⟨_, _, hp, rfl, rfl, (cod_derived_resolutions_warning _ _ _ hp).2, by decide⟩

/-- C6 counterexample: the byte sequence 00 01 01 40 03 03 00 00 quoted
by the claim as a COD segment payload does not parse to a warning-free
segment with 4 resolutions; it is a truncated COD content (the
repository test that the claim cites packs these as the field VALUES
(0,1,1,64,3,3,0,0), whose actual byte rendering carries
decomposition-levels byte 0x40 = 64). -/
theorem codScenarioC_as_stated_false :
    ¬ ∃ seg : CODsegment, parseCodContent
        (List.map (Fin.ofNat : Nat → Byte) [0x00, 0x01, 0x01, 0x40, 0x03, 0x03, 0x00, 0x00]) =
          some (seg, []) ∧ seg.numRes = 4 := by
  rintro ⟨seg, heq, -⟩
  have hnone : parseCodContent
      (List.map (Fin.ofNat : Nat → Byte) [0x00, 0x01, 0x01, 0x40, 0x03, 0x03, 0x00, 0x00]) =
        none := by decide
  rw [hnone] at heq
  exact Option.noConfusion heq

/-- C6 amended: the COD segment content actually constructed by the
cited regression test (scod = 0 followed by the SPcod values
(0,1,1,64,3,3,0,0), i.e. bytes 00 00 00 01 01 40 03 03 00 00) parses
with decomposition-levels byte 0x40 = 64, derives 65 resolutions, and
emits `InvalidNumberOfResolutionsWarning` — not 4 resolutions without
warning. -/
theorem codScenarioC_amended :
    ∃ seg : CODsegment, parseCodContent
        (List.map (Fin.ofNat : Nat → Byte)
          [0x00, 0x00, 0x00, 0x01, 0x01, 0x40, 0x03, 0x03, 0x00, 0x00]) =
          some (seg, [Warning.InvalidNumberOfResolutionsWarning 65]) ∧
      seg.levels = 0x40 ∧ seg.numRes = 65 := by
  have hp : parseCodContent
      (List.map (Fin.ofNat : Nat → Byte)
        [0x00, 0x00, 0x00, 0x01, 0x01, 0x40, 0x03, 0x03, 0x00, 0x00]) =
        some ({ scod := 0, progOrder := 0, layers := 1, mct := 1, levels := 0x40, cbwExp := 3,
                cbhExp := 3, cbStyle := 0, xform := 0, precinctSize := [] },
              [Warning.InvalidNumberOfResolutionsWarning 65]) := by decide
  exact ⟨_, hp, rfl, rfl⟩

/-- C4: the pathological SIZ segment of the cited regression test
(xsiz = 20, ysiz = 16777236, xtsiz = ytsiz = 20) parses successfully —
no hang, crash or hard failure — returning the raw field values
unclamped, and raises `InvalidNumberOfTilesWarning` for the computed
838862 tiles. -/
theorem siz_pathological_tile_count_warning :
    ∃ seg : SIZsegment, parseSizSegment
        (toBytesBE 2 47 ++ toBytesBE 2 1 ++ toBytesBE 4 20 ++ toBytesBE 4 16777236 ++
         toBytesBE 4 0 ++ toBytesBE 4 0 ++ toBytesBE 4 20 ++ toBytesBE 4 20 ++
         toBytesBE 4 0 ++ toBytesBE 4 0 ++ toBytesBE 2 3 ++
         List.map (Fin.ofNat : Nat → Byte) [7, 1, 1, 7, 1, 1, 7, 1, 1]) =
        some (seg, [], [Warning.InvalidNumberOfTilesWarning 838862]) ∧
      seg.rsiz = 1 ∧ seg.xsiz = 20 ∧ seg.ysiz = 16777236 ∧ seg.xosiz = 0 ∧ seg.yosiz = 0 ∧
      seg.xtsiz = 20 ∧ seg.ytsiz = 20 ∧ seg.xtosiz = 0 ∧ seg.ytosiz = 0 ∧
      seg.bitdepth = [8, 8, 8] ∧ seg.signed = [false, false, false] ∧
      seg.xrsiz = [1, 1, 1] ∧ seg.yrsiz = [1, 1, 1] ∧ seg.numTiles = 838862 ∧
      65535 < seg.numTiles := by
  have hp : parseSizSegment
      (toBytesBE 2 47 ++ toBytesBE 2 1 ++ toBytesBE 4 20 ++ toBytesBE 4 16777236 ++
       toBytesBE 4 0 ++ toBytesBE 4 0 ++ toBytesBE 4 20 ++ toBytesBE 4 20 ++
       toBytesBE 4 0 ++ toBytesBE 4 0 ++ toBytesBE 2 3 ++
       List.map (Fin.ofNat : Nat → Byte) [7, 1, 1, 7, 1, 1, 7, 1, 1]) =
      some ({ rsiz := 1, xsiz := 20, ysiz := 16777236, xosiz := 0, yosiz := 0,
              xtsiz := 20, ytsiz := 20, xtosiz := 0, ytosiz := 0,
              ssiz := [7, 7, 7], bitdepth := [8, 8, 8], signed := [false, false, false],
              xrsiz := [1, 1, 1], yrsiz := [1, 1, 1] },
            [], [Warning.InvalidNumberOfTilesWarning 838862]) := by decide
  exact ⟨_, hp, rfl, rfl, rfl, rfl, rfl, rfl, rfl, rfl, rfl, rfl, rfl, rfl, rfl, rfl, by decide⟩

/-- C3: a marker code outside the known set is captured as an opaque
segment carrying the raw payload, with the declared length preserved
and the marker id rendered from the raw code, an
`UnrecognizedMarkerWarning` is emitted, and the walk continues with the
remaining segments. -/
theorem unknownMarker_opaque_nonfatal (code len fuel : Nat) (data rest : List Byte)
    (segs : List Segment) (ws2 : List Warning)
    (hnk : code ∉ knownMarkerCodes) (hc : code < 2 ^ 16)
    (hld : len = data.length + 2) (hl : len < 2 ^ 16)
    (hrest : parseSegmentsAux fuel rest = some (segs, ws2)) :
    parseOneSegment (toBytesBE 2 code ++ (toBytesBE 2 len ++ (data ++ rest))) =
      some (Segment.unknown code len data, rest, [Warning.UnrecognizedMarkerWarning code]) ∧
    parseSegmentsAux (fuel + 1) (toBytesBE 2 code ++ (toBytesBE 2 len ++ (data ++ rest))) =
      some (Segment.unknown code len data :: segs,
            Warning.UnrecognizedMarkerWarning code :: ws2) ∧
    (Segment.unknown code len data).markerId = markerIdString code ∧
    (Segment.unknown code len data).segLength = len := by
  have h1 := parseOneSegment_serialize (Segment.unknown code len data) rest ⟨hc, hnk, hld, hl⟩
  simp only [serializeSegment, List.append_assoc] at h1
  refine ⟨h1, ?_, rfl, rfl⟩
  have hshape : toBytesBE 2 code ++ (toBytesBE 2 len ++ (data ++ rest)) =
      (Fin.ofNat (code / 256) : Byte) :: (Fin.ofNat code : Byte) ::
        (toBytesBE 2 len ++ (data ++ rest)) := rfl
  rw [hshape] at h1 ⊢
  rw [parseSegmentsAux_cons, h1]
  show (match parseSegmentsAux fuel rest with
        | some (segs, ws2) => some (Segment.unknown code len data :: segs,
            [Warning.UnrecognizedMarkerWarning code] ++ ws2)
        | none => none) =
      some (Segment.unknown code len data :: segs, Warning.UnrecognizedMarkerWarning code :: ws2)
  rw [hrest]
  rfl

/-- Witness for C3 at the cited test's input: reserved marker 0xFF6F
with declared length 3 and payload byte 00, followed by EOC; the
marker id renders as "0xff6f". -/
theorem unknownMarker_opaque_nonfatal_witness :
    (0xFF6F : Nat) ∉ knownMarkerCodes ∧
    parseOneSegment (toBytesBE 2 0xFF6F ++ (toBytesBE 2 3 ++
        ([(0 : Byte)] ++ (toBytesBE 2 0xFFD9)))) =
      some (Segment.unknown 0xFF6F 3 [(0 : Byte)], toBytesBE 2 0xFFD9,
            [Warning.UnrecognizedMarkerWarning 0xFF6F]) ∧
    parseSegmentsAux 2 (toBytesBE 2 0xFF6F ++ (toBytesBE 2 3 ++
        ([(0 : Byte)] ++ (toBytesBE 2 0xFFD9)))) =
      some ([Segment.unknown 0xFF6F 3 [(0 : Byte)], Segment.EOC],
            [Warning.UnrecognizedMarkerWarning 0xFF6F]) ∧
    (Segment.unknown 0xFF6F 3 [(0 : Byte)]).markerId = "0xff6f" ∧
    (Segment.unknown 0xFF6F 3 [(0 : Byte)]).segLength = 3 := by
  have hrest : parseSegmentsAux 1 (toBytesBE 2 0xFFD9) = some ([Segment.EOC], []) := by decide
  have h := unknownMarker_opaque_nonfatal 0xFF6F 3 1 [(0 : Byte)] (toBytesBE 2 0xFFD9)
    [Segment.EOC] [] (by decide) (by decide) (by decide) (by decide) hrest
  exact ⟨by decide, h.1, h.2.1, by decide, h.2.2.2⟩

theorem readBoxHeader_std (id : Nat) (payload rest : List Byte)
    (hid : id < 2 ^ 32) (hlen : 8 + payload.length < 2 ^ 32) :
    readBoxHeader (toBytesBE 4 (8 + payload.length) ++ (toBytesBE 4 id ++ (payload ++ rest))) =
      some (8 + payload.length, 8, id, payload, rest) := by
  unfold readBoxHeader
  simp only [readBE_toBytesBE,
    Nat.mod_eq_of_lt (show 8 + payload.length < 256 ^ 4 from hlen),
    Nat.mod_eq_of_lt (show id < 256 ^ 4 from hid),
    if_neg (show ¬(8 + payload.length = 0) by omega),
    if_neg (show ¬(8 + payload.length = 1) by omega),
    if_pos (show 8 ≤ 8 + payload.length by omega),
    show 8 + payload.length - 8 = payload.length by omega,
    readChunk_exact payload.length payload rest rfl]

theorem readBoxHeader_ext (id : Nat) (payload rest : List Byte)
    (hid : id < 2 ^ 32) (hlen : 16 + payload.length < 2 ^ 64) :
    readBoxHeader (toBytesBE 4 1 ++ (toBytesBE 4 id ++
        (toBytesBE 8 (16 + payload.length) ++ (payload ++ rest)))) =
      some (16 + payload.length, 16, id, payload, rest) := by
  unfold readBoxHeader
  simp only [readBE_toBytesBE,
    show (1 : Nat) % 256 ^ 4 = 1 by norm_num,
    Nat.mod_eq_of_lt (show id < 256 ^ 4 from hid),
    Nat.mod_eq_of_lt (show 16 + payload.length < 256 ^ 8 from hlen),
    if_neg (show ¬(1 : Nat) = 0 by omega),
    if_pos (show (1 : Nat) = 1 from rfl), if_true,
    if_pos (show 16 ≤ 16 + payload.length by omega),
    show 16 + payload.length - 16 = payload.length by omega,
    readChunk_exact payload.length payload rest rfl]

theorem readBoxHeader_zero (id : Nat) (payload : List Byte) (hid : id < 2 ^ 32) :
    readBoxHeader (toBytesBE 4 0 ++ (toBytesBE 4 id ++ payload)) =
      some (8 + payload.length, 8, id, payload, []) := by
  unfold readBoxHeader
  simp only [readBE_toBytesBE,
    show (0 : Nat) % 256 ^ 4 = 0 by norm_num,
    Nat.mod_eq_of_lt (show id < 256 ^ 4 from hid),
    if_pos (show (0 : Nat) = 0 from rfl), if_true]

theorem length_clBytes (cl : List Nat) : (clBytes cl).length = 4 * cl.length := by
  induction cl with
  | nil => rfl
  | cons v t ih =>
    simp only [clBytes, List.length_append, length_toBytesBE, ih, List.length_cons]
    ring

theorem readNCls_clBytes (cl : List Nat) (hb : ∀ v ∈ cl, v < 2 ^ 32) :
    readNCls cl.length (clBytes cl) = some cl := by
  induction cl with
  | nil => rfl
  | cons v t ih =>
    show readNCls (t.length + 1) (toBytesBE 4 v ++ clBytes t) = some (v :: t)
    unfold readNCls
    rw [readBE_toBytesBE, Nat.mod_eq_of_lt (show v < 256 ^ 4 from hb v (by simp))]
    simp only [ih (fun x hx => hb x (by simp [hx]))]
    rfl

theorem parseFtyp_roundtrip (b : FileTypeBox) (hv : ftypFieldsValid b) :
    parseFtyp ((LeafBox.ftyp b).payloadBytes) = some b := by
  obtain ⟨h1, h2, h3⟩ := hv
  have hf : List.Forall₂ (fun w v => v < 256 ^ w) [4, 4] [b.brand, b.minorVersion] :=
    .cons h1 (.cons h2 .nil)
  show parseFtyp (toBytesBEs [4, 4] [b.brand, b.minorVersion] ++ clBytes b.compatibilityList) =
    some b
  unfold parseFtyp
  rw [readBEs_toBytesBEs (clBytes b.compatibilityList) hf]
  simp only [length_clBytes, show 4 * b.compatibilityList.length / 4 = b.compatibilityList.length
    by omega, readNCls_clBytes b.compatibilityList h3]
  rfl

theorem parseIhdr_roundtrip (b : ImageHeaderBox) (hv : ihdrValid b) :
    parseIhdr ((LeafBox.ihdr b).payloadBytes) = some b := by
  obtain ⟨h1, h2, h3, h4, h5, h6⟩ := hv
  have hbpc : (if b.signed then 128 else 0) + (b.bitsPerComponent - 1) < 256 ^ 1 := by
    cases b.signed <;> simp <;> omega
  have hc1 : (if b.colorspaceUnknown then 1 else 0) < 256 ^ 1 := by
    cases b.colorspaceUnknown <;> simp
  have hc2 : (if b.ipProvided then 1 else 0) < 256 ^ 1 := by
    cases b.ipProvided <;> simp
  have hf : List.Forall₂ (fun w v => v < 256 ^ w) [4, 4, 2, 1, 1, 1, 1]
      [b.height, b.width, b.numComponents,
       (if b.signed then 128 else 0) + (b.bitsPerComponent - 1), b.compression,
       (if b.colorspaceUnknown then 1 else 0), (if b.ipProvided then 1 else 0)] :=
    .cons h1 (.cons h2 (.cons h3 (.cons hbpc (.cons h6 (.cons hc1 (.cons hc2 .nil))))))
  have hre := readBEs_toBytesBEs ([] : List Byte) hf
  simp only [List.append_nil] at hre
  show parseIhdr (toBytesBEs [4, 4, 2, 1, 1, 1, 1]
      [b.height, b.width, b.numComponents,
       (if b.signed then 128 else 0) + (b.bitsPerComponent - 1), b.compression,
       (if b.colorspaceUnknown then 1 else 0), (if b.ipProvided then 1 else 0)]) = some b
  unfold parseIhdr
  rw [hre]
  show some ({ height := b.height, width := b.width, numComponents := b.numComponents,
               bitsPerComponent :=
                 ((if b.signed then 128 else 0) + (b.bitsPerComponent - 1)) % 128 + 1,
               signed := 128 ≤ (if b.signed then 128 else 0) + (b.bitsPerComponent - 1),
               compression := b.compression,
               colorspaceUnknown := (if b.colorspaceUnknown then 1 else 0) ≠ 0,
               ipProvided := (if b.ipProvided then 1 else 0) ≠ 0 } : ImageHeaderBox) = some b
  have e1 : ((if b.signed then 128 else 0) + (b.bitsPerComponent - 1)) % 128 + 1 =
      b.bitsPerComponent := by
    cases b.signed <;> simp <;> omega
  have e2 : (decide (128 ≤ (if b.signed then 128 else 0) + (b.bitsPerComponent - 1))) =
      b.signed := by
    cases b.signed <;> simp
    omega
  have e3 : (decide ((if b.colorspaceUnknown then 1 else 0) ≠ 0)) = b.colorspaceUnknown := by
    cases b.colorspaceUnknown <;> simp
  have e4 : (decide ((if b.ipProvided then 1 else 0) ≠ 0)) = b.ipProvided := by
    cases b.ipProvided <;> simp
  rw [e1, e2, e3, e4]

theorem parseColr_roundtrip (b : ColourSpecificationBox) (hv : colrValid b) :
    parseColr ((LeafBox.colr b).payloadBytes) = some b := by
  obtain ⟨h1, h2, h3, h4, h5⟩ := hv
  have hf : List.Forall₂ (fun w v => v < 256 ^ w) [1, 1, 1]
      [b.method, b.precedence, b.approximation] :=
    .cons h1 (.cons h2 (.cons h3 .nil))
  show parseColr (toBytesBEs [1, 1, 1] [b.method, b.precedence, b.approximation] ++
      (match b.colorspace with | some cs => toBytesBE 4 cs | none => []) ++
      (match b.iccProfile with | some icc => icc | none => [])) = some b
  by_cases hm : b.method = 1
  · obtain ⟨hicc, hcs, hcsb⟩ := h4 hm
    obtain ⟨cs, hcseq⟩ := Option.ne_none_iff_exists'.mp hcs
    have hcsb' : cs < 2 ^ 32 := by
      rw [hcseq] at hcsb
      simpa using hcsb
    rw [hcseq, hicc]
    simp only [List.append_assoc]
    unfold parseColr
    rw [readBEs_toBytesBEs _ hf]
    show parseColrTail b.method b.precedence b.approximation (toBytesBE 4 cs ++ []) = some b
    unfold parseColrTail
    simp only [if_pos hm, readBE_toBytesBE, Nat.mod_eq_of_lt (show cs < 256 ^ 4 from hcsb')]
    rw [← hcseq, ← hicc]
  · obtain ⟨hcs, hicc⟩ := h5 hm
    obtain ⟨icc, hicceq⟩ := Option.ne_none_iff_exists'.mp hicc
    rw [hcs, hicceq]
    simp only [List.append_assoc, List.nil_append]
    unfold parseColr
    rw [readBEs_toBytesBEs _ hf]
    show parseColrTail b.method b.precedence b.approximation icc = some b
    unfold parseColrTail
    rw [if_neg hm, ← hcs, ← hicceq]

theorem readPaletteRow_rowBytes (bits : List Nat) (row : List Nat) (rest : List Byte)
    (hlen : row.length = bits.length)
    (hb : ∀ p ∈ List.zip bits row, p.2 < 256 ^ bppWidth p.1) :
    readPaletteRow bits (rowBytes bits row ++ rest) = some (row, rest) := by
  induction bits generalizing row with
  | nil =>
    cases row with
    | nil => simp [readPaletteRow, rowBytes]
    | cons v vt => simp at hlen
  | cons w bt ih =>
    cases row with
    | nil => simp at hlen
    | cons v vt =>
      have hv : v < 256 ^ bppWidth w := hb (w, v) (by simp)
      simp only [rowBytes, List.append_assoc, readPaletteRow, readBE_toBytesBE,
        Nat.mod_eq_of_lt hv]
      simp only [ih vt (by simpa using hlen) (fun p hp => hb p (by simp [hp]))]
      rfl

theorem readPaletteRows_roundtrip (bits : List Nat) (pal : List (List Nat)) (rest : List Byte)
    (hv : ∀ row ∈ pal, row.length = bits.length ∧
      ∀ p ∈ List.zip bits row, p.2 < 256 ^ bppWidth p.1) :
    readPaletteRows pal.length bits ((pal.map (rowBytes bits)).flatten ++ rest) =
      some (pal, rest) := by
  induction pal with
  | nil => simp [readPaletteRows]
  | cons row pt ih =>
    simp only [List.map_cons, List.flatten_cons, List.append_assoc, List.length_cons,
      readPaletteRows]
    rw [readPaletteRow_rowBytes bits row _ (hv row (by simp)).1 (hv row (by simp)).2]
    simp only [ih (fun r hr => hv r (by simp [hr]))]
    rfl

theorem map_descr_bits (l : List Nat) (h : ∀ x ∈ l, 1 ≤ x ∧ x ≤ 128) :
    (l.map fun x => (Fin.ofNat (x - 1) : Byte)).map (fun d => d.val % 128 + 1) = l := by
  induction l with
  | nil => rfl
  | cons x xt ih =>
    have hx := h x (by simp)
    simp only [List.map_cons, List.cons.injEq]
    constructor
    · simp only [Fin.ofNat]
      omega
    · exact ih (fun y hy => h y (by simp [hy]))

theorem parsePclr_roundtrip (b : PaletteBox) (hv : pclrValid b) :
    parsePclr ((LeafBox.pclr b).payloadBytes) = some b := by
  obtain ⟨hr, hc, hbits, hrows⟩ := hv
  have hf : List.Forall₂ (fun w v => v < 256 ^ w) [2, 1]
      [b.palette.length, b.bitsPerComponent.length] :=
    .cons hr (.cons hc .nil)
  show parsePclr (toBytesBEs [2, 1] [b.palette.length, b.bitsPerComponent.length] ++
      b.bitsPerComponent.map (fun bits => (Fin.ofNat (bits - 1) : Byte)) ++
      (b.palette.map (rowBytes b.bitsPerComponent)).flatten) = some b
  simp only [List.append_assoc]
  unfold parsePclr
  rw [readBEs_toBytesBEs _ hf]
  show parsePclrTail b.palette.length b.bitsPerComponent.length
      (b.bitsPerComponent.map (fun bits => (Fin.ofNat (bits - 1) : Byte)) ++
       (b.palette.map (rowBytes b.bitsPerComponent)).flatten) = some b
  unfold parsePclrTail
  rw [readChunk_exact b.bitsPerComponent.length _ _ (by simp)]
  have hany : ((b.bitsPerComponent.map fun bits => (Fin.ofNat (bits - 1) : Byte)).any
      fun d => 128 ≤ d.val) = false := by
    rw [List.any_eq_false]
    intro d hd
    rw [List.mem_map] at hd
    obtain ⟨x, hx, rfl⟩ := hd
    have hx1 := hbits x hx
    simp only [Fin.ofNat, decide_eq_true_eq]
    omega
  have hrec : (b.bitsPerComponent.map fun bits => (Fin.ofNat (bits - 1) : Byte)).map
      (fun d => d.val % 128 + 1) = b.bitsPerComponent := map_descr_bits _ hbits
  have hrowsr := readPaletteRows_roundtrip b.bitsPerComponent b.palette [] hrows
  simp only [List.append_nil] at hrowsr
  simp only [if_neg (show ¬(((b.bitsPerComponent.map fun bits =>
      (Fin.ofNat (bits - 1) : Byte)).any fun d => 128 ≤ d.val) = true) by simp [hany]),
    hrec, hrowsr]

theorem readCdefTriples_cdefBytes (is ts as : List Nat) (rest : List Byte)
    (ht : ts.length = is.length) (ha : as.length = is.length)
    (hib : ∀ v ∈ is, v < 2 ^ 16) (htb : ∀ v ∈ ts, v < 2 ^ 16) (hab : ∀ v ∈ as, v < 2 ^ 16) :
    readCdefTriples is.length (cdefBytes is ts as ++ rest) = some ((is, ts, as), rest) := by
  induction is generalizing ts as with
  | nil =>
    cases ts with
    | nil =>
      cases as with
      | nil => simp [readCdefTriples, cdefBytes]
      | cons a at2 => simp at ha
    | cons t tt => simp at ht
  | cons i it ih =>
    cases ts with
    | nil => simp at ht
    | cons t tt =>
      cases as with
      | nil => simp at ha
      | cons a at2 =>
        have hf : List.Forall₂ (fun w v => v < 256 ^ w) [2, 2, 2] [i, t, a] :=
          .cons (hib i (by simp)) (.cons (htb t (by simp)) (.cons (hab a (by simp)) .nil))
        simp only [cdefBytes, List.append_assoc, List.length_cons, readCdefTriples]
        rw [readBEs_toBytesBEs _ hf]
        simp only [ih tt at2 (by simpa using ht) (by simpa using ha)
          (fun v hv => hib v (by simp [hv])) (fun v hv => htb v (by simp [hv]))
          (fun v hv => hab v (by simp [hv]))]
        rfl

theorem parseCdef_roundtrip (b : ChannelDefinitionBox) (hv : cdefValid b) :
    parseCdef ((LeafBox.cdef b).payloadBytes) = some b := by
  obtain ⟨ht, ha, hn, hib, htb, hab⟩ := hv
  show parseCdef (toBytesBE 2 b.index.length ++
      cdefBytes b.index b.channelType b.association) = some b
  unfold parseCdef
  have hcd := readCdefTriples_cdefBytes b.index b.channelType b.association [] ht ha hib htb hab
  simp only [List.append_nil] at hcd
  have := readBE_exact 2 (toBytesBE 2 b.index.length)
    (cdefBytes b.index b.channelType b.association) (length_toBytesBE 2 b.index.length)
  rw [fromBytesBE_toBytesBE] at this
  rw [this, Nat.mod_eq_of_lt (show b.index.length < 256 ^ 2 from hn)]
  simp only [hcd]

theorem parseLeafPayload_roundtrip (b : LeafBox) (hv : leafValid b) :
    parseLeafPayload b.boxId b.payloadBytes = some (b, leafParseWarnings b) := by
  cases b with
  | signature => rfl
  | ftyp fb =>
    unfold parseLeafPayload
    simp only [LeafBox.boxId]
    rw [if_neg (show ¬(ftypId = jPsigId) by decide), if_true,
      parseFtyp_roundtrip fb hv]
    rfl
  | ihdr ib =>
    unfold parseLeafPayload
    simp only [LeafBox.boxId]
    rw [if_neg (show ¬(ihdrId = jPsigId) by decide), if_neg (show ¬(ihdrId = ftypId) by decide),
      if_true, parseIhdr_roundtrip ib hv]
    rfl
  | colr cb =>
    unfold parseLeafPayload
    simp only [LeafBox.boxId]
    rw [if_neg (show ¬(colrId = jPsigId) by decide), if_neg (show ¬(colrId = ftypId) by decide),
      if_neg (show ¬(colrId = ihdrId) by decide), if_true,
      parseColr_roundtrip cb hv]
    rfl
  | pclr pb =>
    unfold parseLeafPayload
    simp only [LeafBox.boxId]
    rw [if_neg (show ¬(pclrId = jPsigId) by decide), if_neg (show ¬(pclrId = ftypId) by decide),
      if_neg (show ¬(pclrId = ihdrId) by decide), if_neg (show ¬(pclrId = colrId) by decide),
      if_true, parsePclr_roundtrip pb hv]
    rfl
  | cdef cb =>
    unfold parseLeafPayload
    simp only [LeafBox.boxId]
    rw [if_neg (show ¬(cdefId = jPsigId) by decide), if_neg (show ¬(cdefId = ftypId) by decide),
      if_neg (show ¬(cdefId = ihdrId) by decide), if_neg (show ¬(cdefId = colrId) by decide),
      if_neg (show ¬(cdefId = pclrId) by decide), if_true,
      parseCdef_roundtrip cb hv]
    rfl
  | jp2c d =>
    unfold parseLeafPayload
    simp only [LeafBox.boxId]
    rw [if_neg (show ¬(jp2cId = jPsigId) by decide), if_neg (show ¬(jp2cId = ftypId) by decide),
      if_neg (show ¬(jp2cId = ihdrId) by decide), if_neg (show ¬(jp2cId = colrId) by decide),
      if_neg (show ¬(jp2cId = pclrId) by decide), if_neg (show ¬(jp2cId = cdefId) by decide),
      if_true]
    rfl
  | unknownBox i p =>
    obtain ⟨hi32, hni⟩ := hv
    have h1 : ¬(i = jPsigId) := fun h => hni (by simp [knownBoxIds, h])
    have h2 : ¬(i = ftypId) := fun h => hni (by simp [knownBoxIds, h])
    have h3 : ¬(i = ihdrId) := fun h => hni (by simp [knownBoxIds, h])
    have h4 : ¬(i = colrId) := fun h => hni (by simp [knownBoxIds, h])
    have h5 : ¬(i = pclrId) := fun h => hni (by simp [knownBoxIds, h])
    have h6 : ¬(i = cdefId) := fun h => hni (by simp [knownBoxIds, h])
    have h7 : ¬(i = jp2cId) := fun h => hni (by simp [knownBoxIds, h])
    unfold parseLeafPayload
    simp only [LeafBox.boxId]
    rw [if_neg h1, if_neg h2, if_neg h3, if_neg h4, if_neg h5, if_neg h6, if_neg h7]
    rfl

theorem toBytesBE_append_ne_nil (w n : Nat) (X : List Byte) (hw : 0 < w) :
    toBytesBE w n ++ X ≠ [] := by
  intro h
  have := congrArg List.length h
  simp only [List.length_append, length_toBytesBE, List.length_nil] at this
  omega

theorem leafBoxId_lt (b : LeafBox) (hv : leafValid b) : b.boxId < 2 ^ 32 := by
  cases b with
  | unknownBox i p => exact hv.1
  | signature => exact (show jPsigId < 2 ^ 32 by decide)
  | ftyp fb => exact (show ftypId < 2 ^ 32 by decide)
  | ihdr ib => exact (show ihdrId < 2 ^ 32 by decide)
  | colr cb => exact (show colrId < 2 ^ 32 by decide)
  | pclr pb => exact (show pclrId < 2 ^ 32 by decide)
  | cdef cb => exact (show cdefId < 2 ^ 32 by decide)
  | jp2c d => exact (show jp2cId < 2 ^ 32 by decide)

theorem leafBoxId_ne_jp2h (b : LeafBox) (hv : leafValid b) : ¬(b.boxId = jp2hId) := by
  cases b with
  | unknownBox i p =>
    intro h
    have h2 : i = jp2hId := h
    exact hv.2 (by rw [h2]; simp [knownBoxIds])
  | signature => exact (show ¬(jPsigId = jp2hId) by decide)
  | ftyp fb => exact (show ¬(ftypId = jp2hId) by decide)
  | ihdr ib => exact (show ¬(ihdrId = jp2hId) by decide)
  | colr cb => exact (show ¬(colrId = jp2hId) by decide)
  | pclr pb => exact (show ¬(pclrId = jp2hId) by decide)
  | cdef cb => exact (show ¬(cdefId = jp2hId) by decide)
  | jp2c d => exact (show ¬(jp2cId = jp2hId) by decide)

theorem parseLeafBoxes_step (f pos : Nat) (bs : List Byte) (hne : bs ≠ []) :
    parseLeafBoxes (f + 1) pos bs =
      match readBoxHeader bs with
      | some (len, _, id, payload, rest) =>
        (match parseLeafPayload id payload with
         | some (lb, ws) =>
           (match parseLeafBoxes f (pos + len) rest with
            | some (lbs, ws2) => some (lb :: lbs, ws ++ ws2)
            | none => none)
         | none => none)
      | none => none := by
  cases bs with
  | nil => exact absurd rfl hne
  | cons x xs => rfl

theorem parseBoxes_step (f pos : Nat) (bs : List Byte) (hne : bs ≠ []) :
    parseBoxes (f + 1) pos bs =
      match readBoxHeader bs with
      | some (len, hsz, id, payload, rest) =>
        (match (if id = jp2hId then
                  (parseLeafBoxes f (pos + hsz) payload).map (fun p => (Box.jp2h p.1, p.2))
                else
                  (parseLeafPayload id payload).map (fun p => (Box.leaf p.1, p.2))) with
         | some (bx, ws) =>
           (match parseBoxes f (pos + len) rest with
            | some (pbs, ws2) =>
              some ({ offset := pos, length := len, extended := hsz = 16,
                      payloadOffset := pos + hsz, box := bx } :: pbs, ws ++ ws2)
            | none => none)
         | none => none)
      | none => none := by
  cases bs with
  | nil => exact absurd rfl hne
  | cons x xs => rfl

theorem parseLeafBoxes_roundtrip (ch : List LeafBox) :
    ∀ fuel pos, ch.length ≤ fuel →
    (∀ b ∈ ch, leafValid b ∧ 16 + b.payloadBytes.length < 2 ^ 64) →
    parseLeafBoxes fuel pos (serializeLeafBoxes ch) = some (ch, leafListWarnings ch) := by
  induction ch with
  | nil =>
    intro fuel pos _ _
    cases fuel with
    | zero => rfl
    | succ f => rfl
  | cons b ct ih =>
    intro fuel pos hf hv
    cases fuel with
    | zero => simp at hf
    | succ f =>
      obtain ⟨hbv, hbs⟩ := hv b (by simp)
      have hid : b.boxId < 2 ^ 32 := leafBoxId_lt b hbv
      have htail : ∀ x ∈ ct, leafValid x ∧ 16 + x.payloadBytes.length < 2 ^ 64 :=
        fun x hx => hv x (by simp [hx])
      show parseLeafBoxes (f + 1) pos
          (mkBoxBytes b.boxId b.payloadBytes ++ serializeLeafBoxes ct) =
        some (b :: ct, leafParseWarnings b ++ leafListWarnings ct)
      by_cases hstd : 8 + b.payloadBytes.length < 2 ^ 32
      · have hmk : mkBoxBytes b.boxId b.payloadBytes ++ serializeLeafBoxes ct =
            toBytesBE 4 (8 + b.payloadBytes.length) ++ (toBytesBE 4 b.boxId ++
              (b.payloadBytes ++ serializeLeafBoxes ct)) := by
          unfold mkBoxBytes
          rw [if_pos hstd]
          simp [List.append_assoc]
        rw [hmk, parseLeafBoxes_step f pos _ (toBytesBE_append_ne_nil 4 _ _ (by omega)),
          readBoxHeader_std b.boxId b.payloadBytes (serializeLeafBoxes ct) hid hstd]
        simp only [parseLeafPayload_roundtrip b hbv,
          ih f (pos + (8 + b.payloadBytes.length)) (by simpa using hf) htail]
      · have hmk : mkBoxBytes b.boxId b.payloadBytes ++ serializeLeafBoxes ct =
            toBytesBE 4 1 ++ (toBytesBE 4 b.boxId ++
              (toBytesBE 8 (16 + b.payloadBytes.length) ++
                (b.payloadBytes ++ serializeLeafBoxes ct))) := by
          unfold mkBoxBytes
          rw [if_neg hstd]
          simp [List.append_assoc]
        rw [hmk, parseLeafBoxes_step f pos _ (toBytesBE_append_ne_nil 4 _ _ (by omega)),
          readBoxHeader_ext b.boxId b.payloadBytes (serializeLeafBoxes ct) hid hbs]
        simp only [parseLeafPayload_roundtrip b hbv,
          ih f (pos + (16 + b.payloadBytes.length)) (by simpa using hf) htail]

theorem parseBoxes_roundtrip (l : List Box) :
    ∀ fuel pos, boxesWeight l ≤ fuel → boxesValid l →
    parseBoxes fuel pos (serializeBoxes l) = some (expectedParsed pos l, boxesWarnings l) := by
  induction l with
  | nil =>
    intro fuel pos _ _
    cases fuel with
    | zero => rfl
    | succ f => rfl
  | cons b t ih =>
    intro fuel pos hf hv
    have hw1 : 1 ≤ boxWeight b := by cases b <;> simp [boxWeight]
    have htv : boxesValid t := fun x hx => hv x (by simp [hx])
    cases fuel with
    | zero =>
      exfalso
      simp only [boxesWeight] at hf
      omega
    | succ f =>
      have htf : boxesWeight t ≤ f := by
        simp only [boxesWeight] at hf
        omega
      cases b with
      | leaf lb =>
        have hbv := hv (Box.leaf lb) (by simp)
        obtain ⟨hlv, hls⟩ := hbv
        have hid := leafBoxId_lt lb hlv
        have hne := leafBoxId_ne_jp2h lb hlv
        show parseBoxes (f + 1) pos (mkBoxBytes lb.boxId lb.payloadBytes ++ serializeBoxes t) =
          some (expectedParsed pos (Box.leaf lb :: t), boxesWarnings (Box.leaf lb :: t))
        by_cases hstd : 8 + lb.payloadBytes.length < 2 ^ 32
        · have hh : boxHdrSize (Box.leaf lb) = 8 := by
            unfold boxHdrSize
            simp only [Box.payloadBytes]
            rw [if_pos hstd]
          have htot : boxTotalSize (Box.leaf lb) = 8 + lb.payloadBytes.length := by
            unfold boxTotalSize
            rw [hh]
            rfl
          have hmk : mkBoxBytes lb.boxId lb.payloadBytes ++ serializeBoxes t =
              toBytesBE 4 (8 + lb.payloadBytes.length) ++ (toBytesBE 4 lb.boxId ++
                (lb.payloadBytes ++ serializeBoxes t)) := by
            unfold mkBoxBytes
            rw [if_pos hstd]
            simp [List.append_assoc]
          rw [hmk, parseBoxes_step f pos _ (toBytesBE_append_ne_nil 4 _ _ (by omega)),
            readBoxHeader_std lb.boxId lb.payloadBytes (serializeBoxes t) hid hstd]
          simp only [if_neg hne, parseLeafPayload_roundtrip lb hlv, Option.map_some']
          simp only [ih f (pos + (8 + lb.payloadBytes.length)) htf htv]
          simp only [expectedParsed, boxesWarnings, boxParseWarnings, hh, htot,
            Box.payloadBytes]
        · have hh : boxHdrSize (Box.leaf lb) = 16 := by
            unfold boxHdrSize
            simp only [Box.payloadBytes]
            rw [if_neg hstd]
          have htot : boxTotalSize (Box.leaf lb) = 16 + lb.payloadBytes.length := by
            unfold boxTotalSize
            rw [hh]
            rfl
          have hmk : mkBoxBytes lb.boxId lb.payloadBytes ++ serializeBoxes t =
              toBytesBE 4 1 ++ (toBytesBE 4 lb.boxId ++
                (toBytesBE 8 (16 + lb.payloadBytes.length) ++
                  (lb.payloadBytes ++ serializeBoxes t))) := by
            unfold mkBoxBytes
            rw [if_neg hstd]
            simp [List.append_assoc]
          rw [hmk, parseBoxes_step f pos _ (toBytesBE_append_ne_nil 4 _ _ (by omega)),
            readBoxHeader_ext lb.boxId lb.payloadBytes (serializeBoxes t) hid hls]
          simp only [if_neg hne, parseLeafPayload_roundtrip lb hlv, Option.map_some']
          simp only [ih f (pos + (16 + lb.payloadBytes.length)) htf htv]
          simp only [expectedParsed, boxesWarnings, boxParseWarnings, hh, htot,
            Box.payloadBytes]
      | jp2h ch =>
        have hbv := hv (Box.jp2h ch) (by simp)
        obtain ⟨hchv, hsz64⟩ := hbv
        have hchf : ch.length ≤ f := by
          simp only [boxesWeight, boxWeight] at hf
          omega
        show parseBoxes (f + 1) pos
            (mkBoxBytes jp2hId (serializeLeafBoxes ch) ++ serializeBoxes t) =
          some (expectedParsed pos (Box.jp2h ch :: t), boxesWarnings (Box.jp2h ch :: t))
        have hjid : jp2hId < 2 ^ 32 := by decide
        by_cases hstd : 8 + (serializeLeafBoxes ch).length < 2 ^ 32
        · have hh : boxHdrSize (Box.jp2h ch) = 8 := by
            unfold boxHdrSize
            simp only [Box.payloadBytes]
            rw [if_pos hstd]
          have htot : boxTotalSize (Box.jp2h ch) = 8 + (serializeLeafBoxes ch).length := by
            unfold boxTotalSize
            rw [hh]
            rfl
          have hmk : mkBoxBytes jp2hId (serializeLeafBoxes ch) ++ serializeBoxes t =
              toBytesBE 4 (8 + (serializeLeafBoxes ch).length) ++ (toBytesBE 4 jp2hId ++
                (serializeLeafBoxes ch ++ serializeBoxes t)) := by
            unfold mkBoxBytes
            rw [if_pos hstd]
            simp [List.append_assoc]
          rw [hmk, parseBoxes_step f pos _ (toBytesBE_append_ne_nil 4 _ _ (by omega)),
            readBoxHeader_std jp2hId (serializeLeafBoxes ch) (serializeBoxes t) hjid hstd]
          simp only [if_pos (show jp2hId = jp2hId from rfl), if_true,
            parseLeafBoxes_roundtrip ch f (pos + 8) hchf hchv, Option.map_some']
          simp only [ih f (pos + (8 + (serializeLeafBoxes ch).length)) htf htv]
          simp only [expectedParsed, boxesWarnings, boxParseWarnings, hh, htot,
            Box.payloadBytes]
        · have hh : boxHdrSize (Box.jp2h ch) = 16 := by
            unfold boxHdrSize
            simp only [Box.payloadBytes]
            rw [if_neg hstd]
          have htot : boxTotalSize (Box.jp2h ch) = 16 + (serializeLeafBoxes ch).length := by
            unfold boxTotalSize
            rw [hh]
            rfl
          have hmk : mkBoxBytes jp2hId (serializeLeafBoxes ch) ++ serializeBoxes t =
              toBytesBE 4 1 ++ (toBytesBE 4 jp2hId ++
                (toBytesBE 8 (16 + (serializeLeafBoxes ch).length) ++
                  (serializeLeafBoxes ch ++ serializeBoxes t))) := by
            unfold mkBoxBytes
            rw [if_neg hstd]
            simp [List.append_assoc]
          rw [hmk, parseBoxes_step f pos _ (toBytesBE_append_ne_nil 4 _ _ (by omega)),
            readBoxHeader_ext jp2hId (serializeLeafBoxes ch) (serializeBoxes t) hjid hsz64]
          simp only [if_pos (show jp2hId = jp2hId from rfl), if_true,
            parseLeafBoxes_roundtrip ch f (pos + 16) hchf hchv, Option.map_some']
          simp only [ih f (pos + (16 + (serializeLeafBoxes ch).length)) htf htv]
          simp only [expectedParsed, boxesWarnings, boxParseWarnings, hh, htot,
            Box.payloadBytes]

theorem length_mkBoxBytes_ge (id : Nat) (payload : List Byte) :
    8 + payload.length ≤ (mkBoxBytes id payload).length := by
  unfold mkBoxBytes
  split
  · simp [length_toBytesBE]
    omega
  · simp [length_toBytesBE]
    omega

theorem length_serializeLeafBoxes_ge (ch : List LeafBox) :
    ch.length ≤ (serializeLeafBoxes ch).length := by
  induction ch with
  | nil => simp [serializeLeafBoxes]
  | cons b t ih =>
    simp only [serializeLeafBoxes, List.length_append, List.length_cons]
    have := length_mkBoxBytes_ge b.boxId b.payloadBytes
    show t.length + 1 ≤ (serializeLeaf b).length + (serializeLeafBoxes t).length
    unfold serializeLeaf
    omega

theorem boxesWeight_le_length (l : List Box) :
    boxesWeight l ≤ (serializeBoxes l).length := by
  induction l with
  | nil => simp [boxesWeight, serializeBoxes]
  | cons b t ih =>
    simp only [boxesWeight, serializeBoxes, List.length_append]
    have hb : boxWeight b ≤ (serializeBox b).length := by
      cases b with
      | leaf lb =>
        have := length_mkBoxBytes_ge lb.boxId lb.payloadBytes
        show 1 ≤ (mkBoxBytes lb.boxId lb.payloadBytes).length
        omega
      | jp2h ch =>
        have h1 := length_mkBoxBytes_ge jp2hId (serializeLeafBoxes ch)
        have h2 := length_serializeLeafBoxes_ge ch
        show 1 + ch.length ≤ (mkBoxBytes jp2hId (serializeLeafBoxes ch)).length
        omega
    omega

theorem parseFile_roundtrip (l : List Box) (hv : boxesValid l) :
    parseFile (serializeBoxes l) = some (expectedParsed 0 l, boxesWarnings l) :=
  parseBoxes_roundtrip l (serializeBoxes l).length 0 (boxesWeight_le_length l) hv

theorem expectedParsed_map_box (l : List Box) : ∀ pos,
    (expectedParsed pos l).map ParsedBox.box = l := by
  induction l with
  | nil => intro pos; rfl
  | cons b t ih =>
    intro pos
    simp only [expectedParsed, List.map_cons, ih]

theorem ihdrFirst_iff (ch : List LeafBox) :
    ((match ch with
      | (LeafBox.ihdr _) :: _ => true
      | _ => false) = true) ↔ ∃ ih rest, ch = LeafBox.ihdr ih :: rest := by
  cases ch with
  | nil => simp
  | cons h t => cases h <;> simp

theorem jp2hChildrenOk_iff (ch : List LeafBox) :
    jp2hChildrenOk ch = true ↔
      ((∃ ih rest, ch = LeafBox.ihdr ih :: rest) ∧
       ch.countP isColrLeaf = 1 ∧ ch.countP isCdefLeaf ≤ 1) := by
  unfold jp2hChildrenOk
  rw [Bool.and_assoc]
  simp only [Bool.and_eq_true, decide_eq_true_eq]
  rw [ihdrFirst_iff]

/-- C8: writing a box list succeeds only if every JP2 Header superbox
in it has a non-empty child list starting with Image Header, exactly
one Colour Specification child and at most one Channel Definition
child; any violation aborts the write with no output committed. -/
theorem jp2h_write_validation :
    (∀ (l : List Box) (out : List Byte) (ch : List LeafBox),
       Box.jp2h ch ∈ l → writeBoxes l = some out →
       (∃ ih rest, ch = LeafBox.ihdr ih :: rest) ∧
       ch.countP isColrLeaf = 1 ∧ ch.countP isCdefLeaf ≤ 1) ∧
    (∀ (l : List Box) (ch : List LeafBox),
       Box.jp2h ch ∈ l →
       ¬((∃ ih rest, ch = LeafBox.ihdr ih :: rest) ∧
         ch.countP isColrLeaf = 1 ∧ ch.countP isCdefLeaf ≤ 1) →
       writeBoxes l = none) := by
  constructor
  · intro l out ch hmem hw
    unfold writeBoxes at hw
    split at hw
    · rename_i hval
      unfold validateBoxes at hval
      simp only [Bool.and_eq_true] at hval
      have hall := hval.1.2
      have hbox := List.all_eq_true.mp hall _ hmem
      have hok : jp2hChildrenOk ch = true := by
        simp only [boxWriteOk, Bool.and_eq_true] at hbox
        exact hbox.1
      exact (jp2hChildrenOk_iff ch).mp hok
    · exact absurd hw (by simp)
  · intro l ch hmem hbad
    have hok : jp2hChildrenOk ch = false := by
      cases h : jp2hChildrenOk ch
      · rfl
      · exact absurd ((jp2hChildrenOk_iff ch).mp h) hbad
    have hbox : boxWriteOk (Box.jp2h ch) = false := by
      simp [boxWriteOk, hok]
    have hall : l.all boxWriteOk = false := by
      cases h : l.all boxWriteOk
      · rfl
      · exfalso
        have hx := List.all_eq_true.mp h _ hmem
        rw [hbox] at hx
        exact Bool.false_ne_true hx
    unfold writeBoxes
    rw [if_neg]
    unfold validateBoxes
    simp [hall]

theorem jp2h_write_validation_witness :
    ([LeafBox.ihdr sampleIhdr, LeafBox.colr sampleColr].countP isColrLeaf = 1 ∧
     [LeafBox.ihdr sampleIhdr, LeafBox.colr sampleColr].countP isCdefLeaf ≤ 1) ∧
    writeBoxes sampleGoodBoxes = some (serializeBoxes sampleGoodBoxes) ∧
    writeBoxes sampleBadBoxes = none := by
  have h1 := jp2h_write_validation.1 sampleGoodBoxes (serializeBoxes sampleGoodBoxes)
    [LeafBox.ihdr sampleIhdr, LeafBox.colr sampleColr] (by decide) (by rfl)
  have h2 := jp2h_write_validation.2 sampleBadBoxes
    [LeafBox.colr sampleColr, LeafBox.ihdr sampleIhdr] (by decide)
    (by
      rintro ⟨⟨ih, rest, h⟩, -, -⟩
      simp [sampleColr] at h)
  exact ⟨⟨h1.2.1, h1.2.2⟩, by rfl, h2⟩

/-- C9: counterexample to the claimed "if and only if" on the wrap
path: a File Type box whose brand is jp2 and whose compatibility list
is [jpx] satisfies the claimed condition (brand in the allowed pair,
every entry in the allowed triple), yet wrapping a box list containing
it aborts with no output; the identical list whose compatibility entry
is jp2 instead wraps successfully, so the claimed condition is not
sufficient on the wrap path. -/
theorem ftyp_write_iff_as_stated_false :
    ftypWriteOk jpxOnlyFtyp = true ∧
    writeBoxes jpxOnlyBoxes = none ∧
    (writeBoxes sampleGoodBoxes).isSome = true := by
  refine ⟨by decide, ?_, by decide⟩
  decide

theorem ftyp_amended_part1 (b : FileTypeBox) :
    (writeFtypBox b).isSome = ftypWriteOk b := by
  unfold writeFtypBox
  cases h : ftypWriteOk b <;> simp [h]

/-- C9 (amended): writing a File Type box directly succeeds exactly
when the brand is jp2 or jpx and every compatibility entry is in the
allowed set; on the wrap path the write additionally requires jp2
among the compatibility entries, and any violation of either condition
aborts the write with no output committed. -/
theorem ftyp_write_validation :
    (∀ b : FileTypeBox, (writeFtypBox b).isSome = ftypWriteOk b) ∧
    (∀ (l : List Box) (out : List Byte) (d : FileTypeBox),
       Box.leaf (LeafBox.ftyp d) ∈ l → writeBoxes l = some out →
       ftypWriteOk d = true ∧ jp2Brand ∈ d.compatibilityList) ∧
    (∀ (l : List Box) (d : FileTypeBox),
       Box.leaf (LeafBox.ftyp d) ∈ l →
       ¬(ftypWriteOk d = true ∧ jp2Brand ∈ d.compatibilityList) →
       writeBoxes l = none) := by
  refine ⟨ftyp_amended_part1, ?_, ?_⟩
  · intro l out d hmem hw
    unfold writeBoxes at hw
    split at hw
    · rename_i hval
      unfold validateBoxes at hval
      simp only [Bool.and_eq_true] at hval
      have hall := hval.1.2
      have hbox := List.all_eq_true.mp hall _ hmem
      simp only [boxWriteOk, Bool.and_eq_true, decide_eq_true_eq] at hbox
      exact hbox
    · exact absurd hw (by simp)
  · intro l d hmem hbad
    have hbox : boxWriteOk (Box.leaf (LeafBox.ftyp d)) = false := by
      cases h : boxWriteOk (Box.leaf (LeafBox.ftyp d))
      · rfl
      · exfalso
        apply hbad
        simpa only [boxWriteOk, Bool.and_eq_true, decide_eq_true_eq] using h
    have hall : l.all boxWriteOk = false := by
      cases h : l.all boxWriteOk
      · rfl
      · exfalso
        have hx := List.all_eq_true.mp h _ hmem
        rw [hbox] at hx
        exact Bool.false_ne_true hx
    unfold writeBoxes
    rw [if_neg]
    unfold validateBoxes
    simp [hall]

theorem ftyp_write_validation_witness :
    ((writeFtypBox jpxOnlyFtyp).isSome = ftypWriteOk jpxOnlyFtyp) ∧
    (ftypWriteOk { brand := jp2Brand, minorVersion := 0, compatibilityList := [jp2Brand] } = true ∧
     jp2Brand ∈ [jp2Brand]) ∧
    writeBoxes jpxOnlyBoxes = none := by
  refine ⟨ftyp_write_validation.1 jpxOnlyFtyp, ?_, ?_⟩
  · exact ftyp_write_validation.2.1 sampleGoodBoxes (serializeBoxes sampleGoodBoxes)
      { brand := jp2Brand, minorVersion := 0, compatibilityList := [jp2Brand] }
      (by decide) (by rfl)
  · exact ftyp_write_validation.2.2 jpxOnlyBoxes jpxOnlyFtyp (by decide)
      (by
        rintro ⟨-, hc⟩
        revert hc
        decide)

/-- C7: the length-field semantics of the box walk.  A box whose
4-byte length field is 1 carries an 8-byte big-endian extended length
right after the id, used as its true length (the record is marked
extended, with the payload starting 16 bytes in); a box whose length
field is 0 extends to the end of the enclosing range, its true length
being the 8-byte header plus everything that remains; and serializing
any box emits a header whose decoded length is recomputed as header
size plus the actual payload length. -/
theorem box_length_field_semantics :
    (∀ (id : Nat) (payload : List Byte) (f pos : Nat) (lb : LeafBox) (ws : List Warning),
       id < 2 ^ 32 → 16 + payload.length < 2 ^ 64 → ¬ id = jp2hId →
       parseLeafPayload id payload = some (lb, ws) →
       parseBoxes (f + 1) pos
           (toBytesBE 4 1 ++ (toBytesBE 4 id ++
             (toBytesBE 8 (16 + payload.length) ++ (payload ++ [])))) =
         some ([{ offset := pos, length := 16 + payload.length, extended := true,
                  payloadOffset := pos + 16, box := Box.leaf lb }], ws)) ∧
    (∀ (id : Nat) (payload : List Byte) (f pos : Nat) (lb : LeafBox) (ws : List Warning),
       id < 2 ^ 32 → ¬ id = jp2hId →
       parseLeafPayload id payload = some (lb, ws) →
       parseBoxes (f + 1) pos (toBytesBE 4 0 ++ (toBytesBE 4 id ++ payload)) =
         some ([{ offset := pos, length := 8 + payload.length, extended := false,
                  payloadOffset := pos + 8, box := Box.leaf lb }], ws)) ∧
    (∀ (b : Box) (rest : List Byte),
       b.boxId < 2 ^ 32 → 16 + b.payloadBytes.length < 2 ^ 64 →
       readBoxHeader (serializeBox b ++ rest) =
         some (boxHdrSize b + b.payloadBytes.length, boxHdrSize b, b.boxId,
               b.payloadBytes, rest)) := by
  refine ⟨?_, ?_, ?_⟩
  · intro id payload f pos lb ws hid hlen hne hpl
    rw [parseBoxes_step f pos _ (toBytesBE_append_ne_nil 4 _ _ (by omega)),
      readBoxHeader_ext id payload [] hid hlen]
    have htail : parseBoxes f (pos + (16 + payload.length)) [] = some ([], []) := by
      cases f <;> rfl
    simp only [if_neg hne, hpl, Option.map_some', htail]
    simp
  · intro id payload f pos lb ws hid hne hpl
    rw [parseBoxes_step f pos _ (toBytesBE_append_ne_nil 4 _ _ (by omega)),
      readBoxHeader_zero id payload hid]
    have htail : parseBoxes f (pos + (8 + payload.length)) [] = some ([], []) := by
      cases f <;> rfl
    simp only [if_neg hne, hpl, Option.map_some', htail]
    simp
  · intro b rest hid hb
    show readBoxHeader (mkBoxBytes b.boxId b.payloadBytes ++ rest) = _
    by_cases hstd : 8 + b.payloadBytes.length < 2 ^ 32
    · have h8 : boxHdrSize b = 8 := by unfold boxHdrSize; rw [if_pos hstd]
      unfold mkBoxBytes
      rw [if_pos hstd]
      simp only [List.append_assoc]
      rw [readBoxHeader_std b.boxId b.payloadBytes rest hid hstd, h8]
    · have h16 : boxHdrSize b = 16 := by unfold boxHdrSize; rw [if_neg hstd]
      unfold mkBoxBytes
      rw [if_neg hstd]
      simp only [List.append_assoc]
      rw [readBoxHeader_ext b.boxId b.payloadBytes rest hid hb, h16]

theorem box_length_field_semantics_witness :
    (jp2cId < 2 ^ 32 ∧ ¬ jp2cId = jp2hId ∧
     parseLeafPayload jp2cId [0xFF, 0x4F] = some (LeafBox.jp2c [0xFF, 0x4F], [])) ∧
    parseBoxes 2 0 (toBytesBE 4 1 ++ (toBytesBE 4 jp2cId ++
        (toBytesBE 8 (16 + (2 : Nat)) ++ ([0xFF, 0x4F] ++ [])))) =
      some ([{ offset := 0, length := 18, extended := true,
               payloadOffset := 16, box := Box.leaf (LeafBox.jp2c [0xFF, 0x4F]) }], []) ∧
    parseBoxes 2 0 (toBytesBE 4 0 ++ (toBytesBE 4 jp2cId ++ [0xFF, 0x4F])) =
      some ([{ offset := 0, length := 10, extended := false,
               payloadOffset := 8, box := Box.leaf (LeafBox.jp2c [0xFF, 0x4F]) }], []) ∧
    readBoxHeader (serializeBox (Box.leaf (LeafBox.jp2c [0xFF, 0x4F])) ++ []) =
      some (10, 8, jp2cId, [0xFF, 0x4F], []) := by
  refine ⟨⟨by decide, by decide, by decide⟩, ?_, ?_, ?_⟩
  · exact box_length_field_semantics.1 jp2cId [0xFF, 0x4F] 1 0
      (LeafBox.jp2c [0xFF, 0x4F]) [] (by decide) (by decide) (by decide) (by decide)
  · exact box_length_field_semantics.2.1 jp2cId [0xFF, 0x4F] 1 0
      (LeafBox.jp2c [0xFF, 0x4F]) [] (by decide) (by decide) (by decide)
  · exact box_length_field_semantics.2.2 (Box.leaf (LeafBox.jp2c [0xFF, 0x4F])) []
      (by decide) (by decide)

theorem readBoxHeader_hsz (bs : List Byte) (len hsz id : Nat) (payload rest : List Byte)
    (h : readBoxHeader bs = some (len, hsz, id, payload, rest)) : hsz = 8 ∨ hsz = 16 := by
  unfold readBoxHeader at h
  iterate 8 (all_goals try split at h)
  all_goals (try simp only [Option.some.injEq, Prod.mk.injEq, reduceCtorEq] at h)
  all_goals omega

/-- C10: every Contiguous Codestream box parsed with a standard
(non-extended) length field has its main header begin exactly 8 bytes
after the box's offset. -/
theorem jp2c_standard_main_header_offset :
    ∀ (fuel pos : Nat) (bs : List Byte) (res : List ParsedBox) (ws : List Warning),
      parseBoxes fuel pos bs = some (res, ws) →
      ∀ pb ∈ res, (∃ d, pb.box = Box.leaf (LeafBox.jp2c d)) → pb.extended = false →
        pb.mainHeaderOffset = pb.offset + 8 := by
  intro fuel
  induction fuel with
  | zero =>
    intro pos bs res ws h
    cases bs with
    | nil =>
      injection h with h'
      injection h' with h1 h2
      subst h1
      intro pb hpb
      simp at hpb
    | cons x xs => cases h
  | succ f ih =>
    intro pos bs res ws h
    cases bs with
    | nil =>
      injection h with h'
      injection h' with h1 h2
      subst h1
      intro pb hpb
      simp at hpb
    | cons x xs =>
      rw [parseBoxes_step f pos _ (by simp)] at h
      split at h
      · rename_i len hsz id payload rest heq
        split at h
        · rename_i bx wsx heq2
          split at h
          · rename_i pbs ws2 heq3
            injection h with h'
            injection h' with h1 h2
            subst h1
            intro pb hpb hjcd hext
            rcases List.mem_cons.mp hpb with rfl | hmem
            · have hne : ¬ hsz = 16 := of_decide_eq_false hext
              have h8 : hsz = 8 := by
                rcases readBoxHeader_hsz (x :: xs) len hsz id payload rest heq with h | h
                · exact h
                · exact absurd h hne
              show pos + hsz = pos + 8
              rw [h8]
            · exact ih (pos + len) rest pbs ws2 heq3 pb hmem hjcd hext
          · cases h
        · cases h
      · cases h

theorem jp2c_standard_main_header_offset_witness :
    (parseBoxes 1 0 (toBytesBE 4 10 ++ (toBytesBE 4 jp2cId ++ [0xFF, 0x4F])) =
       some ([{ offset := 0, length := 10, extended := false, payloadOffset := 8,
                box := Box.leaf (LeafBox.jp2c [0xFF, 0x4F]) }], [])) ∧
    ({ offset := 0, length := 10, extended := false, payloadOffset := 8,
       box := Box.leaf (LeafBox.jp2c [0xFF, 0x4F]) } : ParsedBox).mainHeaderOffset = 0 + 8 := by
  have hp : parseBoxes 1 0 (toBytesBE 4 10 ++ (toBytesBE 4 jp2cId ++ [0xFF, 0x4F])) =
      some ([{ offset := 0, length := 10, extended := false, payloadOffset := 8,
               box := Box.leaf (LeafBox.jp2c [0xFF, 0x4F]) }], []) := by decide
  refine ⟨hp, ?_⟩
  exact jp2c_standard_main_header_offset 1 0 _ _ _ hp _ (List.mem_cons_self _ _)
    ⟨[0xFF, 0x4F], rfl⟩ (by decide)

theorem parseLeafBoxes_encodeWith :
    ∀ (l : List (HdrForm × LeafBox)) (fuel pos : Nat),
      l.length ≤ fuel → leafFormsOk l →
      parseLeafBoxes fuel pos (encodeLeavesWith l) =
        some (l.map Prod.snd, leafListWarnings (l.map Prod.snd)) := by
  intro l
  induction l with
  | nil =>
    intro fuel pos _ _
    cases fuel with
    | zero => rfl
    | succ fl => rfl
  | cons hb t ih =>
    obtain ⟨f, b⟩ := hb
    intro fuel pos hf hvl
    obtain ⟨⟨hbv, hb64, hstd, hzero⟩, htv⟩ := hvl
    have hid : b.boxId < 2 ^ 32 := leafBoxId_lt b hbv
    cases fuel with
    | zero => simp at hf
    | succ fl =>
      have htf : t.length ≤ fl := by
        simp only [List.length_cons] at hf
        omega
      cases f with
      | std =>
        have h32 := hstd rfl
        show parseLeafBoxes (fl + 1) pos
            ((toBytesBE 4 (8 + b.payloadBytes.length) ++
              (toBytesBE 4 b.boxId ++ b.payloadBytes)) ++ encodeLeavesWith t) =
          some (b :: t.map Prod.snd, leafParseWarnings b ++ leafListWarnings (t.map Prod.snd))
        rw [show (toBytesBE 4 (8 + b.payloadBytes.length) ++
              (toBytesBE 4 b.boxId ++ b.payloadBytes)) ++ encodeLeavesWith t =
            toBytesBE 4 (8 + b.payloadBytes.length) ++ (toBytesBE 4 b.boxId ++
              (b.payloadBytes ++ encodeLeavesWith t)) by simp [List.append_assoc]]
        rw [parseLeafBoxes_step fl pos _ (toBytesBE_append_ne_nil 4 _ _ (by omega)),
          readBoxHeader_std b.boxId b.payloadBytes (encodeLeavesWith t) hid h32]
        simp only [parseLeafPayload_roundtrip b hbv,
          ih fl (pos + (8 + b.payloadBytes.length)) htf htv]
      | ext =>
        show parseLeafBoxes (fl + 1) pos
            ((toBytesBE 4 1 ++ (toBytesBE 4 b.boxId ++
              (toBytesBE 8 (16 + b.payloadBytes.length) ++ b.payloadBytes))) ++
              encodeLeavesWith t) =
          some (b :: t.map Prod.snd, leafParseWarnings b ++ leafListWarnings (t.map Prod.snd))
        rw [show (toBytesBE 4 1 ++ (toBytesBE 4 b.boxId ++
              (toBytesBE 8 (16 + b.payloadBytes.length) ++ b.payloadBytes))) ++
              encodeLeavesWith t =
            toBytesBE 4 1 ++ (toBytesBE 4 b.boxId ++
              (toBytesBE 8 (16 + b.payloadBytes.length) ++
                (b.payloadBytes ++ encodeLeavesWith t))) by simp [List.append_assoc]]
        rw [parseLeafBoxes_step fl pos _ (toBytesBE_append_ne_nil 4 _ _ (by omega)),
          readBoxHeader_ext b.boxId b.payloadBytes (encodeLeavesWith t) hid hb64]
        simp only [parseLeafPayload_roundtrip b hbv,
          ih fl (pos + (16 + b.payloadBytes.length)) htf htv]
      | zero =>
        have ht : t = [] := hzero rfl
        subst ht
        show parseLeafBoxes (fl + 1) pos
            ((toBytesBE 4 0 ++ (toBytesBE 4 b.boxId ++ b.payloadBytes)) ++ []) =
          some ([b], leafParseWarnings b ++ [])
        rw [List.append_nil,
          parseLeafBoxes_step fl pos _ (toBytesBE_append_ne_nil 4 _ _ (by omega)),
          readBoxHeader_zero b.boxId b.payloadBytes hid]
        have htail : parseLeafBoxes fl (pos + (8 + b.payloadBytes.length)) [] =
            some ([], []) := by
          cases fl <;> rfl
        simp only [parseLeafPayload_roundtrip b hbv, htail]

theorem length_encodeLeavesWith_ge (l : List (HdrForm × LeafBox)) :
    l.length ≤ (encodeLeavesWith l).length := by
  induction l with
  | nil => simp [encodeLeavesWith]
  | cons hb t ih =>
    obtain ⟨f, b⟩ := hb
    show t.length + 1 ≤ (encodeLeafWith f b ++ encodeLeavesWith t).length
    have h1 : 1 ≤ (encodeLeafWith f b).length := by
      cases f <;> (simp [encodeLeafWith, length_toBytesBE]; omega)
    simp only [List.length_append]
    omega

theorem boxesWithWeight_le_length (l : List BoxWith) :
    boxesWithWeight l ≤ (encodeBoxesWith l).length := by
  induction l with
  | nil => simp [boxesWithWeight, encodeBoxesWith]
  | cons bw t ih =>
    simp only [boxesWithWeight, encodeBoxesWith, List.length_append]
    have hb : boxWithWeight bw ≤ (encodeBoxWith bw).length := by
      cases bw with
      | leaf f b =>
        show 1 ≤ (encodeBoxWith (BoxWith.leaf f b)).length
        cases f <;>
          (simp [encodeBoxWith, BoxWith.form, BoxWith.box, BoxWith.payloadWith,
            length_toBytesBE]
           omega)
      | jp2h f ch =>
        show 1 + ch.length ≤ (encodeBoxWith (BoxWith.jp2h f ch)).length
        have h2 := length_encodeLeavesWith_ge ch
        cases f <;>
          (simp [encodeBoxWith, BoxWith.form, BoxWith.box, BoxWith.payloadWith,
            length_toBytesBE]
           omega)
    omega

theorem parseBoxes_encodeWith :
    ∀ (l : List BoxWith) (fuel pos : Nat),
      boxesWithWeight l ≤ fuel → boxFormsOk l →
      parseBoxes fuel pos (encodeBoxesWith l) =
        some (expectedParsedW pos l, boxesWarnings (l.map BoxWith.box)) := by
  intro l
  induction l with
  | nil =>
    intro fuel pos _ _
    cases fuel with
    | zero => rfl
    | succ fl => rfl
  | cons bw t ih =>
    intro fuel pos hf hvl
    obtain ⟨⟨⟨hbox, hb64, hstd, hch⟩, hzero⟩, htv⟩ := hvl
    have hw1 : 1 ≤ boxWithWeight bw := by cases bw <;> simp [boxWithWeight]
    cases fuel with
    | zero =>
      exfalso
      simp only [boxesWithWeight] at hf
      omega
    | succ fl =>
      have htf : boxesWithWeight t ≤ fl := by
        simp only [boxesWithWeight] at hf
        omega
      cases bw with
      | leaf f b =>
        have hlv : leafValid b := hbox.1
        have hid : b.boxId < 2 ^ 32 := leafBoxId_lt b hlv
        have hne := leafBoxId_ne_jp2h b hlv
        cases f with
        | std =>
          have h32 : 8 + b.payloadBytes.length < 2 ^ 32 := hstd rfl
          show parseBoxes (fl + 1) pos
              ((toBytesBE 4 (8 + b.payloadBytes.length) ++
                (toBytesBE 4 b.boxId ++ b.payloadBytes)) ++ encodeBoxesWith t) = _
          rw [show (toBytesBE 4 (8 + b.payloadBytes.length) ++
                (toBytesBE 4 b.boxId ++ b.payloadBytes)) ++ encodeBoxesWith t =
              toBytesBE 4 (8 + b.payloadBytes.length) ++ (toBytesBE 4 b.boxId ++
                (b.payloadBytes ++ encodeBoxesWith t)) by simp [List.append_assoc]]
          rw [parseBoxes_step fl pos _ (toBytesBE_append_ne_nil 4 _ _ (by omega)),
            readBoxHeader_std b.boxId b.payloadBytes (encodeBoxesWith t) hid h32]
          simp only [if_neg hne, parseLeafPayload_roundtrip b hlv, Option.map_some']
          simp only [ih fl (pos + (8 + b.payloadBytes.length)) htf htv]
          simp [expectedParsedW, boxesWarnings, boxParseWarnings, BoxWith.box,
            BoxWith.form, BoxWith.payloadWith, hdrSizeOf]
        | ext =>
          show parseBoxes (fl + 1) pos
              ((toBytesBE 4 1 ++ (toBytesBE 4 b.boxId ++
                (toBytesBE 8 (16 + b.payloadBytes.length) ++ b.payloadBytes))) ++
                encodeBoxesWith t) = _
          rw [show (toBytesBE 4 1 ++ (toBytesBE 4 b.boxId ++
                (toBytesBE 8 (16 + b.payloadBytes.length) ++ b.payloadBytes))) ++
                encodeBoxesWith t =
              toBytesBE 4 1 ++ (toBytesBE 4 b.boxId ++
                (toBytesBE 8 (16 + b.payloadBytes.length) ++
                  (b.payloadBytes ++ encodeBoxesWith t))) by simp [List.append_assoc]]
          rw [parseBoxes_step fl pos _ (toBytesBE_append_ne_nil 4 _ _ (by omega)),
            readBoxHeader_ext b.boxId b.payloadBytes (encodeBoxesWith t) hid hb64]
          simp only [if_neg hne, parseLeafPayload_roundtrip b hlv, Option.map_some']
          simp only [ih fl (pos + (16 + b.payloadBytes.length)) htf htv]
          simp [expectedParsedW, boxesWarnings, boxParseWarnings, BoxWith.box,
            BoxWith.form, BoxWith.payloadWith, hdrSizeOf]
        | zero =>
          have ht : t = [] := hzero rfl
          subst ht
          show parseBoxes (fl + 1) pos
              ((toBytesBE 4 0 ++ (toBytesBE 4 b.boxId ++ b.payloadBytes)) ++ []) = _
          rw [List.append_nil,
            parseBoxes_step fl pos _ (toBytesBE_append_ne_nil 4 _ _ (by omega)),
            readBoxHeader_zero b.boxId b.payloadBytes hid]
          have htail : parseBoxes fl (pos + (8 + b.payloadBytes.length)) [] =
              some ([], []) := by
            cases fl <;> rfl
          simp only [if_neg hne, parseLeafPayload_roundtrip b hlv, Option.map_some', htail]
          simp [expectedParsedW, boxesWarnings, boxParseWarnings, BoxWith.box,
            BoxWith.form, BoxWith.payloadWith, hdrSizeOf]
      | jp2h f ch =>
        have hjid : jp2hId < 2 ^ 32 := by decide
        have hchl : ch.length ≤ fl := by
          simp only [boxesWithWeight, boxWithWeight] at hf
          omega
        have hchv : leafFormsOk ch := hch
        cases f with
        | std =>
          have h32 : 8 + (encodeLeavesWith ch).length < 2 ^ 32 := hstd rfl
          show parseBoxes (fl + 1) pos
              ((toBytesBE 4 (8 + (encodeLeavesWith ch).length) ++
                (toBytesBE 4 jp2hId ++ encodeLeavesWith ch)) ++ encodeBoxesWith t) = _
          rw [show (toBytesBE 4 (8 + (encodeLeavesWith ch).length) ++
                (toBytesBE 4 jp2hId ++ encodeLeavesWith ch)) ++ encodeBoxesWith t =
              toBytesBE 4 (8 + (encodeLeavesWith ch).length) ++ (toBytesBE 4 jp2hId ++
                (encodeLeavesWith ch ++ encodeBoxesWith t)) by simp [List.append_assoc]]
          rw [parseBoxes_step fl pos _ (toBytesBE_append_ne_nil 4 _ _ (by omega)),
            readBoxHeader_std jp2hId (encodeLeavesWith ch) (encodeBoxesWith t) hjid h32]
          simp only [if_pos (show jp2hId = jp2hId from rfl), if_true,
            parseLeafBoxes_encodeWith ch fl (pos + 8) hchl hchv, Option.map_some']
          simp only [ih fl (pos + (8 + (encodeLeavesWith ch).length)) htf htv]
          simp [expectedParsedW, boxesWarnings, boxParseWarnings, BoxWith.box,
            BoxWith.form, BoxWith.payloadWith, hdrSizeOf]
        | ext =>
          show parseBoxes (fl + 1) pos
              ((toBytesBE 4 1 ++ (toBytesBE 4 jp2hId ++
                (toBytesBE 8 (16 + (encodeLeavesWith ch).length) ++
                  encodeLeavesWith ch))) ++ encodeBoxesWith t) = _
          rw [show (toBytesBE 4 1 ++ (toBytesBE 4 jp2hId ++
                (toBytesBE 8 (16 + (encodeLeavesWith ch).length) ++
                  encodeLeavesWith ch))) ++ encodeBoxesWith t =
              toBytesBE 4 1 ++ (toBytesBE 4 jp2hId ++
                (toBytesBE 8 (16 + (encodeLeavesWith ch).length) ++
                  (encodeLeavesWith ch ++ encodeBoxesWith t))) by simp [List.append_assoc]]
          rw [parseBoxes_step fl pos _ (toBytesBE_append_ne_nil 4 _ _ (by omega)),
            readBoxHeader_ext jp2hId (encodeLeavesWith ch) (encodeBoxesWith t) hjid hb64]
          simp only [if_pos (show jp2hId = jp2hId from rfl), if_true,
            parseLeafBoxes_encodeWith ch fl (pos + 16) hchl hchv, Option.map_some']
          simp only [ih fl (pos + (16 + (encodeLeavesWith ch).length)) htf htv]
          simp [expectedParsedW, boxesWarnings, boxParseWarnings, BoxWith.box,
            BoxWith.form, BoxWith.payloadWith, hdrSizeOf]
        | zero =>
          have ht : t = [] := hzero rfl
          subst ht
          show parseBoxes (fl + 1) pos
              ((toBytesBE 4 0 ++ (toBytesBE 4 jp2hId ++ encodeLeavesWith ch)) ++ []) = _
          rw [List.append_nil,
            parseBoxes_step fl pos _ (toBytesBE_append_ne_nil 4 _ _ (by omega)),
            readBoxHeader_zero jp2hId (encodeLeavesWith ch) hjid]
          have htail : parseBoxes fl (pos + (8 + (encodeLeavesWith ch).length)) [] =
              some ([], []) := by
            cases fl <;> rfl
          simp only [if_pos (show jp2hId = jp2hId from rfl), if_true,
            parseLeafBoxes_encodeWith ch fl (pos + 8) hchl hchv, Option.map_some', htail]
          simp [expectedParsedW, boxesWarnings, boxParseWarnings, BoxWith.box,
            BoxWith.form, BoxWith.payloadWith, hdrSizeOf]

theorem parseFile_encodeWith (l : List BoxWith) (hv : boxFormsOk l) :
    parseFile (encodeBoxesWith l) =
      some (expectedParsedW 0 l, boxesWarnings (l.map BoxWith.box)) :=
  parseBoxes_encodeWith l (encodeBoxesWith l).length 0 (boxesWithWeight_le_length l) hv

theorem expectedParsedW_map_box (l : List BoxWith) : ∀ pos,
    (expectedParsedW pos l).map ParsedBox.box = l.map BoxWith.box := by
  induction l with
  | nil => intro pos; rfl
  | cons bw t ih =>
    intro pos
    simp only [expectedParsedW, List.map_cons, ih]

/-- C2: serialize-then-parse round-trips.  (i) Parsing the
serialization of a well-formed box tree succeeds and yields field-wise
equal boxes, and re-serializing the unmodified parsed tree reproduces
byte-identical output.  (ii) Parsing the serialization of any
well-formed marker segment — SOC, SOD, EOC, SIZ, COD, SOT, COC, QCD,
QCC, RGN, CRG, PLT, PLM, PPT, PPM, COM, the raw POD carrier and
unknown markers alike — returns a field-wise equal segment with the
following bytes untouched.  (iii) The 2-byte component-index variants
of COC and QCC (SIZ component count of 257 or more) round-trip as
well.  (iv) A file whose boxes are encoded with arbitrary, possibly
non-canonical, header forms (L = 1 extended length, L = 0
extends-to-end) parses to the same field-wise box tree, and
re-serializing that unmodified parsed tree reproduces the canonical
bytes — identical to the input except for the recomputed header
length fields. -/
theorem serialize_parse_roundtrip :
    (∀ l : List Box, boxesValid l →
       parseFile (serializeBoxes l) = some (expectedParsed 0 l, boxesWarnings l) ∧
       (expectedParsed 0 l).map ParsedBox.box = l ∧
       serializeBoxes ((expectedParsed 0 l).map ParsedBox.box) = serializeBoxes l) ∧
    (∀ (seg : Segment) (rest : List Byte), segValid seg →
       parseOneSegment (serializeSegment seg ++ rest) =
         some (seg, rest, segParseWarnings seg)) ∧
    (∀ (w : Nat) (c : COCsegment), cocValid w c →
       parseCocContent w (serializeCocContent w c) = some (c, cocWarnings c)) ∧
    (∀ (w : Nat) (q : QCCsegment), qccValid w q →
       parseQccContent w (serializeQccContent w q) = some (q, [])) ∧
    (∀ l : List BoxWith, boxFormsOk l →
       parseFile (encodeBoxesWith l) =
         some (expectedParsedW 0 l, boxesWarnings (l.map BoxWith.box)) ∧
       (expectedParsedW 0 l).map ParsedBox.box = l.map BoxWith.box ∧
       serializeBoxes ((expectedParsedW 0 l).map ParsedBox.box) =
         serializeBoxes (l.map BoxWith.box)) := by
  refine ⟨?_, fun seg rest hv => parseOneSegment_serialize seg rest hv,
    fun w c hv => parseCocContent_roundtrip w c hv,
    fun w q hv => parseQccContent_roundtrip w q hv, ?_⟩
  · intro l hv
    refine ⟨parseFile_roundtrip l hv, expectedParsed_map_box l 0, ?_⟩
    rw [expectedParsed_map_box l 0]
  · intro l hv
    refine ⟨parseFile_encodeWith l hv, expectedParsedW_map_box l 0, ?_⟩
    rw [expectedParsedW_map_box l 0]

theorem serialize_parse_roundtrip_witness :
    boxesValid sampleGoodBoxes ∧
    parseFile (serializeBoxes sampleGoodBoxes) =
      some (expectedParsed 0 sampleGoodBoxes, boxesWarnings sampleGoodBoxes) ∧
    (expectedParsed 0 sampleGoodBoxes).map ParsedBox.box = sampleGoodBoxes ∧
    parseOneSegment (serializeSegment (Segment.PLT { zplt := 0, iplt := [5, 300] }) ++ []) =
      some (Segment.PLT { zplt := 0, iplt := [5, 300] }, [], []) ∧
    parseCocContent 2 (serializeCocContent 2 sampleCoc) =
      some (sampleCoc, cocWarnings sampleCoc) ∧
    parseQccContent 2 (serializeQccContent 2 sampleQcc) = some (sampleQcc, []) ∧
    parseFile (encodeBoxesWith sampleFormBoxes) =
      some (expectedParsedW 0 sampleFormBoxes,
            boxesWarnings (sampleFormBoxes.map BoxWith.box)) ∧
    (expectedParsedW 0 sampleFormBoxes).map ParsedBox.box =
      sampleFormBoxes.map BoxWith.box := by
  have h1 := serialize_parse_roundtrip.1 sampleGoodBoxes (by decide)
  have h5 := serialize_parse_roundtrip.2.2.2.2 sampleFormBoxes (by decide)
  exact ⟨by decide, h1.1, h1.2.1,
    serialize_parse_roundtrip.2.1 (Segment.PLT { zplt := 0, iplt := [5, 300] }) [] (by decide),
    serialize_parse_roundtrip.2.2.1 2 sampleCoc (by decide),
    serialize_parse_roundtrip.2.2.2.1 2 sampleQcc (by decide),
    h5.1, h5.2.1⟩

theorem findSome?_mem {α β : Type} (f : α → Option β) :
    ∀ (l : List α) (b : β), l.findSome? f = some b → ∃ a ∈ l, f a = some b := by
  intro l
  induction l with
  | nil => intro b h; cases h
  | cons x xs ih =>
    intro b h
    rw [List.findSome?_cons] at h
    cases hfx : f x with
    | some y =>
      rw [hfx] at h
      exact ⟨x, by simp, by rw [hfx]; exact h⟩
    | none =>
      rw [hfx] at h
      obtain ⟨a, ha, hfa⟩ := ih b h
      exact ⟨a, by simp [ha], hfa⟩

theorem readBEs_bounds : ∀ (ws : List Nat) (bs : List Byte) (vs : List Nat) (r : List Byte),
    readBEs ws bs = some (vs, r) → List.Forall₂ (fun w v => v < 256 ^ w) ws vs := by
  intro ws
  induction ws with
  | nil =>
    intro bs vs r h
    unfold readBEs at h
    injection h with h'
    injection h' with h1 h2
    subst h1
    exact List.Forall₂.nil
  | cons w wt ih =>
    intro bs vs r h
    unfold readBEs at h
    split at h
    · cases h
    · rename_i v r1 heq
      split at h
      · cases h
      · rename_i vs2 r2 heq2
        injection h with h'
        injection h' with h1 h2
        subst h1
        exact List.Forall₂.cons (readBE_bound heq) (ih r1 vs2 r2 heq2)

theorem readComps_lengths : ∀ (n : Nat) (bs : List Byte)
    (comps : List Nat × List Nat × List Nat) (r : List Byte),
    readComps n bs = some (comps, r) →
    comps.1.length = n ∧ comps.2.1.length = n ∧ comps.2.2.length = n := by
  intro n
  induction n with
  | zero =>
    intro bs comps r h
    injection h with h'
    injection h' with h1 h2
    subst h1
    exact ⟨rfl, rfl, rfl⟩
  | succ k ih =>
    intro bs comps r h
    rcases bs with _ | ⟨s, _ | ⟨x, _ | ⟨y, rest⟩⟩⟩
    · cases h
    · cases h
    · cases h
    · rw [show readComps (k + 1) (s :: x :: y :: rest) =
          (readComps k rest).map
            (fun p => ((s.val :: p.1.1, x.val :: p.1.2.1, y.val :: p.1.2.2), p.2)) from rfl] at h
      cases hq : readComps k rest with
      | none => rw [hq] at h; cases h
      | some p =>
        rw [hq, Option.map_some'] at h
        injection h with h'
        injection h' with h1 h2
        subst h1
        obtain ⟨l1, l2, l3⟩ := ih rest p.1 p.2 (by rw [hq])
        refine ⟨?_, ?_, ?_⟩ <;> simp [l1, l2, l3]

theorem parseSizContent_inv (content : List Byte) (d : SIZsegment) (ws : List Warning)
    (h : parseSizContent content = some (d, ws)) : sizFieldBounds d := by
  unfold parseSizContent at h
  split at h
  · rename_i rsiz xsiz ysiz xosiz yosiz xtsiz ytsiz xtosiz ytosiz csiz c9 heq
    split at h
    · rename_i comps r heq2
      simp only [Option.some.injEq, Prod.mk.injEq] at h
      obtain ⟨h1, h2⟩ := h
      subst h1
      have hb := readBEs_bounds sizWidths content _ c9 heq
      rcases hb with _ | ⟨hb1, _ | ⟨hb2, _ | ⟨hb3, _ | ⟨hb4, _ | ⟨hb5, _ |
        ⟨hb6, _ | ⟨hb7, _ | ⟨hb8, _ | ⟨hb9, _ | ⟨hb10, -⟩⟩⟩⟩⟩⟩⟩⟩⟩⟩
      obtain ⟨l1, l2, l3⟩ := readComps_lengths csiz c9 comps r heq2
      refine ⟨?_, ?_, ?_, ?_⟩
      · show xsiz < 2 ^ 32
        have : (256 : Nat) ^ 4 = 2 ^ 32 := by norm_num
        omega
      · show ysiz < 2 ^ 32
        have : (256 : Nat) ^ 4 = 2 ^ 32 := by norm_num
        omega
      · show comps.2.1.length < 2 ^ 16
        have : (256 : Nat) ^ 2 = 2 ^ 16 := by norm_num
        omega
      · intro b hbmem
        have hbm : b ∈ comps.1.map (fun v => v % 128 + 1) := hbmem
        obtain ⟨v, hv, hveq⟩ := List.mem_map.mp hbm
        have : v % 128 < 128 := Nat.mod_lt v (by norm_num)
        omega
    · cases h
  · cases h

theorem parseSizSegment_inv (bs : List Byte) (d : SIZsegment) (rest : List Byte)
    (ws : List Warning) (h : parseSizSegment bs = some (d, rest, ws)) : sizFieldBounds d := by
  unfold parseSizSegment at h
  split at h
  · rename_i len r0 heq
    split at h
    · rename_i content r1 heq2
      split at h
      · rename_i seg ws2 heq3
        injection h with h'
        injection h' with h1 h2
        subst h1
        exact parseSizContent_inv content seg ws2 heq3
      · cases h
    · cases h
  · cases h

theorem parseOneSegment_SIZ_inv (bs rest : List Byte) (d : SIZsegment) (ws : List Warning)
    (h : parseOneSegment bs = some (Segment.SIZ d, rest, ws)) : sizFieldBounds d := by
  unfold parseOneSegment at h
  split at h
  · rename_i code r0 heq
    by_cases hc0 : code = 0xFF4F
    · rw [if_pos hc0] at h
      cases h
    rw [if_neg hc0] at h
    by_cases hc1 : code = 0xFF93
    · rw [if_pos hc1] at h
      cases h
    rw [if_neg hc1] at h
    by_cases hc2 : code = 0xFFD9
    · rw [if_pos hc2] at h
      cases h
    rw [if_neg hc2] at h
    by_cases hc3 : code = 0xFF51
    · rw [if_pos hc3, Option.map_eq_some'] at h
      obtain ⟨p, hp, heq2⟩ := h
      obtain ⟨p1, p2, p3⟩ := p
      simp only [Prod.mk.injEq, Segment.SIZ.injEq] at heq2
      obtain ⟨hh1, -, -⟩ := heq2
      subst hh1
      exact parseSizSegment_inv r0 p1 p2 p3 hp
    rw [if_neg hc3] at h
    by_cases hc4 : code = 0xFF52
    · rw [if_pos hc4, Option.map_eq_some'] at h
      obtain ⟨p, hp, heq2⟩ := h
      injection heq2 with hh1 hh2
      exact Segment.noConfusion hh1
    rw [if_neg hc4] at h
    by_cases hc5 : code = 0xFF90
    · rw [if_pos hc5, Option.map_eq_some'] at h
      obtain ⟨p, hp, heq2⟩ := h
      injection heq2 with hh1 hh2
      exact Segment.noConfusion hh1
    rw [if_neg hc5] at h
    by_cases hc6 : code = 0xFF53
    · rw [if_pos hc6, Option.map_eq_some'] at h
      obtain ⟨p, hp, heq2⟩ := h
      injection heq2 with hh1 hh2
      exact Segment.noConfusion hh1
    rw [if_neg hc6] at h
    by_cases hc7 : code = 0xFF5C
    · rw [if_pos hc7, Option.map_eq_some'] at h
      obtain ⟨p, hp, heq2⟩ := h
      injection heq2 with hh1 hh2
      exact Segment.noConfusion hh1
    rw [if_neg hc7] at h
    by_cases hc8 : code = 0xFF5D
    · rw [if_pos hc8, Option.map_eq_some'] at h
      obtain ⟨p, hp, heq2⟩ := h
      injection heq2 with hh1 hh2
      exact Segment.noConfusion hh1
    rw [if_neg hc8] at h
    by_cases hc9 : code = 0xFF5E
    · rw [if_pos hc9, Option.map_eq_some'] at h
      obtain ⟨p, hp, heq2⟩ := h
      injection heq2 with hh1 hh2
      exact Segment.noConfusion hh1
    rw [if_neg hc9] at h
    by_cases hc10 : code = 0xFF63
    · rw [if_pos hc10, Option.map_eq_some'] at h
      obtain ⟨p, hp, heq2⟩ := h
      injection heq2 with hh1 hh2
      exact Segment.noConfusion hh1
    rw [if_neg hc10] at h
    by_cases hc11 : code = 0xFF58
    · rw [if_pos hc11, Option.map_eq_some'] at h
      obtain ⟨p, hp, heq2⟩ := h
      injection heq2 with hh1 hh2
      exact Segment.noConfusion hh1
    rw [if_neg hc11] at h
    by_cases hc12 : code = 0xFF57
    · rw [if_pos hc12, Option.map_eq_some'] at h
      obtain ⟨p, hp, heq2⟩ := h
      injection heq2 with hh1 hh2
      exact Segment.noConfusion hh1
    rw [if_neg hc12] at h
    by_cases hc13 : code = 0xFF61
    · rw [if_pos hc13, Option.map_eq_some'] at h
      obtain ⟨p, hp, heq2⟩ := h
      injection heq2 with hh1 hh2
      exact Segment.noConfusion hh1
    rw [if_neg hc13] at h
    by_cases hc14 : code = 0xFF60
    · rw [if_pos hc14, Option.map_eq_some'] at h
      obtain ⟨p, hp, heq2⟩ := h
      injection heq2 with hh1 hh2
      exact Segment.noConfusion hh1
    rw [if_neg hc14] at h
    by_cases hc15 : code = 0xFF64
    · rw [if_pos hc15, Option.map_eq_some'] at h
      obtain ⟨p, hp, heq2⟩ := h
      injection heq2 with hh1 hh2
      exact Segment.noConfusion hh1
    rw [if_neg hc15] at h
    split at h
    · rename_i len r1 heq2
      split at h
      · rename_i data r2 heq3
        split at h
        · cases h
        · cases h
      · cases h
    · cases h
  · cases h

theorem parseSegmentsAux_SIZ_inv :
    ∀ (fuel : Nat) (bs : List Byte) (segs : List Segment) (ws : List Warning),
      parseSegmentsAux fuel bs = some (segs, ws) →
      ∀ d, Segment.SIZ d ∈ segs → sizFieldBounds d := by
  intro fuel
  induction fuel with
  | zero =>
    intro bs segs ws h d hd
    cases bs with
    | nil =>
      injection h with h'
      injection h' with h1 h2
      subst h1
      simp at hd
    | cons x xs => cases h
  | succ f ih =>
    intro bs segs ws h d hd
    cases bs with
    | nil =>
      injection h with h'
      injection h' with h1 h2
      subst h1
      simp at hd
    | cons x xs =>
      rw [parseSegmentsAux_cons f x xs] at h
      split at h
      · rename_i seg rest wsx heq
        split at h
        · injection h with h'
          injection h' with h1 h2
          subst h1
          simp at hd
        · injection h with h'
          injection h' with h1 h2
          subst h1
          simp at hd
        · rename_i hnsod hneoc
          split at h
          · rename_i segs2 ws2 heq2
            injection h with h'
            injection h' with h1 h2
            subst h1
            rcases List.mem_cons.mp hd with hhd | htl
            · subst hhd
              exact parseOneSegment_SIZ_inv (x :: xs) rest d wsx heq
            · exact ih rest segs2 ws2 heq2 d htl
          · cases h
      · cases h

theorem sizOfCodestream_inv (cs : List Byte) (d : SIZsegment)
    (h : sizOfCodestream cs = some d) : sizFieldBounds d := by
  unfold sizOfCodestream at h
  split at h
  · rename_i segs ws heq
    obtain ⟨s, hs, hfs⟩ := findSome?_mem _ segs d h
    have hsd : s = Segment.SIZ d := by
      cases s <;> simp_all
    subst hsd
    unfold parseCodestream at heq
    split at heq
    · rename_i code rest heq2
      split_ifs at heq
      split at heq
      · rename_i segs2 ws2 heq3
        injection heq with h'
        injection h' with h1 h2
        subst h1
        rcases List.mem_cons.mp hs with hhd | htl
        · cases hhd
        · exact parseSegmentsAux_SIZ_inv cs.length rest segs2 ws2 heq3 d htl
      · cases heq
    · cases heq
  · cases h

theorem ihdr_payload_length (b : ImageHeaderBox) :
    (LeafBox.ihdr b).payloadBytes.length = 14 := by
  show (toBytesBEs [4, 4, 2, 1, 1, 1, 1]
      [b.height, b.width, b.numComponents,
       (if b.signed then 128 else 0) + (b.bitsPerComponent - 1), b.compression,
       (if b.colorspaceUnknown then 1 else 0), (if b.ipProvided then 1 else 0)]).length = 14
  rw [length_toBytesBEs (by rfl)]
  decide

theorem defaultColr_payload_length (nc : Nat) :
    (LeafBox.colr (defaultColr nc)).payloadBytes.length = 7 := by
  show (toBytesBEs [1, 1, 1] [1, 0, 0] ++
      (toBytesBE 4 (if nc = 1 ∨ nc = 2 then 17 else 16) ++ [])).length = 7
  simp [toBytesBEs, length_toBytesBE]

theorem serializeLeaf_ihdr_length (b : ImageHeaderBox) :
    (serializeLeaf (LeafBox.ihdr b)).length = 22 := by
  show (mkBoxBytes ihdrId (LeafBox.ihdr b).payloadBytes).length = 22
  unfold mkBoxBytes
  rw [ihdr_payload_length, if_pos (by norm_num)]
  simp only [List.length_append, length_toBytesBE, ihdr_payload_length]

theorem serializeLeaf_colr_default_length (nc : Nat) :
    (serializeLeaf (LeafBox.colr (defaultColr nc))).length = 15 := by
  show (mkBoxBytes colrId (LeafBox.colr (defaultColr nc)).payloadBytes).length = 15
  unfold mkBoxBytes
  rw [defaultColr_payload_length, if_pos (by norm_num)]
  simp only [List.length_append, length_toBytesBE, defaultColr_payload_length]

theorem defaultJp2hPayload_length (d : SIZsegment) :
    (serializeLeafBoxes
      [LeafBox.ihdr (ihdrFromSiz d), LeafBox.colr (defaultColr d.numComponents)]).length = 37 := by
  show (serializeLeaf (LeafBox.ihdr (ihdrFromSiz d)) ++
      (serializeLeaf (LeafBox.colr (defaultColr d.numComponents)) ++ [])).length = 37
  simp [serializeLeaf_ihdr_length, serializeLeaf_colr_default_length]

theorem defaultBoxes_valid (d : SIZsegment) (cs : List Byte)
    (hb : sizFieldBounds d) (hlen : 16 + cs.length < 2 ^ 64) :
    boxesValid (defaultBoxes d cs) := by
  obtain ⟨hx, hy, hnc, hbd⟩ := hb
  intro b hbm
  simp only [defaultBoxes, List.mem_cons, List.not_mem_nil, or_false] at hbm
  rcases hbm with h1 | h2 | h3 | h4
  · subst h1
    exact (show boxValid (Box.leaf .signature) by decide)
  · subst h2
    exact (show boxValid (Box.leaf (.ftyp
      { brand := jp2Brand, minorVersion := 0, compatibilityList := [jp2Brand] })) by decide)
  · subst h3
    constructor
    · intro c hc
      simp only [List.mem_cons, List.not_mem_nil, or_false] at hc
      rcases hc with hc1 | hc2
      · subst hc1
        refine ⟨⟨hy, hx, hnc, ?_, ?_, (show (7 : Nat) < 256 by decide)⟩, ?_⟩
        · show 1 ≤ d.bitdepth.headD 8
          cases hd : d.bitdepth with
          | nil => simp
          | cons v t => exact (hbd v (by simp [hd])).1
        · show d.bitdepth.headD 8 ≤ 128
          cases hd : d.bitdepth with
          | nil => simp
          | cons v t => exact (hbd v (by simp [hd])).2
        · rw [ihdr_payload_length]
          norm_num
      · subst hc2
        refine ⟨⟨(show (1 : Nat) < 256 by decide), (show (0 : Nat) < 256 by decide),
          (show (0 : Nat) < 256 by decide), ?_, ?_⟩, ?_⟩
        · intro _
          refine ⟨rfl, ?_, ?_⟩
          · show ¬ (some (if d.numComponents = 1 ∨ d.numComponents = 2 then 17 else 16) = none)
            simp
          · show (some (if d.numComponents = 1 ∨ d.numComponents = 2 then 17 else 16)).getD 0 < 2 ^ 32
            split <;> decide
        · intro hne
          exact absurd rfl hne
        · rw [defaultColr_payload_length]
          norm_num
    · rw [defaultJp2hPayload_length]
      norm_num
  · subst h4
    exact ⟨trivial, hlen⟩

theorem defaultBoxes_validate (d : SIZsegment) (cs : List Byte) :
    validateBoxes (defaultBoxes d cs) = true := rfl

/-- C1: wrapping a raw codestream whose SIZ segment is `d` into the
default JP2 container succeeds, and the produced file parses back as
exactly the top-level boxes jP-signature, ftyp, jp2h, jp2c; the jp2h
superbox contains exactly an Image Header followed by a Colour
Specification; and the Image Header's height, width and component
count equal the SIZ segment's ysiz, xsiz and component count. -/
theorem wrap_default_layout (cs : List Byte) (d : SIZsegment)
    (hsiz : sizOfCodestream cs = some d) (hlen : 16 + cs.length < 2 ^ 64) :
    wrap cs = some (serializeBoxes (defaultBoxes d cs)) ∧
    parseFile (serializeBoxes (defaultBoxes d cs)) =
      some (expectedParsed 0 (defaultBoxes d cs), boxesWarnings (defaultBoxes d cs)) ∧
    (expectedParsed 0 (defaultBoxes d cs)).map ParsedBox.box = defaultBoxes d cs ∧
    (defaultBoxes d cs).map Box.boxId = [jPsigId, ftypId, jp2hId, jp2cId] ∧
    (defaultBoxes d cs)[2]? =
      some (Box.jp2h [LeafBox.ihdr (ihdrFromSiz d), LeafBox.colr (defaultColr d.numComponents)]) ∧
    [LeafBox.ihdr (ihdrFromSiz d), LeafBox.colr (defaultColr d.numComponents)].map
      LeafBox.boxId = [ihdrId, colrId] ∧
    (ihdrFromSiz d).height = d.ysiz ∧ (ihdrFromSiz d).width = d.xsiz ∧
    (ihdrFromSiz d).numComponents = d.numComponents := by
  have hv := defaultBoxes_valid d cs (sizOfCodestream_inv cs d hsiz) hlen
  refine ⟨?_, parseFile_roundtrip _ hv, expectedParsed_map_box _ 0, rfl, rfl, rfl, rfl, rfl, rfl⟩
  unfold wrap
  rw [hsiz]
  show writeBoxes (defaultBoxes d cs) = some (serializeBoxes (defaultBoxes d cs))
  unfold writeBoxes
  rw [if_pos (defaultBoxes_validate d cs)]

theorem wrap_default_layout_witness :
    sizOfCodestream sampleCodestream = some sampleSiz ∧
    wrap sampleCodestream = some (serializeBoxes (defaultBoxes sampleSiz sampleCodestream)) ∧
    (defaultBoxes sampleSiz sampleCodestream).map Box.boxId =
      [jPsigId, ftypId, jp2hId, jp2cId] ∧
    (ihdrFromSiz sampleSiz).height = 4 ∧ (ihdrFromSiz sampleSiz).width = 4 ∧
    (ihdrFromSiz sampleSiz).numComponents = 1 := by
  have hs : sizOfCodestream sampleCodestream = some sampleSiz := by decide
  have h := wrap_default_layout sampleCodestream sampleSiz hs (by decide)
  exact ⟨hs, h.1, h.2.2.2.1, by decide, by decide, by decide⟩

end Glymur
